import Mathlib

/-!
Verification of the core ledger subsystems of the `slave-of-capitalism`
backend (balance snapshot cache, settlement state machine, calibration
resolution), shallowly embedded from
`backend/app/services/{wallet,snapshot,transaction,linked_entry}_service.py`
and `backend/app/models/*`.

Conventions of the embedding:
- `Decimal(12,2)` monetary values are represented as `Int` numbers of cents
  (all source arithmetic on them is addition/subtraction/comparison, which is
  exact); `Decimal("0.01")` is the integer `1`.
- `datetime.date` values are represented as `Int` day numbers;
  `(d1 - d2).days` is `d1 - d2` and `timedelta(days = 1)` is `1`.
- "today" (`date.today()`) is passed explicitly to every operation that
  reads the clock.
- The SQLAlchemy session is modelled by explicit database states (`DB`).
  Operations that may raise after `db.commit()` has already run inside the
  call (the source's `invalidate_snapshots` and nested service calls commit)
  thread a pair of states (working, committed) and, on error, return the
  committed state: this is exactly what a caller observes after rollback.
- Fields never read by the modelled operations (`time`, `category_id`,
  `subcategory_id`, `created_at`, `updated_at`, wallet names and credit
  limits, counterparty names and notes) are omitted.
- `LinkStatus.PARTIALLY` models the source's `LinkStatus.PARTIAL`.
-/

/-- `TransactionDirection` from `models/transaction.py`. -/
inductive TransactionDirection where
  | INFLOW
  | OUTFLOW
  | RESERVED
deriving DecidableEq, Repr

/-- `TransactionClassification` from `models/transaction.py`. -/
inductive TransactionClassification where
  | EXPENSE
  | INCOME
  | LEND
  | BORROW
  | DEBT_COLLECTION
  | LOAN_REPAYMENT
  | SPLIT_PAYMENT
  | TRANSFER
  | INSTALLMENT
  | INSTALLMT_CHRGE
deriving DecidableEq, Repr

/-- `WalletType` from `models/wallet.py` (`NORMAL` / `CREDIT`). -/
inductive WalletType where
  | NORMAL
  | CREDIT
deriving DecidableEq, Repr

/-- `LinkType` from `models/linked_entry.py`. -/
inductive LinkType where
  | SPLIT_PAYMENT
  | LOAN
  | DEBT
  | INSTALLMENT
deriving DecidableEq, Repr

/-- `LinkStatus` from `models/linked_entry.py`; `PARTIALLY` models `PARTIAL`. -/
inductive LinkStatus where
  | PENDING
  | PARTIALLY
  | SETTLED
deriving DecidableEq, Repr

/-- The `transactions` row (`models/transaction.py`), restricted to the
columns the modelled operations read or write. -/
structure Transaction where
  id : Nat
  date : Int
  wallet_id : Nat
  direction : TransactionDirection
  amount : Int
  classification : TransactionClassification
  description : Option String
  paired_transaction_id : Option Nat
  is_ignored : Bool
  is_calibration : Bool
deriving DecidableEq, Repr

/-- The `wallet_snapshots` row (`models/snapshot.py`). -/
structure WalletSnapshot where
  wallet_id : Nat
  snapshot_date : Int
  balance : Int
deriving DecidableEq, Repr

/-- The `wallets` row (`models/wallet.py`), restricted to what balance
computation reads. -/
structure Wallet where
  id : Nat
  wallet_type : WalletType
deriving DecidableEq, Repr

/-- The `linked_entries` row (`models/linked_entry.py`). -/
structure LinkedEntry where
  id : Nat
  link_type : LinkType
  primary_transaction_id : Nat
  total_amount : Int
  user_amount : Option Int
  pending_amount : Int
  status : LinkStatus
deriving DecidableEq, Repr

/-- The `linked_transactions` join row (`models/linked_entry.py`).  The
settled amount is not stored; it is always read from the linked
transaction's `amount`. -/
structure LinkedTransaction where
  id : Nat
  linked_entry_id : Nat
  transaction_id : Nat
deriving DecidableEq, Repr

/-- The relational store: all tables plus primary-key counters. -/
structure DB where
  wallets : List Wallet
  transactions : List Transaction
  snapshots : List WalletSnapshot
  linked_entries : List LinkedEntry
  linked_transactions : List LinkedTransaction
  next_transaction_id : Nat
  next_entry_id : Nat
  next_link_id : Nat
deriving DecidableEq, Repr

/-- `LAZY_SNAPSHOT_INTERVAL_DAYS` from `constants.py`. -/
def LAZY_SNAPSHOT_INTERVAL_DAYS : Int := 90

/-- `LARGE_CACHE_REBUILD_DAYS` from `constants.py`. -/
def LARGE_CACHE_REBUILD_DAYS : Int := 180

/-- `LARGE_CACHE_REBUILD_TRANSACTIONS` from `constants.py`. -/
def LARGE_CACHE_REBUILD_TRANSACTIONS : Nat := 10000

/-- Error kinds for the `ValueError` / `LinkedEntryError` exceptions raised
by the services (the message text is irrelevant to control flow). -/
inductive Err where
  | largeRebuild
  | entryNotFound
  | alreadySettled
  | transactionsNotFound
  | exceedsPending
  | alreadyLinked
  | wrongDirection
  | wrongClassification
  | linkNotFound
  | transactionNotFound
  | alreadyHasEntry
  | userAmountRequired
  | userAmountExceedsTotal
  | userAmountTooHigh
  | notCalibration
  | walletNotFound
  | balanceAlreadyCorrect
deriving DecidableEq, Repr

/-- `wallet_service.get_wallet`: first wallet with the given id. -/
def get_wallet (db : DB) (wallet_id : Nat) : Option Wallet :=
  db.wallets.find? (fun w => w.id == wallet_id)

/-- `transaction_service.get_transaction`: first transaction with the id. -/
def get_transaction (db : DB) (transaction_id : Nat) : Option Transaction :=
  db.transactions.find? (fun t => t.id == transaction_id)

/-- `linked_entry_service.get_linked_entry`. -/
def get_linked_entry (db : DB) (entry_id : Nat) : Option LinkedEntry :=
  db.linked_entries.find? (fun e => e.id == entry_id)

/-- The candidate snapshots of `snapshot_service.get_latest_snapshot`:
the wallet's snapshots, restricted to `snapshot_date <= before_date` when a
bound is given. -/
def snapshot_candidates (db : DB) (wallet_id : Nat) (before_date : Option Int) :
    List WalletSnapshot :=
  db.snapshots.filter (fun s =>
    s.wallet_id == wallet_id &&
      (match before_date with
       | some d => decide (s.snapshot_date ≤ d)
       | none => true))

/-- One comparison step of the `ORDER BY snapshot_date DESC ... first()`
selection: keep the candidate with the strictly larger date. -/
def pick_step (best : Option WalletSnapshot) (s : WalletSnapshot) :
    Option WalletSnapshot :=
  match best with
  | none => some s
  | some b => if s.snapshot_date > b.snapshot_date then some s else some b

/-- `ORDER BY snapshot_date DESC ... first()`: the first candidate carrying
the maximal `snapshot_date`. -/
def pick_latest (l : List WalletSnapshot) : Option WalletSnapshot :=
  l.foldl pick_step none

/-- `snapshot_service.get_latest_snapshot`. -/
def get_latest_snapshot (db : DB) (wallet_id : Nat) (before_date : Option Int) :
    Option WalletSnapshot :=
  pick_latest (snapshot_candidates db wallet_id before_date)

/-- `snapshot_service.create_snapshot` (ignoring the returned row). -/
def create_snapshot (db : DB) (wallet_id : Nat) (snapshot_date : Int)
    (balance : Int) : DB :=
  { db with snapshots := db.snapshots ++ [⟨wallet_id, snapshot_date, balance⟩] }

/-- `snapshot_service.invalidate_snapshots`: delete every snapshot of the
wallet with `snapshot_date >= from_date`.  The source commits inside this
function; call sites in composite operations mark the commit explicitly. -/
def invalidate_snapshots (db : DB) (wallet_id : Nat) (from_date : Int) : DB :=
  { db with snapshots :=
      db.snapshots.filter (fun s =>
        !(s.wallet_id == wallet_id && decide (s.snapshot_date ≥ from_date))) }

/-- `snapshot_service.check_rebuild_impact`: count of the wallet's
transactions with `date >= from_date`. -/
def check_rebuild_impact (db : DB) (wallet_id : Nat) (from_date : Int) : Nat :=
  (db.transactions.filter (fun t =>
    t.wallet_id == wallet_id && decide (t.date ≥ from_date))).length

/-- Sum of the `amount` column over a list of transactions. -/
def sum_amounts (l : List Transaction) : Int :=
  (l.map Transaction.amount).sum

/-- The transaction filter common to both sums of
`calculate_wallet_balance`: the wallet's transactions up to `target_date`,
restricted to dates strictly after the snapshot date when a snapshot was
found. -/
def balance_window (wallet_id : Nat) (target_date : Int)
    (latest_snapshot : Option WalletSnapshot) (t : Transaction) : Bool :=
  t.wallet_id == wallet_id && decide (t.date ≤ target_date) &&
    (match latest_snapshot with
     | some s => decide (t.date > s.snapshot_date)
     | none => true)

/-- `wallet_service.calculate_wallet_balance`.  Returns the balance and the
database after the optional lazy-snapshot write-back. -/
def calculate_wallet_balance (db : DB) (today : Int) (wallet_id : Nat)
    (for_date : Option Int) (trigger_lazy_snapshot : Bool) : Int × DB :=
  match get_wallet db wallet_id with
  | none => (0, db)
  | some wallet =>
    let target_date := for_date.getD today
    let latest_snapshot := get_latest_snapshot db wallet_id (some target_date)
    let start_balance :=
      match latest_snapshot with
      | some s => s.balance
      | none => 0
    let inflow_sum := sum_amounts (db.transactions.filter (fun t =>
      balance_window wallet_id target_date latest_snapshot t &&
        t.direction == TransactionDirection.INFLOW))
    let outflow_sum := sum_amounts (db.transactions.filter (fun t =>
      balance_window wallet_id target_date latest_snapshot t &&
        t.direction == TransactionDirection.OUTFLOW))
    if wallet.wallet_type == WalletType.CREDIT then
      (start_balance + (outflow_sum - inflow_sum), db)
    else
      let final_balance := start_balance + (inflow_sum - outflow_sum)
      let db' :=
        if trigger_lazy_snapshot && target_date == today then
          let should_create_snapshot :=
            match latest_snapshot with
            | none => true
            | some s => decide (today - s.snapshot_date > LAZY_SNAPSHOT_INTERVAL_DAYS)
          if should_create_snapshot then
            let snapshot_date := today - 1
            let skip :=
              match latest_snapshot with
              | some s => decide (s.snapshot_date ≥ snapshot_date)
              | none => false
            if skip then db
            else
              let inflows_today := sum_amounts (db.transactions.filter (fun t =>
                t.wallet_id == wallet_id &&
                  t.direction == TransactionDirection.INFLOW &&
                  t.date == today))
              let outflows_today := sum_amounts (db.transactions.filter (fun t =>
                t.wallet_id == wallet_id &&
                  t.direction == TransactionDirection.OUTFLOW &&
                  t.date == today))
              let balance_yesterday := final_balance - inflows_today + outflows_today
              match get_latest_snapshot db wallet_id (some snapshot_date) with
              | some existing =>
                if existing.snapshot_date == snapshot_date then db
                else create_snapshot db wallet_id snapshot_date balance_yesterday
              | none => create_snapshot db wallet_id snapshot_date balance_yesterday
          else db
        else db
      (final_balance, db')

/-- Replace the transaction row with the given id. -/
def set_transaction_row (db : DB) (transaction_id : Nat) (t' : Transaction) : DB :=
  { db with transactions :=
      db.transactions.map (fun t => if t.id == transaction_id then t' else t) }

/-- Delete the transaction row with the given id. -/
def remove_transaction_row (db : DB) (transaction_id : Nat) : DB :=
  { db with transactions := db.transactions.filter (fun t => t.id != transaction_id) }

/-- Replace the linked-entry row with the given id. -/
def set_entry_row (db : DB) (entry_id : Nat) (e' : LinkedEntry) : DB :=
  { db with linked_entries :=
      db.linked_entries.map (fun e => if e.id == entry_id then e' else e) }

/-- `db.delete(entry)` with its `cascade="all, delete-orphan"` on
`linked_transactions`. -/
def delete_entry_cascade (db : DB) (entry_id : Nat) : DB :=
  { db with
    linked_entries := db.linked_entries.filter (fun e => e.id != entry_id),
    linked_transactions :=
      db.linked_transactions.filter (fun l => l.linked_entry_id != entry_id) }

/-- `schemas/transaction.py: TransactionCreate`, restricted to the modelled
columns. -/
structure TransactionCreate where
  date : Int
  wallet_id : Nat
  direction : TransactionDirection
  amount : Int
  classification : TransactionClassification
  description : Option String := none
  paired_transaction_id : Option Nat := none
  is_ignored : Bool := false
  is_calibration : Bool := false
  allow_large_cache_rebuild : Bool := false
deriving DecidableEq, Repr

/-- `transaction_service.create_transaction`: safety check, insert, snapshot
invalidation, commit. -/
def create_transaction (db : DB) (today : Int) (tc : TransactionCreate) :
    Except Err (Transaction × DB) :=
  if decide (today - tc.date > LARGE_CACHE_REBUILD_DAYS) &&
      decide (check_rebuild_impact db tc.wallet_id tc.date >
        LARGE_CACHE_REBUILD_TRANSACTIONS) &&
      !tc.allow_large_cache_rebuild then
    Except.error Err.largeRebuild
  else
    let t : Transaction :=
      { id := db.next_transaction_id, date := tc.date, wallet_id := tc.wallet_id,
        direction := tc.direction, amount := tc.amount,
        classification := tc.classification, description := tc.description,
        paired_transaction_id := tc.paired_transaction_id,
        is_ignored := tc.is_ignored, is_calibration := tc.is_calibration }
    let db1 := { db with transactions := db.transactions ++ [t],
                         next_transaction_id := db.next_transaction_id + 1 }
    Except.ok (t, invalidate_snapshots db1 tc.wallet_id tc.date)

/-- `schemas/transaction.py: TransactionUpdate` with pydantic's
`exclude_unset` semantics: `some v` is a field present in the partial
update. -/
structure TransactionUpdate where
  date : Option Int := none
  wallet_id : Option Nat := none
  direction : Option TransactionDirection := none
  amount : Option Int := none
  classification : Option TransactionClassification := none
  description : Option String := none
  paired_transaction_id : Option Nat := none
  is_ignored : Option Bool := none
  is_calibration : Option Bool := none
  allow_large_cache_rebuild : Bool := false
deriving DecidableEq, Repr

/-- The `setattr` loop of `update_transaction`: overwrite exactly the
provided fields. -/
def update_fields (t : Transaction) (u : TransactionUpdate) : Transaction :=
  { t with
    date := u.date.getD t.date
    wallet_id := u.wallet_id.getD t.wallet_id
    direction := u.direction.getD t.direction
    amount := u.amount.getD t.amount
    classification := u.classification.getD t.classification
    description := match u.description with
      | some s => some s
      | none => t.description
    paired_transaction_id := match u.paired_transaction_id with
      | some p => some p
      | none => t.paired_transaction_id
    is_ignored := u.is_ignored.getD t.is_ignored
    is_calibration := u.is_calibration.getD t.is_calibration }

/-- `transaction_service.update_transaction` with
`propagate_to_pair=False` (the form used for the recursive paired-transfer
update).  Threads (working, committed) session states; returns
`(raised error, row found, working', committed')`.  `invalidate_snapshots`
and the trailing `db.commit()` are the commit points. -/
def update_transaction_core (today : Int) (transaction_id : Nat)
    (u : TransactionUpdate) (work comm : DB) : Option Err × Bool × DB × DB :=
  match get_transaction work transaction_id with
  | none => (none, false, work, comm)
  | some t =>
    let old_date := t.date
    let old_wallet_id := t.wallet_id
    let new_date := u.date.getD old_date
    let new_wallet_id := u.wallet_id.getD old_wallet_id
    let allow_rebuild := u.allow_large_cache_rebuild
    if decide (today - old_date > LARGE_CACHE_REBUILD_DAYS) &&
        decide (check_rebuild_impact work old_wallet_id old_date >
          LARGE_CACHE_REBUILD_TRANSACTIONS) &&
        !allow_rebuild then
      (some Err.largeRebuild, true, work, comm)
    else
      let work1 := invalidate_snapshots work old_wallet_id old_date
      let step2 : Option Err × DB × DB :=
        if new_wallet_id != old_wallet_id || decide (new_date < old_date) then
          if decide (today - new_date > LARGE_CACHE_REBUILD_DAYS) &&
              decide (check_rebuild_impact work1 new_wallet_id new_date >
                LARGE_CACHE_REBUILD_TRANSACTIONS) &&
              !allow_rebuild then
            (some Err.largeRebuild, work1, work1)
          else
            let work2 := invalidate_snapshots work1 new_wallet_id new_date
            (none, work2, work2)
        else (none, work1, work1)
      match step2 with
      | (some e, w, c) => (some e, true, w, c)
      | (none, work2, _) =>
        let work3 := set_transaction_row work2 transaction_id (update_fields t u)
        (none, true, work3, work3)

/-- `transaction_service.update_transaction` with the default
`propagate_to_pair=True`: the core update followed by the recursive update
of the paired transfer half (amount, date, description, classification
only, with `allow_large_cache_rebuild` defaulting to false).  Returns
`(raised error, row found, database visible to the caller)` — the committed
state when an error was raised, the final state otherwise. -/
def update_transaction (db : DB) (today : Int) (transaction_id : Nat)
    (u : TransactionUpdate) : Option Err × Bool × DB :=
  match get_transaction db transaction_id with
  | none => (none, false, db)
  | some t =>
    let old_date := t.date
    let old_wallet_id := t.wallet_id
    let new_date := u.date.getD old_date
    let new_wallet_id := u.wallet_id.getD old_wallet_id
    let allow_rebuild := u.allow_large_cache_rebuild
    if decide (today - old_date > LARGE_CACHE_REBUILD_DAYS) &&
        decide (check_rebuild_impact db old_wallet_id old_date >
          LARGE_CACHE_REBUILD_TRANSACTIONS) &&
        !allow_rebuild then
      (some Err.largeRebuild, true, db)
    else
      let work1 := invalidate_snapshots db old_wallet_id old_date
      let step2 : Option Err × DB :=
        if new_wallet_id != old_wallet_id || decide (new_date < old_date) then
          if decide (today - new_date > LARGE_CACHE_REBUILD_DAYS) &&
              decide (check_rebuild_impact work1 new_wallet_id new_date >
                LARGE_CACHE_REBUILD_TRANSACTIONS) &&
              !allow_rebuild then
            (some Err.largeRebuild, work1)
          else (none, invalidate_snapshots work1 new_wallet_id new_date)
        else (none, work1)
      match step2 with
      | (some e, c) => (some e, true, c)
      | (none, work2) =>
        let t' := update_fields t u
        let work3 := set_transaction_row work2 transaction_id t'
        match t'.paired_transaction_id with
        | some pid =>
          let paired_update : TransactionUpdate :=
            { amount := u.amount, date := u.date,
              description := u.description, classification := u.classification }
          if u.amount.isSome || u.date.isSome || u.description.isSome ||
              u.classification.isSome then
            match update_transaction_core today pid paired_update work3 work2 with
            | (some e, _, _, commP) => (some e, true, commP)
            | (none, _, workP, _) => (none, true, workP)
          else (none, true, work3)
        | none => (none, true, work3)

/-- `linked_entry_service.unlink_transaction`: restore the pending amount
from the linked transaction's amount, recompute the status, delete the join
row. -/
def unlink_transaction (db : DB) (link_id : Nat) : Option Err × DB :=
  match db.linked_transactions.find? (fun l => l.id == link_id) with
  | none => (some Err.linkNotFound, db)
  | some link =>
    match get_linked_entry db link.linked_entry_id with
    | none => (some Err.entryNotFound, db)
    | some entry =>
      match get_transaction db link.transaction_id with
      | none => (some Err.transactionNotFound, db)
      | some t =>
        let new_pending := entry.pending_amount + t.amount
        let new_status :=
          if new_pending ≥ entry.total_amount then LinkStatus.PENDING
          else if new_pending ≤ 1 then LinkStatus.SETTLED
          else LinkStatus.PARTIALLY
        let db1 := set_entry_row db entry.id
          { entry with pending_amount := new_pending, status := new_status }
        (none, { db1 with linked_transactions :=
            db1.linked_transactions.filter (fun l => l.id != link_id) })

/-- `transaction_service._delete_transaction_impl`: break and delete the
paired transfer half, delete the entry this transaction created (cascading
its links), unlink every link where this transaction settles an entry, then
delete the row. -/
def _delete_transaction_impl (db : DB) (transaction_id : Nat) : Bool × DB :=
  match get_transaction db transaction_id with
  | none => (false, db)
  | some t =>
    let db1 :=
      match t.paired_transaction_id with
      | some pid =>
        match get_transaction db pid with
        | some paired =>
          remove_transaction_row
            (set_transaction_row db pid { paired with paired_transaction_id := none })
            pid
        | none => db
      | none => db
    let db2 :=
      match db1.linked_entries.find? (fun e =>
          e.primary_transaction_id == transaction_id) with
      | some e => delete_entry_cascade db1 e.id
      | none => db1
    let own_links := db2.linked_transactions.filter (fun l =>
      l.transaction_id == transaction_id)
    let db3 := own_links.foldl (fun d l => (unlink_transaction d l.id).2) db2
    (true, remove_transaction_row db3 transaction_id)

/-- One step of building the `affected_wallets` dictionary of
`delete_transactions`: `affected_wallets[txn.wallet_id] =
min(affected_wallets.get(txn.wallet_id, txn.date), txn.date)`. -/
def min_date_step (acc : List (Nat × Int)) (t : Transaction) : List (Nat × Int) :=
  match acc.find? (fun p => p.1 == t.wallet_id) with
  | some p =>
    if t.date < p.2 then
      acc.map (fun q => if q.1 == t.wallet_id then (q.1, t.date) else q)
    else acc
  | none => acc ++ [(t.wallet_id, t.date)]

/-- The `affected_wallets` dictionary of `delete_transactions`: wallet id
mapped to the minimum date among the listed transactions of that wallet,
in first-seen order. -/
def min_dates_by_wallet (txns : List Transaction) : List (Nat × Int) :=
  txns.foldl min_date_step []

/-- `transaction_service.delete_transactions`: atomic batched delete with
the safety guard and per-wallet snapshot invalidation. -/
def delete_transactions (db : DB) (today : Int) (transaction_ids : List Nat)
    (allow_large_cache_rebuild : Bool) : Option Err × Bool × DB :=
  let txns := db.transactions.filter (fun t => transaction_ids.contains t.id)
  if txns.isEmpty then (none, false, db)
  else
    let affected_wallets := min_dates_by_wallet txns
    if affected_wallets.any (fun p =>
        decide (today - p.2 > LARGE_CACHE_REBUILD_DAYS) &&
        decide (check_rebuild_impact db p.1 p.2 > LARGE_CACHE_REBUILD_TRANSACTIONS) &&
        !allow_large_cache_rebuild) then
      (some Err.largeRebuild, true, db)
    else
      let db1 := txns.foldl (fun d t => (_delete_transaction_impl d t.id).2) db
      (none, true,
        affected_wallets.foldl (fun d p => invalidate_snapshots d p.1 p.2) db1)

/-- `schemas/linked_entry.py: LinkedEntryCreate`, restricted to the
modelled columns. -/
structure LinkedEntryCreate where
  primary_transaction_id : Nat
  link_type : LinkType
  user_amount : Option Int := none
deriving DecidableEq, Repr

/-- `linked_entry_service.create_linked_entry`. -/
def create_linked_entry (db : DB) (entry : LinkedEntryCreate) : Option Err × DB :=
  match get_transaction db entry.primary_transaction_id with
  | none => (some Err.transactionNotFound, db)
  | some txn =>
    if (db.linked_entries.find? (fun e =>
        e.primary_transaction_id == entry.primary_transaction_id)).isSome then
      (some Err.alreadyHasEntry, db)
    else
      let pending : Except Err Int :=
        match entry.link_type with
        | LinkType.SPLIT_PAYMENT =>
          -- `if not entry.user_amount` is Python truthiness: absent or zero
          if entry.user_amount.getD 0 == 0 then Except.error Err.userAmountRequired
          else if entry.user_amount.getD 0 > txn.amount then
            Except.error Err.userAmountExceedsTotal
          else if txn.direction != TransactionDirection.OUTFLOW then
            Except.error Err.wrongDirection
          else if txn.classification != TransactionClassification.SPLIT_PAYMENT then
            Except.error Err.wrongClassification
          else Except.ok (txn.amount - entry.user_amount.getD 0)
        | LinkType.LOAN =>
          if txn.direction != TransactionDirection.OUTFLOW then
            Except.error Err.wrongDirection
          else if txn.classification != TransactionClassification.LEND then
            Except.error Err.wrongClassification
          else Except.ok txn.amount
        | LinkType.DEBT =>
          if txn.direction != TransactionDirection.INFLOW then
            Except.error Err.wrongDirection
          else if txn.classification != TransactionClassification.BORROW then
            Except.error Err.wrongClassification
          else Except.ok txn.amount
        | LinkType.INSTALLMENT =>
          if txn.direction != TransactionDirection.RESERVED then
            Except.error Err.wrongDirection
          else if txn.classification != TransactionClassification.INSTALLMENT then
            Except.error Err.wrongClassification
          else Except.ok txn.amount
      match pending with
      | Except.error e => (some e, db)
      | Except.ok pending_amount =>
        let e : LinkedEntry :=
          { id := db.next_entry_id, link_type := entry.link_type,
            primary_transaction_id := entry.primary_transaction_id,
            total_amount := txn.amount, user_amount := entry.user_amount,
            pending_amount := pending_amount, status := LinkStatus.PENDING }
        (none, { db with linked_entries := db.linked_entries ++ [e],
                         next_entry_id := db.next_entry_id + 1 })

/-- The per-transaction validation/auto-reclassification table of
`link_transactions` (§ "2. Process each"). -/
def link_validate (lt : LinkType) (t : Transaction) :
    Except Err TransactionClassification :=
  match lt with
  | LinkType.SPLIT_PAYMENT | LinkType.LOAN =>
    if t.direction != TransactionDirection.INFLOW then
      Except.error Err.wrongDirection
    else if t.classification == TransactionClassification.INCOME then
      Except.ok TransactionClassification.DEBT_COLLECTION
    else if t.classification != TransactionClassification.DEBT_COLLECTION then
      Except.error Err.wrongClassification
    else Except.ok TransactionClassification.DEBT_COLLECTION
  | LinkType.DEBT =>
    if t.direction != TransactionDirection.OUTFLOW then
      Except.error Err.wrongDirection
    else if t.classification == TransactionClassification.EXPENSE then
      Except.ok TransactionClassification.LOAN_REPAYMENT
    else if t.classification != TransactionClassification.LOAN_REPAYMENT then
      Except.error Err.wrongClassification
    else Except.ok TransactionClassification.LOAN_REPAYMENT
  | LinkType.INSTALLMENT =>
    if t.direction != TransactionDirection.OUTFLOW then
      Except.error Err.wrongDirection
    else if t.classification == TransactionClassification.EXPENSE then
      Except.ok TransactionClassification.INSTALLMT_CHRGE
    else if t.classification != TransactionClassification.INSTALLMT_CHRGE then
      Except.error Err.wrongClassification
    else Except.ok TransactionClassification.INSTALLMT_CHRGE

/-- `db.add(LinkedTransaction(...))`: append a join row with a fresh id. -/
def add_link_row (db : DB) (entry_id transaction_id : Nat) : DB :=
  { db with
    linked_transactions :=
      db.linked_transactions ++ [⟨db.next_link_id, entry_id, transaction_id⟩],
    next_link_id := db.next_link_id + 1 }

/-- Set a transaction's classification in place (the session mutation of
the reclassification branch). -/
def set_transaction_classification (db : DB) (transaction_id : Nat)
    (c : TransactionClassification) : DB :=
  { db with transactions := db.transactions.map (fun t =>
      if t.id == transaction_id then { t with classification := c } else t) }

/-- The `for txn in transactions` loop of `link_transactions`, threading
(working, committed) session states.  `invalidate_snapshots` commits, so
reclassifications and join rows staged before it become durable there. -/
def link_loop (entry_id : Nat) (lt : LinkType) :
    List Transaction → DB → DB → Option Err × DB × DB
  | [], work, comm => (none, work, comm)
  | t :: rest, work, comm =>
    match link_validate lt t with
    | Except.error e => (some e, work, comm)
    | Except.ok c =>
      let work1 := add_link_row (set_transaction_classification work t.id c)
        entry_id t.id
      if c == TransactionClassification.LOAN_REPAYMENT ||
          c == TransactionClassification.INSTALLMT_CHRGE then
        let work2 := invalidate_snapshots work1 t.wallet_id t.date
        link_loop entry_id lt rest work2 work2
      else
        link_loop entry_id lt rest work1 comm

/-- `linked_entry_service.link_transactions`.  Returns the raised error (if
any) and the database a caller observes afterwards: on an error this is the
state already committed inside the call, on success the fully committed
final state. -/
def link_transactions (db : DB) (entry_id : Nat) (transaction_ids : List Nat) :
    Option Err × DB :=
  match get_linked_entry db entry_id with
  | none => (some Err.entryNotFound, db)
  | some entry =>
    if entry.status == LinkStatus.SETTLED then (some Err.alreadySettled, db)
    else
      let transactions := db.transactions.filter (fun t =>
        transaction_ids.contains t.id)
      if transactions.length != transaction_ids.length then
        (some Err.transactionsNotFound, db)
      else
        let total_amount := sum_amounts transactions
        if total_amount > entry.pending_amount then (some Err.exceedsPending, db)
        else
          let existing_links := db.linked_transactions.filter (fun l =>
            transaction_ids.contains l.transaction_id)
          if !existing_links.isEmpty then (some Err.alreadyLinked, db)
          else
            match link_loop entry_id entry.link_type transactions db db with
            | (some e, _, comm) => (some e, comm)
            | (none, work, _) =>
              let new_pending := entry.pending_amount - total_amount
              let new_status :=
                if new_pending == 0 then LinkStatus.SETTLED
                else LinkStatus.PARTIALLY
              (none, set_entry_row work entry_id
                { entry with pending_amount := new_pending, status := new_status })

/-- `sum(link.amount for link in entry.linked_transactions)`: the settled
amount of an entry, read live from the linked transactions' amounts. -/
def settled_amount (db : DB) (entry_id : Nat) : Int :=
  ((db.linked_transactions.filter (fun l => l.linked_entry_id == entry_id)).map
    (fun l =>
      match get_transaction db l.transaction_id with
      | some t => t.amount
      | none => 0)).sum

/-- `schemas/linked_entry.py: LinkedEntryUpdate`, restricted to the
modelled columns. -/
structure LinkedEntryUpdate where
  user_amount : Option Int := none
deriving DecidableEq, Repr

/-- `linked_entry_service.update_linked_entry` (the modelled part: the
`user_amount` recomputation for split payments). -/
def update_linked_entry (db : DB) (entry_id : Nat) (u : LinkedEntryUpdate) :
    Option Err × Bool × DB :=
  match get_linked_entry db entry_id with
  | none => (none, false, db)
  | some entry =>
    match u.user_amount with
    | some ua =>
      if entry.link_type == LinkType.SPLIT_PAYMENT then
        if ua > entry.total_amount then (some Err.userAmountExceedsTotal, true, db)
        else
          let settled := settled_amount db entry_id
          let new_pending := entry.total_amount - ua - settled
          if new_pending < 0 then (some Err.userAmountTooHigh, true, db)
          else
            let new_status :=
              if new_pending == 0 then LinkStatus.SETTLED
              else if settled > 0 then LinkStatus.PARTIALLY
              else LinkStatus.PENDING
            (none, true, set_entry_row db entry_id
              { entry with
                user_amount := some ua
                pending_amount := new_pending
                status := new_status })
      else (none, true, db)
    | none => (none, true, db)

/-- `transaction_service.ResolveCalibrationResult`. -/
structure ResolveCalibrationResult where
  new_transaction : Transaction
  calibration_deleted : Bool
  updated_calibration : Option Transaction
deriving DecidableEq, Repr

/-- `transaction_service.resolve_calibration`. -/
def resolve_calibration (db : DB) (today : Int) (calibration_id : Nat)
    (new_transaction_data : TransactionCreate) :
    Except Err (ResolveCalibrationResult × DB) :=
  match get_transaction db calibration_id with
  | none => Except.error Err.transactionNotFound
  | some calibration =>
    if !calibration.is_calibration then Except.error Err.notCalibration
    else
      let data :=
        if new_transaction_data.wallet_id != calibration.wallet_id then
          { new_transaction_data with wallet_id := calibration.wallet_id }
        else new_transaction_data
      match create_transaction db today data with
      | Except.error e => Except.error e
      | Except.ok (new_txn, db1) =>
        let new_calibration_amount :=
          if new_txn.direction == calibration.direction then
            calibration.amount - new_txn.amount
          else calibration.amount + new_txn.amount
        if new_calibration_amount == 0 then
          let cal' := { calibration with amount := 0, is_ignored := true }
          Except.ok
            ({ new_transaction := new_txn, calibration_deleted := false,
               updated_calibration := some cal' },
             set_transaction_row db1 calibration_id cal')
        else if new_calibration_amount < 0 then
          let new_direction :=
            if calibration.direction == TransactionDirection.OUTFLOW then
              TransactionDirection.INFLOW
            else TransactionDirection.OUTFLOW
          let new_classification :=
            if new_direction == TransactionDirection.INFLOW then
              TransactionClassification.INCOME
            else TransactionClassification.EXPENSE
          let cal' :=
            { calibration with
              amount := abs new_calibration_amount
              direction := new_direction
              classification := new_classification
              is_ignored := false }
          Except.ok
            ({ new_transaction := new_txn, calibration_deleted := false,
               updated_calibration := some cal' },
             set_transaction_row db1 calibration_id cal')
        else
          let cal' := { calibration with amount := new_calibration_amount }
          Except.ok
            ({ new_transaction := new_txn, calibration_deleted := false,
               updated_calibration := some cal' },
             set_transaction_row db1 calibration_id cal')

/-- `wallet_service.calibrate_wallet`: balance lookup (with its lazy
snapshot write-back), difference check, and direct insertion of the
adjustment transaction row. -/
def calibrate_wallet (db : DB) (today : Int) (wallet_id : Nat)
    (correct_balance : Int) : Except Err (Transaction × DB) :=
  match get_wallet db wallet_id with
  | none => Except.error Err.walletNotFound
  | some _ =>
    let r := calculate_wallet_balance db today wallet_id none true
    let difference := correct_balance - r.1
    if difference == 0 then Except.error Err.balanceAlreadyCorrect
    else
      let dca : TransactionDirection × TransactionClassification × Int :=
        if 0 < difference then
          (TransactionDirection.INFLOW, TransactionClassification.INCOME,
            difference)
        else
          (TransactionDirection.OUTFLOW, TransactionClassification.EXPENSE,
            abs difference)
      let calibration : Transaction :=
        { id := r.2.next_transaction_id, date := today,
          wallet_id := wallet_id, direction := dca.1, amount := dca.2.2,
          classification := dca.2.1, description := some "CALIBRATION",
          paired_transaction_id := none, is_ignored := false,
          is_calibration := true }
      Except.ok (calibration,
        { r.2 with
          transactions := r.2.transactions ++ [calibration],
          next_transaction_id := r.2.next_transaction_id + 1 })

/-- The per-link revert of `unclassify_transaction`: a settling
transaction that had been auto-reclassified goes back to its source
classification (`DEBT_COLLECTION` to `INCOME`, `LOAN_REPAYMENT` to
`EXPENSE`); every other row is untouched. -/
def revert_settling (settler_ids : List Nat) (t : Transaction) :
    Transaction :=
  if settler_ids.contains t.id then
    if t.classification == TransactionClassification.DEBT_COLLECTION then
      { t with classification := TransactionClassification.INCOME }
    else if t.classification ==
        TransactionClassification.LOAN_REPAYMENT then
      { t with classification := TransactionClassification.EXPENSE }
    else t
  else t

/-- The entry-deletion phase of `unclassify_transaction`: when the
transaction owns a linked entry, revert the classifications of the
entry's settling transactions and delete the entry with its links
(`db.delete(entry)` cascades to the join rows). -/
def unclassify_delete_entry (db : DB) (transaction_id : Nat) : DB :=
  match db.linked_entries.find?
      (fun e => e.primary_transaction_id == transaction_id) with
  | some entry =>
    let settler_ids := (db.linked_transactions.filter
      (fun l => l.linked_entry_id == entry.id)).map
        LinkedTransaction.transaction_id
    delete_entry_cascade
      { db with
        transactions := db.transactions.map (revert_settling settler_ids) }
      entry.id
  | none => db

/-- The classification-revert phase of `unclassify_transaction` on the
primary transaction: `SPLIT_PAYMENT`/`LEND` to `EXPENSE`, `BORROW` to
`INCOME`, `INSTALLMENT` to `EXPENSE` with the direction forced to
`OUTFLOW`. -/
def unclassify_revert_primary (db : DB) (transaction_id : Nat) : DB :=
  match get_transaction db transaction_id with
  | none => db
  | some txn =>
    if txn.classification == TransactionClassification.SPLIT_PAYMENT ||
        txn.classification == TransactionClassification.LEND then
      set_transaction_row db transaction_id
        { txn with classification := TransactionClassification.EXPENSE }
    else if txn.classification == TransactionClassification.BORROW then
      set_transaction_row db transaction_id
        { txn with classification := TransactionClassification.INCOME }
    else if txn.classification == TransactionClassification.INSTALLMENT then
      set_transaction_row db transaction_id
        { txn with
          classification := TransactionClassification.EXPENSE,
          direction := TransactionDirection.OUTFLOW }
    else db

/-- `linked_entry_service.unclassify_transaction`: revert the settling
transactions reclassified under the owning entry, delete that entry with
its links, then revert the primary transaction's classification. -/
def unclassify_transaction (db : DB) (transaction_id : Nat) : Bool × DB :=
  match get_transaction db transaction_id with
  | none => (false, db)
  | some _ =>
    (true, unclassify_revert_primary
      (unclassify_delete_entry db transaction_id) transaction_id)

/-! ## Spec-side definitions -/

/-- Signed contribution of one transaction to a wallet balance under the
wallet-type sign convention of the spec: inflows add for `Normal` wallets
and subtract for `Credit` wallets, outflows the opposite; `Reserved`
transactions never contribute. -/
def signed_amount (wt : WalletType) (t : Transaction) : Int :=
  match t.direction with
  | TransactionDirection.INFLOW =>
    match wt with
    | WalletType.NORMAL => t.amount
    | WalletType.CREDIT => -t.amount
  | TransactionDirection.OUTFLOW =>
    match wt with
    | WalletType.NORMAL => -t.amount
    | WalletType.CREDIT => t.amount
  | TransactionDirection.RESERVED => 0

/-- The true balance of a wallet at the end of a day: signed sum over the
wallet's whole history up to and including that day. -/
def true_balance (db : DB) (wt : WalletType) (wallet_id : Nat) (upto : Int) : Int :=
  ((db.transactions.filter (fun t =>
      t.wallet_id == wallet_id && decide (t.date ≤ upto))).map
    (signed_amount wt)).sum

/-- The snapshot invariant of the spec: a stored snapshot's balance equals
the signed sum of all of the wallet's transactions dated at or before the
snapshot date. -/
def snapshot_accurate (db : DB) (wt : WalletType) (s : WalletSnapshot) : Prop :=
  s.balance = true_balance db wt s.wallet_id s.snapshot_date

/-- Delete every snapshot stored for one wallet. -/
def delete_wallet_snapshots (db : DB) (wallet_id : Nat) : DB :=
  { db with snapshots := db.snapshots.filter (fun s => s.wallet_id != wallet_id) }

/-! ## List lemmas -/

/-- Splitting a filtered signed sum along a disjoint cover of the filter. -/
theorem sum_map_filter_split (f : Transaction → Int) (l : List Transaction)
    (p q r : Transaction → Bool) (hc : ∀ t, r t = (p t || q t))
    (hd : ∀ t, ¬(p t = true ∧ q t = true)) :
    ((l.filter r).map f).sum =
      ((l.filter p).map f).sum + ((l.filter q).map f).sum := by
  induction l with
  | nil => simp
  | cons t l ih =>
    have hct := hc t
    have hdt := hd t
    by_cases hp : p t = true
    · have hq : q t = false := by
        cases hqv : q t
        · rfl
        · exact absurd ⟨hp, hqv⟩ hdt
      have hr : r t = true := by rw [hct, hp]; rfl
      simp [List.filter_cons, hr, hp, hq, ih]
      ring
    · have hp' : p t = false := by simpa using hp
      by_cases hq : q t = true
      · have hr : r t = true := by rw [hct, hp', hq]; rfl
        simp [List.filter_cons, hr, hp', hq, ih]
        ring
      · have hq' : q t = false := by simpa using hq
        have hr : r t = false := by rw [hct, hp', hq']; rfl
        simp [List.filter_cons, hr, hp', hq', ih]

/-- The two direction-restricted sums of the source combine into one signed
sum for `Normal` wallets. -/
theorem signed_sum_normal (p : Transaction → Bool) (l : List Transaction) :
    sum_amounts (l.filter (fun t =>
        p t && t.direction == TransactionDirection.INFLOW)) -
      sum_amounts (l.filter (fun t =>
        p t && t.direction == TransactionDirection.OUTFLOW)) =
      ((l.filter p).map (signed_amount WalletType.NORMAL)).sum := by
  induction l with
  | nil => simp [sum_amounts]
  | cons t l ih =>
    by_cases hp : p t = true
    · cases hdir : t.direction <;>
        simp [sum_amounts, List.filter_cons, hp, hdir, signed_amount] at * <;>
        omega
    · have hp' : p t = false := by simpa using hp
      simp [List.filter_cons, hp', ih]

/-- The two direction-restricted sums of the source combine into one signed
sum for `Credit` wallets. -/
theorem signed_sum_credit (p : Transaction → Bool) (l : List Transaction) :
    sum_amounts (l.filter (fun t =>
        p t && t.direction == TransactionDirection.OUTFLOW)) -
      sum_amounts (l.filter (fun t =>
        p t && t.direction == TransactionDirection.INFLOW)) =
      ((l.filter p).map (signed_amount WalletType.CREDIT)).sum := by
  induction l with
  | nil => simp [sum_amounts]
  | cons t l ih =>
    by_cases hp : p t = true
    · cases hdir : t.direction <;>
        simp [sum_amounts, List.filter_cons, hp, hdir, signed_amount] at * <;>
        omega
    · have hp' : p t = false := by simpa using hp
      simp [List.filter_cons, hp', ih]

/-- A fold of `pick_step` never loses a `some` accumulator. -/
theorem foldl_pick_ne_none (l : List WalletSnapshot) (b : WalletSnapshot) :
    List.foldl pick_step (some b) l ≠ none := by
  induction l generalizing b with
  | nil => simp
  | cons s l ih =>
    simp only [List.foldl_cons, pick_step]
    by_cases h : s.snapshot_date > b.snapshot_date
    · simp only [if_pos h]; exact ih s
    · simp only [if_neg h]; exact ih b

/-- `pick_latest` returns `none` exactly on the empty candidate list. -/
theorem pick_latest_eq_none (l : List WalletSnapshot) :
    pick_latest l = none ↔ l = [] := by
  constructor
  · intro h
    cases l with
    | nil => rfl
    | cons s l =>
      simp only [pick_latest, List.foldl_cons, pick_step] at h
      exact absurd h (foldl_pick_ne_none l s)
  · intro h; subst h; rfl

/-- A `pick_step` fold yields either the accumulator or a list member. -/
theorem foldl_pick_mem (l : List WalletSnapshot) :
    ∀ (acc : Option WalletSnapshot) (s : WalletSnapshot),
      List.foldl pick_step acc l = some s → acc = some s ∨ s ∈ l := by
  induction l with
  | nil => intro acc s h; exact Or.inl (by simpa using h)
  | cons x l ih =>
    intro acc s h
    simp only [List.foldl_cons] at h
    rcases ih (pick_step acc x) s h with h1 | h1
    · cases acc with
      | none =>
        simp only [pick_step] at h1
        injection h1 with hxs
        subst hxs
        exact Or.inr (List.mem_cons_self x l)
      | some b =>
        simp only [pick_step] at h1
        by_cases hgt : x.snapshot_date > b.snapshot_date
        · rw [if_pos hgt] at h1
          injection h1 with hxs
          subst hxs
          exact Or.inr (List.mem_cons_self x l)
        · rw [if_neg hgt] at h1
          exact Or.inl h1
    · exact Or.inr (List.mem_cons_of_mem x h1)

/-- A `pick_step` fold result dominates the accumulator and every member. -/
theorem foldl_pick_max (l : List WalletSnapshot) :
    ∀ (acc : Option WalletSnapshot) (s : WalletSnapshot),
      List.foldl pick_step acc l = some s →
      (∀ b, acc = some b → b.snapshot_date ≤ s.snapshot_date) ∧
      (∀ x ∈ l, x.snapshot_date ≤ s.snapshot_date) := by
  induction l with
  | nil =>
    intro acc s h
    refine ⟨fun b hb => ?_, by simp⟩
    simp only [List.foldl_nil] at h
    rw [hb] at h
    simp_all
  | cons x l ih =>
    intro acc s h
    simp only [List.foldl_cons] at h
    obtain ⟨hacc, hmem⟩ := ih (pick_step acc x) s h
    constructor
    · intro b hb
      subst hb
      have hx := hacc
      simp only [pick_step] at hx
      by_cases hgt : x.snapshot_date > b.snapshot_date
      · have := hx x (by rw [if_pos hgt])
        omega
      · exact hx b (by rw [if_neg hgt])
    · intro y hy
      rcases List.mem_cons.mp hy with rfl | hy'
      · cases acc with
        | none => exact hacc y rfl
        | some b =>
          simp only [pick_step] at hacc
          by_cases hgt : y.snapshot_date > b.snapshot_date
          · exact hacc y (by rw [if_pos hgt])
          · have := hacc b (by rw [if_neg hgt])
            omega
      · exact hmem y hy'

/-- Membership and bound facts about a successful `get_latest_snapshot`. -/
theorem get_latest_snapshot_spec (db : DB) (wallet_id : Nat) (d : Int)
    (s : WalletSnapshot)
    (h : get_latest_snapshot db wallet_id (some d) = some s) :
    s ∈ db.snapshots ∧ s.wallet_id = wallet_id ∧ s.snapshot_date ≤ d := by
  unfold get_latest_snapshot pick_latest at h
  rcases foldl_pick_mem _ _ _ h with h1 | h1
  · simp at h1
  · have := List.mem_filter.mp h1
    refine ⟨this.1, ?_, ?_⟩
    · have := this.2
      simp only [Bool.and_eq_true, beq_iff_eq, decide_eq_true_eq] at this
      exact this.1
    · have := this.2
      simp only [Bool.and_eq_true, beq_iff_eq, decide_eq_true_eq] at this
      exact this.2

/-- The date selected by `get_latest_snapshot` dominates every candidate. -/
theorem get_latest_snapshot_max (db : DB) (wallet_id : Nat) (d : Int)
    (s : WalletSnapshot)
    (h : get_latest_snapshot db wallet_id (some d) = some s) :
    ∀ x ∈ db.snapshots, x.wallet_id = wallet_id → x.snapshot_date ≤ d →
      x.snapshot_date ≤ s.snapshot_date := by
  intro x hx hw hd
  unfold get_latest_snapshot pick_latest at h
  have hmem : x ∈ snapshot_candidates db wallet_id (some d) := by
    unfold snapshot_candidates
    refine List.mem_filter.mpr ⟨hx, ?_⟩
    simp [hw, hd]
  exact (foldl_pick_max _ _ _ h).2 x hmem

/-- `get_latest_snapshot` finds nothing exactly when no stored snapshot of
the wallet is dated at or before the bound. -/
theorem get_latest_snapshot_none (db : DB) (wallet_id : Nat) (d : Int) :
    get_latest_snapshot db wallet_id (some d) = none ↔
      ∀ x ∈ db.snapshots, ¬(x.wallet_id = wallet_id ∧ x.snapshot_date ≤ d) := by
  unfold get_latest_snapshot
  rw [pick_latest_eq_none]
  unfold snapshot_candidates
  rw [List.filter_eq_nil_iff]
  constructor
  · intro h x hx ⟨hw, hd⟩
    exact h x hx (by simp [hw, hd])
  · intro h x hx hq
    simp only [Bool.and_eq_true, beq_iff_eq, decide_eq_true_eq] at hq
    exact h x hx hq

/-- C10: for a wallet id with no matching wallet, `calculate_wallet_balance`
returns zero (`Decimal("0.00")`) without error and leaves the store — its
snapshots and transactions included — completely unchanged. -/
theorem missing_wallet_balance_zero (db : DB) (today : Int) (wallet_id : Nat)
    (for_date : Option Int) (trigger_lazy_snapshot : Bool)
    (h : get_wallet db wallet_id = none) :
    calculate_wallet_balance db today wallet_id for_date trigger_lazy_snapshot =
      (0, db) := by
  unfold calculate_wallet_balance
  rw [h]

/-- C10 witness: a store with one wallet, queried for an absent id. -/
theorem missing_wallet_balance_zero_witness :
    get_wallet ⟨[⟨1, WalletType.NORMAL⟩], [], [⟨1, 3, 5⟩], [], [], 1, 1, 1⟩ 7 = none ∧
      calculate_wallet_balance ⟨[⟨1, WalletType.NORMAL⟩], [], [⟨1, 3, 5⟩], [], [], 1, 1, 1⟩
        10 7 none true =
        (0, ⟨[⟨1, WalletType.NORMAL⟩], [], [⟨1, 3, 5⟩], [], [], 1, 1, 1⟩) :=
  ⟨by decide, missing_wallet_balance_zero _ _ _ _ _ (by decide)⟩

/-- Closed form of the value returned by `calculate_wallet_balance`:
chosen snapshot balance plus the signed sum over the balance window. -/
theorem balance_closed_form (db : DB) (today : Int) (wallet_id : Nat) (d : Int)
    (trigger_lazy_snapshot : Bool) (w : Wallet)
    (hw : get_wallet db wallet_id = some w) :
    (calculate_wallet_balance db today wallet_id (some d) trigger_lazy_snapshot).1 =
      (match get_latest_snapshot db wallet_id (some d) with
       | some s => s.balance
       | none => 0) +
      ((db.transactions.filter
          (balance_window wallet_id d (get_latest_snapshot db wallet_id (some d)))).map
        (signed_amount w.wallet_type)).sum := by
  have hcredit := signed_sum_credit
    (balance_window wallet_id d (get_latest_snapshot db wallet_id (some d)))
    db.transactions
  have hnormal := signed_sum_normal
    (balance_window wallet_id d (get_latest_snapshot db wallet_id (some d)))
    db.transactions
  unfold calculate_wallet_balance
  rw [hw]
  cases hwt : w.wallet_type with
  | CREDIT =>
    simp only [Option.getD_some, hwt, beq_self_eq_true, if_pos]
    rw [← hcredit]
  | NORMAL =>
    simp only [Option.getD_some, hwt]
    have hne : (WalletType.NORMAL == WalletType.CREDIT) = false := by decide
    rw [hne]
    simp only [Bool.false_eq_true, if_false]
    rw [← hnormal]

/-- C3: for an existing wallet, `calculate_wallet_balance` returns the
chosen snapshot's balance (zero when none exists) plus the signed sum —
inflow minus outflow for `Normal` wallets, outflow minus inflow for
`Credit` wallets, `Reserved` excluded, `is_ignored` included — over exactly
the wallet's transactions dated at most `d` and, when a snapshot is used,
strictly after its date. -/
theorem balance_formula (db : DB) (today : Int) (wallet_id : Nat) (d : Int)
    (trigger_lazy_snapshot : Bool) (w : Wallet)
    (hw : get_wallet db wallet_id = some w) :
    (calculate_wallet_balance db today wallet_id (some d) trigger_lazy_snapshot).1 =
      (match get_latest_snapshot db wallet_id (some d) with
       | some s => s.balance
       | none => 0) +
      ((db.transactions.filter
          (balance_window wallet_id d (get_latest_snapshot db wallet_id (some d)))).map
        (signed_amount w.wallet_type)).sum :=
  balance_closed_form db today wallet_id d trigger_lazy_snapshot w hw

/-- Example store for the C3 witness: a normal wallet with a snapshot and
mixed-direction, partly ignored, partly reserved history. -/
def db_for_c3 : DB :=
  ⟨[⟨1, WalletType.NORMAL⟩],
   [⟨1, 4, 1, TransactionDirection.INFLOW, 100, TransactionClassification.INCOME, none, none, false, false⟩,
    ⟨2, 6, 1, TransactionDirection.OUTFLOW, 30, TransactionClassification.EXPENSE, none, none, true, false⟩,
    ⟨3, 7, 1, TransactionDirection.RESERVED, 500, TransactionClassification.INSTALLMENT, none, none, false, false⟩],
   [⟨1, 5, 40⟩], [], [], 4, 1, 1⟩

/-- C3 witness: the formula evaluated on `db_for_c3`. -/
theorem balance_formula_witness :
    get_wallet db_for_c3 1 = some (Wallet.mk 1 WalletType.NORMAL) ∧
      (calculate_wallet_balance db_for_c3 10 1 (some 8) false).1 =
        (match get_latest_snapshot db_for_c3 1 (some 8) with
         | some s => s.balance
         | none => 0) +
        ((db_for_c3.transactions.filter
            (balance_window 1 8 (get_latest_snapshot db_for_c3 1 (some 8)))).map
          (signed_amount (Wallet.mk 1 WalletType.NORMAL).wallet_type)).sum :=
  ⟨by decide, balance_formula _ _ _ _ _ _ (by decide)⟩

/-- C1: if every stored snapshot of the wallet satisfies the snapshot
invariant, then the cached balance computation (cache writes disabled)
equals the same computation after deleting all of the wallet's snapshots. -/
theorem cache_transparency (db : DB) (today : Int) (wallet_id : Nat) (d : Int)
    (w : Wallet) (hw : get_wallet db wallet_id = some w)
    (hs : ∀ s ∈ db.snapshots, s.wallet_id = wallet_id →
        snapshot_accurate db w.wallet_type s) :
    (calculate_wallet_balance db today wallet_id (some d) false).1 =
      (calculate_wallet_balance (delete_wallet_snapshots db wallet_id) today
        wallet_id (some d) false).1 := by
  have hw2 : get_wallet (delete_wallet_snapshots db wallet_id) wallet_id = some w := hw
  rw [balance_closed_form db today wallet_id d false w hw,
      balance_closed_form _ today wallet_id d false w hw2]
  have hnone : get_latest_snapshot (delete_wallet_snapshots db wallet_id) wallet_id
      (some d) = none := by
    rw [get_latest_snapshot_none]
    intro x hx hx2
    obtain ⟨hxw, _⟩ := hx2
    unfold delete_wallet_snapshots at hx
    simp only [List.mem_filter] at hx
    have hx3 := hx.2
    simp [hxw] at hx3
  rw [hnone]
  have htx : (delete_wallet_snapshots db wallet_id).transactions = db.transactions := rfl
  rw [htx]
  cases hL : get_latest_snapshot db wallet_id (some d) with
  | none => rfl
  | some s =>
    obtain ⟨hmem, hwid, hdle⟩ := get_latest_snapshot_spec db wallet_id d s hL
    have hacc := hs s hmem hwid
    unfold snapshot_accurate at hacc
    have hsplit := sum_map_filter_split (signed_amount w.wallet_type) db.transactions
      (fun t => t.wallet_id == wallet_id && decide (t.date ≤ s.snapshot_date))
      (balance_window wallet_id d (some s))
      (balance_window wallet_id d none)
      (by
        intro t
        unfold balance_window
        by_cases hbw : (t.wallet_id == wallet_id) = true
        · simp only [hbw, Bool.true_and, Bool.and_true]
          by_cases h1 : t.date ≤ s.snapshot_date <;>
            by_cases h2 : t.date ≤ d <;>
            simp [h1, h2] <;> omega
        · simp only [Bool.not_eq_true] at hbw
          simp [hbw])
      (by
        intro t
        unfold balance_window
        rintro ⟨h1, h2⟩
        simp only [Bool.and_eq_true, decide_eq_true_eq] at h1 h2
        omega)
    simp only [hacc, hwid]
    rw [hsplit]
    unfold true_balance
    ring

/-- Example store for the C1 witness: like `db_for_c3` but with an accurate
snapshot (balance 100 at the end of day 5). -/
def db_for_c1 : DB :=
  ⟨[⟨1, WalletType.NORMAL⟩],
   [⟨1, 4, 1, TransactionDirection.INFLOW, 100, TransactionClassification.INCOME, none, none, false, false⟩,
    ⟨2, 6, 1, TransactionDirection.OUTFLOW, 30, TransactionClassification.EXPENSE, none, none, true, false⟩,
    ⟨3, 7, 1, TransactionDirection.RESERVED, 500, TransactionClassification.INSTALLMENT, none, none, false, false⟩],
   [⟨1, 5, 100⟩], [], [], 4, 1, 1⟩

/-- C1 witness: cache transparency evaluated on `db_for_c1`. -/
theorem cache_transparency_witness :
    get_wallet db_for_c1 1 = some (Wallet.mk 1 WalletType.NORMAL) ∧
    (∀ s ∈ db_for_c1.snapshots, s.wallet_id = 1 →
        snapshot_accurate db_for_c1 (Wallet.mk 1 WalletType.NORMAL).wallet_type s) ∧
    (calculate_wallet_balance db_for_c1 10 1 (some 8) false).1 =
      (calculate_wallet_balance (delete_wallet_snapshots db_for_c1 1) 10 1
        (some 8) false).1 :=
  ⟨by decide,
   by
     intro s hmem hwid
     have hseq : s = ⟨1, 5, 100⟩ := by simpa [db_for_c1] using hmem
     subst hseq
     unfold snapshot_accurate
     decide,
   cache_transparency db_for_c1 10 1 8 (Wallet.mk 1 WalletType.NORMAL) (by decide)
     (by
       intro s hmem hwid
       have hseq : s = ⟨1, 5, 100⟩ := by simpa [db_for_c1] using hmem
       subst hseq
       unfold snapshot_accurate
       decide)⟩

/-- If no snapshot of the wallet is dated at or before a later bound, none
is dated at or before an earlier one. -/
theorem get_latest_none_mono (db : DB) (wallet_id : Nat) (d1 d2 : Int)
    (h12 : d1 ≤ d2)
    (h : get_latest_snapshot db wallet_id (some d2) = none) :
    get_latest_snapshot db wallet_id (some d1) = none := by
  rw [get_latest_snapshot_none] at h ⊢
  intro x hx hx2
  obtain ⟨ha, hb⟩ := hx2
  exact h x hx ⟨ha, le_trans hb h12⟩

/-- Example store for the C4 counterexample: a credit wallet with history
but no snapshot. -/
def db_credit_c4 : DB :=
  ⟨[⟨1, WalletType.CREDIT⟩],
   [⟨1, 4, 1, TransactionDirection.OUTFLOW, 2000, TransactionClassification.EXPENSE, none, none, false, false⟩],
   [], [], [], 2, 1, 1⟩

/-- C4 counterexample: a Credit wallet queried for today with cache writes
allowed and no snapshot stored still gets no snapshot — refuting the
claim's "for every wallet ... creates exactly one new snapshot dated
yesterday". -/
theorem lazy_snapshot_counterexample :
    get_wallet db_credit_c4 1 = some (Wallet.mk 1 WalletType.CREDIT) ∧
    get_latest_snapshot db_credit_c4 1 (some 30) = none ∧
    (calculate_wallet_balance db_credit_c4 30 1 (some 30) true).2.snapshots = [] := by
  decide

/-- C4 amended: the lazy-snapshot behaviour holds for `Normal` wallets
(`Credit` wallets never receive a snapshot), with the no-op guarantee for a
fresh snapshot read under stores whose snapshots are not future-dated:
(a) no write for non-today queries or with writes disabled; (b) no write
ever for Credit wallets; (c) for a Normal wallet queried for today with
writes allowed, when no snapshot exists or the latest is more than 90 days
old, exactly one snapshot is appended, dated yesterday, with balance =
today's balance − today's inflows + today's outflows; (d) no write when a
snapshot dated at or after yesterday already exists. -/
theorem lazy_snapshot_amended (db : DB) (today : Int) (wallet_id : Nat)
    (w : Wallet) (hw : get_wallet db wallet_id = some w) :
    (∀ fd trig, (fd.getD today ≠ today ∨ trig = false) →
      (calculate_wallet_balance db today wallet_id fd trig).2 = db)
    ∧ (w.wallet_type = WalletType.CREDIT →
      ∀ fd trig, (calculate_wallet_balance db today wallet_id fd trig).2 = db)
    ∧ (w.wallet_type = WalletType.NORMAL →
      ∀ fd, fd.getD today = today →
      (get_latest_snapshot db wallet_id (some today) = none ∨
        (∃ s, get_latest_snapshot db wallet_id (some today) = some s ∧
          today - s.snapshot_date > LAZY_SNAPSHOT_INTERVAL_DAYS)) →
      (calculate_wallet_balance db today wallet_id fd true).2 =
        create_snapshot db wallet_id (today - 1)
          ((calculate_wallet_balance db today wallet_id fd true).1
            - sum_amounts (db.transactions.filter (fun t =>
                t.wallet_id == wallet_id &&
                t.direction == TransactionDirection.INFLOW && t.date == today))
            + sum_amounts (db.transactions.filter (fun t =>
                t.wallet_id == wallet_id &&
                t.direction == TransactionDirection.OUTFLOW && t.date == today))))
    ∧ ((∀ s ∈ db.snapshots, s.wallet_id = wallet_id → s.snapshot_date ≤ today) →
      (∃ s ∈ db.snapshots, s.wallet_id = wallet_id ∧ today - 1 ≤ s.snapshot_date) →
      ∀ fd trig, (calculate_wallet_balance db today wallet_id fd trig).2 = db) := by
  refine ⟨?_, ?_, ?_, ?_⟩
  · -- (a)
    intro fd trig hcond
    unfold calculate_wallet_balance
    rw [hw]
    cases hwt : w.wallet_type with
    | CREDIT => simp [hwt]
    | NORMAL =>
      have hguard : (trig && (fd.getD today == today)) = false := by
        rcases hcond with h | h
        · simp [h]
        · simp [h]
      simp [hwt, hguard]
  · -- (b)
    intro hcredit fd trig
    unfold calculate_wallet_balance
    rw [hw]
    simp [hcredit]
  · -- (c)
    intro hnormal fd hfd hstale
    have hne : (WalletType.NORMAL == WalletType.CREDIT) = false := rfl
    rcases hstale with hnone | ⟨s, hs, hstale⟩
    · have hex : get_latest_snapshot db wallet_id (some (today - 1)) = none :=
        get_latest_none_mono db wallet_id (today - 1) today (by omega) hnone
      simp only [calculate_wallet_balance, hw, hfd, hnormal, hne,
        Bool.false_eq_true, if_false, hnone, hex, beq_self_eq_true,
        Bool.true_and, Bool.and_self, if_true]
    · have hstale' : today - s.snapshot_date > LAZY_SNAPSHOT_INTERVAL_DAYS := hstale
      simp only [LAZY_SNAPSHOT_INTERVAL_DAYS] at hstale'
      have hsc : decide (today - s.snapshot_date > LAZY_SNAPSHOT_INTERVAL_DAYS) = true :=
        decide_eq_true hstale
      have hskip : decide (s.snapshot_date ≥ today - 1) = false :=
        decide_eq_false (by omega)
      cases hex : get_latest_snapshot db wallet_id (some (today - 1)) with
      | none =>
        simp only [calculate_wallet_balance, hw, hfd, hnormal, hne,
          Bool.false_eq_true, if_false, hs, hex, hsc, hskip, beq_self_eq_true,
          Bool.true_and, Bool.and_self, if_true]
      | some e =>
        obtain ⟨hemem, hew, hed⟩ := get_latest_snapshot_spec db wallet_id (today - 1) e hex
        have hedom := get_latest_snapshot_max db wallet_id today s hs e hemem hew (by omega)
        have heq : (e.snapshot_date == today - 1) = false := by
          simp only [beq_eq_false_iff_ne, ne_eq]
          omega
        simp only [calculate_wallet_balance, hw, hfd, hnormal, hne,
          Bool.false_eq_true, if_false, hs, hex, hsc, hskip, heq, beq_self_eq_true,
          Bool.true_and, Bool.and_self, if_true]
  · -- (d)
    intro hbound hex fd trig
    obtain ⟨s0, hs0mem, hs0w, hs0d⟩ := hex
    unfold calculate_wallet_balance
    rw [hw]
    cases hwt : w.wallet_type with
    | CREDIT => simp [hwt]
    | NORMAL =>
      simp only [hwt]
      have hne : (WalletType.NORMAL == WalletType.CREDIT) = false := by decide
      rw [hne]
      simp only [Bool.false_eq_true, if_false]
      cases hL : get_latest_snapshot db wallet_id (some (fd.getD today)) with
      | none =>
        by_cases htf : (trig && (fd.getD today == today)) = true
        · exfalso
          have : fd.getD today = today := by
            have := htf
            simp only [Bool.and_eq_true, beq_iff_eq] at this
            exact this.2
          rw [this] at hL
          rw [get_latest_snapshot_none] at hL
          exact hL s0 hs0mem ⟨hs0w, hbound s0 hs0mem hs0w⟩
        · simp only [Bool.not_eq_true] at htf
          simp [htf]
      | some s =>
        by_cases htf : (trig && (fd.getD today == today)) = true
        · have htoday : fd.getD today = today := by
            have := htf
            simp only [Bool.and_eq_true, beq_iff_eq] at this
            exact this.2
          rw [htoday] at hL
          have hdom := get_latest_snapshot_max db wallet_id today s hL s0 hs0mem hs0w
            (hbound s0 hs0mem hs0w)
          have hfresh : decide (today - s.snapshot_date > LAZY_SNAPSHOT_INTERVAL_DAYS) = false := by
            simp only [decide_eq_false_iff_not, LAZY_SNAPSHOT_INTERVAL_DAYS]
            omega
          simp [htf, hfresh]
        · simp only [Bool.not_eq_true] at htf
          simp [htf]

/-- Example store for the C4 witness: a normal wallet, no snapshots, one
historical and one same-day transaction. -/
def db_for_c4 : DB :=
  ⟨[⟨1, WalletType.NORMAL⟩],
   [⟨1, 4, 1, TransactionDirection.INFLOW, 100, TransactionClassification.INCOME, none, none, false, false⟩,
    ⟨2, 30, 1, TransactionDirection.INFLOW, 7, TransactionClassification.INCOME, none, none, false, false⟩],
   [], [], [], 3, 1, 1⟩

/-- C4 witness: the creation clause of the amended theorem evaluated on
`db_for_c4` for today = 30. -/
theorem lazy_snapshot_amended_witness :
    (calculate_wallet_balance db_for_c4 30 1 (some 30) true).2 =
      create_snapshot db_for_c4 1 (30 - 1)
        ((calculate_wallet_balance db_for_c4 30 1 (some 30) true).1
          - sum_amounts (db_for_c4.transactions.filter (fun t =>
              t.wallet_id == 1 &&
              t.direction == TransactionDirection.INFLOW && t.date == 30))
          + sum_amounts (db_for_c4.transactions.filter (fun t =>
              t.wallet_id == 1 &&
              t.direction == TransactionDirection.OUTFLOW && t.date == 30))) :=
  (lazy_snapshot_amended db_for_c4 30 1 (Wallet.mk 1 WalletType.NORMAL)
      (by decide)).2.2.1 rfl (some 30) rfl (Or.inl (by decide))

/-! ## Snapshot-preservation lemmas for the mutation paths -/

/-- Surviving an invalidation bounds the snapshot date for the wallet. -/
theorem mem_invalidate (db : DB) (wallet_id : Nat) (d : Int) (s : WalletSnapshot)
    (h : s ∈ (invalidate_snapshots db wallet_id d).snapshots) :
    s ∈ db.snapshots ∧ (s.wallet_id = wallet_id → s.snapshot_date < d) := by
  unfold invalidate_snapshots at h
  simp only [List.mem_filter] at h
  refine ⟨h.1, fun hwid => ?_⟩
  have h2 := h.2
  simp only [hwid, beq_self_eq_true, Bool.true_and, Bool.not_eq_eq_eq_not,
    Bool.not_true, decide_eq_false_iff_not, not_le, ge_iff_le] at h2
  omega

/-- `set_transaction_row` leaves the snapshot table unchanged. -/
theorem set_transaction_row_snap (db : DB) (tid : Nat) (t' : Transaction) :
    (set_transaction_row db tid t').snapshots = db.snapshots := rfl

/-- `remove_transaction_row` leaves the snapshot table unchanged. -/
theorem remove_transaction_row_snap (db : DB) (tid : Nat) :
    (remove_transaction_row db tid).snapshots = db.snapshots := rfl

/-- `set_entry_row` leaves the snapshot table unchanged. -/
theorem set_entry_row_snap (db : DB) (eid : Nat) (e' : LinkedEntry) :
    (set_entry_row db eid e').snapshots = db.snapshots := rfl

/-- `delete_entry_cascade` leaves the snapshot table unchanged. -/
theorem delete_entry_cascade_snap (db : DB) (eid : Nat) :
    (delete_entry_cascade db eid).snapshots = db.snapshots := rfl

/-- `unlink_transaction` leaves the snapshot table unchanged. -/
theorem unlink_snapshots (db : DB) (link_id : Nat) :
    ((unlink_transaction db link_id).2).snapshots = db.snapshots := by
  unfold unlink_transaction
  split
  · rfl
  · split
    · rfl
    · split
      · rfl
      · rfl

/-- Unlinking a list of links leaves the snapshot table unchanged. -/
theorem foldl_unlink_snapshots (links : List LinkedTransaction) (db : DB) :
    (links.foldl (fun d l => (unlink_transaction d l.id).2) db).snapshots =
      db.snapshots := by
  induction links generalizing db with
  | nil => rfl
  | cons l ls ih => rw [List.foldl_cons, ih, unlink_snapshots]

/-- `_delete_transaction_impl` leaves the snapshot table unchanged. -/
theorem delete_impl_snapshots (db : DB) (tid : Nat) :
    ((_delete_transaction_impl db tid).2).snapshots = db.snapshots := by
  unfold _delete_transaction_impl
  split
  · rfl
  · dsimp only
    rw [remove_transaction_row_snap, foldl_unlink_snapshots]
    split
    · rw [delete_entry_cascade_snap]
      split
      · split <;> rfl
      · rfl
    · split
      · split <;> rfl
      · rfl

/-- The affected-wallets dictionary has at most one entry per wallet. -/
def key_unique (acc : List (Nat × Int)) : Prop :=
  ∀ p ∈ acc, ∀ q ∈ acc, p.1 = q.1 → p = q

/-- `min_date_step` preserves key uniqueness. -/
theorem min_date_step_unique (acc : List (Nat × Int)) (t : Transaction)
    (h : key_unique acc) : key_unique (min_date_step acc t) := by
  unfold min_date_step
  cases hf : acc.find? (fun p => p.1 == t.wallet_id) with
  | none =>
    intro p hp q hq hpq
    rcases List.mem_append.mp hp with hp' | hp'
    · rcases List.mem_append.mp hq with hq' | hq'
      · exact h p hp' q hq' hpq
      · exfalso
        simp only [List.mem_singleton] at hq'
        have hnone := List.find?_eq_none.mp hf p hp'
        simp only [beq_iff_eq] at hnone
        exact hnone (by rw [hpq, hq'])
    · rcases List.mem_append.mp hq with hq' | hq'
      · exfalso
        simp only [List.mem_singleton] at hp'
        have hnone := List.find?_eq_none.mp hf q hq'
        simp only [beq_iff_eq] at hnone
        exact hnone (by rw [← hpq, hp'])
      · simp only [List.mem_singleton] at hp' hq'
        rw [hp', hq']
  | some p0 =>
    by_cases hlt : t.date < p0.2
    · dsimp only
      rw [if_pos hlt]
      intro p hp q hq hpq
      obtain ⟨a, ha, hfa⟩ := List.mem_map.mp hp
      obtain ⟨b, hb, hfb⟩ := List.mem_map.mp hq
      have hkey : ∀ (x : Nat × Int),
          ((if x.1 == t.wallet_id then (x.1, t.date) else x) : Nat × Int).1 = x.1 := by
        intro x
        by_cases hx : (x.1 == t.wallet_id) = true
        · simp [hx]
        · simp only [Bool.not_eq_true] at hx
          simp [hx]
      have hab : a.1 = b.1 := by
        have h1 := hkey a
        have h2 := hkey b
        rw [hfa] at h1
        rw [hfb] at h2
        rw [← h1, ← h2, hpq]
      have : a = b := h a ha b hb hab
      rw [← hfa, ← hfb, this]
    · dsimp only
      rw [if_neg hlt]
      exact h

/-- `min_date_step` keeps an entry for every existing key, with a date that
can only shrink. -/
theorem min_date_step_persist (acc : List (Nat × Int)) (t : Transaction)
    (h : key_unique acc) :
    ∀ p ∈ acc, ∃ q ∈ min_date_step acc t, q.1 = p.1 ∧ q.2 ≤ p.2 := by
  intro p hp
  unfold min_date_step
  cases hf : acc.find? (fun x => x.1 == t.wallet_id) with
  | none => exact ⟨p, List.mem_append_left _ hp, rfl, le_refl _⟩
  | some p0 =>
    have hp0mem := List.mem_of_find?_eq_some hf
    have hp0key : p0.1 = t.wallet_id := by
      have := List.find?_some hf
      simpa using this
    by_cases hlt : t.date < p0.2
    · dsimp only
      rw [if_pos hlt]
      by_cases hkey : p.1 = t.wallet_id
      · have hpp0 : p = p0 := h p hp p0 hp0mem (by rw [hkey, hp0key])
        refine ⟨(p.1, t.date), ?_, rfl, ?_⟩
        · exact List.mem_map.mpr ⟨p, hp, by simp [hkey]⟩
        · rw [hpp0]
          omega
      · refine ⟨p, ?_, rfl, le_refl _⟩
        refine List.mem_map.mpr ⟨p, hp, ?_⟩
        have : (p.1 == t.wallet_id) = false := by
          simp only [beq_eq_false_iff_ne, ne_eq]
          exact hkey
        simp [this]
    · dsimp only
      rw [if_neg hlt]
      exact ⟨p, hp, rfl, le_refl _⟩

/-- After `min_date_step`, the processed transaction's wallet has an entry
dated at or before the transaction. -/
theorem min_date_step_new (acc : List (Nat × Int)) (t : Transaction) :
    ∃ q ∈ min_date_step acc t, q.1 = t.wallet_id ∧ q.2 ≤ t.date := by
  unfold min_date_step
  cases hf : acc.find? (fun x => x.1 == t.wallet_id) with
  | none =>
    exact ⟨(t.wallet_id, t.date), List.mem_append_right _ (by simp), rfl, le_refl _⟩
  | some p0 =>
    have hp0mem := List.mem_of_find?_eq_some hf
    have hp0key : p0.1 = t.wallet_id := by
      have := List.find?_some hf
      simpa using this
    by_cases hlt : t.date < p0.2
    · dsimp only
      rw [if_pos hlt]
      refine ⟨(p0.1, t.date), ?_, hp0key, le_refl _⟩
      exact List.mem_map.mpr ⟨p0, hp0mem, by simp [hp0key]⟩
    · dsimp only
      rw [if_neg hlt]
      exact ⟨p0, hp0mem, hp0key, by omega⟩

/-- The affected-wallets fold covers the accumulator and every processed
transaction. -/
theorem min_dates_fold (txns : List Transaction) :
    ∀ acc : List (Nat × Int), key_unique acc →
      key_unique (txns.foldl min_date_step acc) ∧
      (∀ p ∈ acc, ∃ q ∈ txns.foldl min_date_step acc, q.1 = p.1 ∧ q.2 ≤ p.2) ∧
      (∀ t ∈ txns, ∃ q ∈ txns.foldl min_date_step acc,
        q.1 = t.wallet_id ∧ q.2 ≤ t.date) := by
  induction txns with
  | nil =>
    intro acc h
    exact ⟨h, fun p hp => ⟨p, hp, rfl, le_refl _⟩, by simp⟩
  | cons t ts ih =>
    intro acc h
    have h1 := min_date_step_unique acc t h
    obtain ⟨hu, hpers, hnew⟩ := ih (min_date_step acc t) h1
    simp only [List.foldl_cons]
    refine ⟨hu, ?_, ?_⟩
    · intro p hp
      obtain ⟨q, hq, hq1, hq2⟩ := min_date_step_persist acc t h p hp
      obtain ⟨r, hr, hr1, hr2⟩ := hpers q hq
      exact ⟨r, hr, by rw [hr1, hq1], by omega⟩
    · intro t' ht'
      rcases List.mem_cons.mp ht' with rfl | ht''
      · obtain ⟨q, hq, hq1, hq2⟩ := min_date_step_new acc t'
        obtain ⟨r, hr, hr1, hr2⟩ := hpers q hq
        exact ⟨r, hr, by rw [hr1, hq1], by omega⟩
      · exact hnew t' ht''

/-- Every listed transaction's wallet appears in `min_dates_by_wallet` with
a date bound below the transaction's date. -/
theorem min_dates_cover (txns : List Transaction) (t : Transaction)
    (h : t ∈ txns) :
    ∃ q ∈ min_dates_by_wallet txns, q.1 = t.wallet_id ∧ q.2 ≤ t.date :=
  (min_dates_fold txns [] (by intro p hp; simp at hp)).2.2 t h

/-- Surviving a chain of invalidations bounds the snapshot date for every
invalidated wallet. -/
theorem mem_foldl_invalidate (pairs : List (Nat × Int)) (db : DB)
    (s : WalletSnapshot)
    (h : s ∈ (pairs.foldl (fun d p => invalidate_snapshots d p.1 p.2) db).snapshots) :
    s ∈ db.snapshots ∧ ∀ p ∈ pairs, s.wallet_id = p.1 → s.snapshot_date < p.2 := by
  induction pairs generalizing db with
  | nil => exact ⟨by simpa using h, by simp⟩
  | cons p ps ih =>
    rw [List.foldl_cons] at h
    obtain ⟨h1, h2⟩ := ih (invalidate_snapshots db p.1 p.2) h
    obtain ⟨h3, h4⟩ := mem_invalidate db p.1 p.2 s h1
    refine ⟨h3, ?_⟩
    intro q hq hsq
    rcases List.mem_cons.mp hq with rfl | hq'
    · exact h4 hsq
    · exact h2 q hq' hsq

/-- Example store for the C2 counterexample: two wallets, one transaction
in wallet 1 dated 5, and a snapshot for wallet 2 dated 7. -/
def db_for_c2 : DB :=
  ⟨[⟨1, WalletType.NORMAL⟩, ⟨2, WalletType.NORMAL⟩],
   [⟨1, 5, 1, TransactionDirection.INFLOW, 100, TransactionClassification.INCOME, none, none, false, false⟩],
   [⟨2, 7, 999⟩], [], [], 2, 1, 1⟩

/-- C2 counterexample: moving transaction 1 (wallet 1, date 5) to wallet 2
with date 10 succeeds, and X = min(5, 10) = 5, yet wallet 2's snapshot
dated 7 ≥ X survives — the code invalidates the new wallet only from the
new date, refuting the claim's "min(old date, new date) for both wallets". -/
theorem invalidation_counterexample :
    (update_transaction db_for_c2 30 1
        { wallet_id := some 2, date := some 10 }).1 = none ∧
    (update_transaction db_for_c2 30 1
        { wallet_id := some 2, date := some 10 }).2.1 = true ∧
    WalletSnapshot.mk 2 7 999 ∈
      (update_transaction db_for_c2 30 1
        { wallet_id := some 2, date := some 10 }).2.2.snapshots := by
  decide

/-- The paired-half update (`propagate_to_pair=False`) never adds a
snapshot: its working result's snapshots come from the input session. -/
theorem update_core_snapshots_subset (today : Int) (tid : Nat)
    (u : TransactionUpdate) (work comm : DB) (s : WalletSnapshot)
    (h : s ∈ ((update_transaction_core today tid u work comm).2.2.1).snapshots) :
    s ∈ work.snapshots := by
  unfold update_transaction_core at h
  split at h
  · exact h
  · dsimp only at h
    split at h
    · exact h
    · split at h
      · rename_i e c heq
        split at heq
        · split at heq
          · simp only [Prod.mk.injEq] at heq
            obtain ⟨-, hw, -⟩ := heq
            subst hw
            exact (mem_invalidate _ _ _ s h).1
          · simp at heq
        · simp at heq
      · rename_i work2 c heq
        rw [set_transaction_row_snap] at h
        split at heq
        · split at heq
          · simp at heq
          · simp only [Prod.mk.injEq] at heq
            obtain ⟨-, hw, -⟩ := heq
            subst hw
            exact (mem_invalidate _ _ _ s ((mem_invalidate _ _ _ s h).1)).1
        · simp only [Prod.mk.injEq] at heq
          obtain ⟨-, hw, -⟩ := heq
          subst hw
          exact (mem_invalidate _ _ _ s h).1

/-- C2 amended: after a successful core write the code guarantees —
insert: no snapshot of the inserted transaction's wallet dated at or after
its date survives; batched delete: for each listed transaction, no snapshot
of its wallet dated at or after that transaction's date survives; update:
no snapshot of the old wallet dated at or after the old date survives, and,
when the wallet changed or the date moved earlier, no snapshot of the new
wallet dated at or after the new date survives.  (The original claim's
"min(old date, new date) applied to both wallets" does not hold for the
new wallet, and delete only covers the wallets of the listed transactions,
not of cascade-deleted paired halves.) -/
theorem invalidation_amended :
    (∀ (db : DB) (today : Int) (tc : TransactionCreate) (t : Transaction) (db' : DB),
      create_transaction db today tc = Except.ok (t, db') →
      ∀ s ∈ db'.snapshots, s.wallet_id = tc.wallet_id → s.snapshot_date < tc.date)
    ∧ (∀ (db : DB) (today : Int) (ids : List Nat) (allow : Bool) (db' : DB),
      delete_transactions db today ids allow = (none, true, db') →
      ∀ t ∈ db.transactions, ids.contains t.id = true →
      ∀ s ∈ db'.snapshots, s.wallet_id = t.wallet_id → s.snapshot_date < t.date)
    ∧ (∀ (db : DB) (today : Int) (tid : Nat) (u : TransactionUpdate) (db' : DB)
        (t0 : Transaction),
      update_transaction db today tid u = (none, true, db') →
      get_transaction db tid = some t0 →
      (∀ s ∈ db'.snapshots, s.wallet_id = t0.wallet_id → s.snapshot_date < t0.date)
      ∧ ((u.wallet_id.getD t0.wallet_id ≠ t0.wallet_id ∨
            u.date.getD t0.date < t0.date) →
        ∀ s ∈ db'.snapshots, s.wallet_id = u.wallet_id.getD t0.wallet_id →
          s.snapshot_date < u.date.getD t0.date)) := by
  refine ⟨?_, ?_, ?_⟩
  · -- create_transaction
    intro db today tc t db' h s hs hw
    unfold create_transaction at h
    split at h
    · exact absurd h (by simp)
    · simp only [Except.ok.injEq, Prod.mk.injEq] at h
      obtain ⟨-, hdb⟩ := h
      subst hdb
      exact (mem_invalidate _ tc.wallet_id tc.date s hs).2 hw
  · -- delete_transactions
    intro db today ids allow db' h t ht hcont s hs hw
    unfold delete_transactions at h
    dsimp only at h
    split at h
    · simp at h
    · split at h
      · simp at h
      · simp only [Prod.mk.injEq] at h
        obtain ⟨-, -, hdb⟩ := h
        subst hdb
        have htx : t ∈ db.transactions.filter (fun x => ids.contains x.id) :=
          List.mem_filter.mpr ⟨ht, hcont⟩
        obtain ⟨q, hq, hq1, hq2⟩ := min_dates_cover _ t htx
        have hmm := mem_foldl_invalidate _ _ s hs
        have := hmm.2 q hq (by rw [hw, ← hq1])
        omega
  · -- update_transaction
    intro db today tid u db' t0 h ht0
    unfold update_transaction at h
    rw [ht0] at h
    dsimp only at h
    split at h
    · simp at h
    · split at h
      · simp at h
      · rename_i work2 heq
        -- every snapshot surviving in work2 was invalidated for the old wallet,
        -- and for the new wallet when the second invalidation ran
        have hold : ∀ x ∈ work2.snapshots,
            x.wallet_id = t0.wallet_id → x.snapshot_date < t0.date := by
          intro x hx hxw
          split at heq
          · split at heq
            · simp at heq
            · simp only [Prod.mk.injEq] at heq
              obtain ⟨-, hw2⟩ := heq
              subst hw2
              exact (mem_invalidate _ _ _ x (mem_invalidate _ _ _ x hx).1).2 hxw
          · simp only [Prod.mk.injEq] at heq
            obtain ⟨-, hw2⟩ := heq
            subst hw2
            exact (mem_invalidate _ _ _ x hx).2 hxw
        have hnew : (u.wallet_id.getD t0.wallet_id ≠ t0.wallet_id ∨
              u.date.getD t0.date < t0.date) →
            ∀ x ∈ work2.snapshots, x.wallet_id = u.wallet_id.getD t0.wallet_id →
              x.snapshot_date < u.date.getD t0.date := by
          intro hcond x hx hxw
          have hb : (u.wallet_id.getD t0.wallet_id != t0.wallet_id ||
              decide (u.date.getD t0.date < t0.date)) = true := by
            rcases hcond with hc | hc
            · simp [hc]
            · simp [hc]
          rw [if_pos hb] at heq
          split at heq
          · simp at heq
          · simp only [Prod.mk.injEq] at heq
            obtain ⟨-, hw2⟩ := heq
            subst hw2
            exact (mem_invalidate _ _ _ x hx).2 hxw
        -- the remaining steps only shrink the snapshot table
        have hsub : ∀ x ∈ db'.snapshots, x ∈ work2.snapshots := by
          intro x hx
          split at h
          · rename_i pid hpid
            split at h
            · split at h
              · simp at h
              · rename_i errP fndP workP commP heqP
                simp only [Prod.mk.injEq] at h
                obtain ⟨-, -, hdb⟩ := h
                subst hdb
                have := update_core_snapshots_subset today pid
                  { amount := u.amount, date := u.date,
                    description := u.description, classification := u.classification }
                  _ work2 x (by rw [heqP]; exact hx)
                rwa [set_transaction_row_snap] at this
            · simp only [Prod.mk.injEq] at h
              obtain ⟨-, -, hdb⟩ := h
              subst hdb
              rwa [set_transaction_row_snap] at hx
          · simp only [Prod.mk.injEq] at h
            obtain ⟨-, -, hdb⟩ := h
            subst hdb
            rwa [set_transaction_row_snap] at hx
        exact ⟨fun x hx => hold x (hsub x hx),
          fun hcond x hx => hnew hcond x (hsub x hx)⟩

/-- C2 witness stores: inputs and outputs of one insert, one batched
delete and one cross-wallet update. -/
def db_c2w_create : DB := ⟨[⟨1, WalletType.NORMAL⟩], [], [⟨1, 3, 50⟩], [], [], 1, 1, 1⟩

/-- Result of inserting a transaction dated 2 into `db_c2w_create`. -/
def db_c2w_create' : DB :=
  ⟨[⟨1, WalletType.NORMAL⟩],
   [⟨1, 2, 1, TransactionDirection.INFLOW, 5, TransactionClassification.INCOME, none, none, false, false⟩],
   [], [], [], 2, 1, 1⟩

/-- Store for the delete witness. -/
def db_c2w_del : DB :=
  ⟨[⟨1, WalletType.NORMAL⟩],
   [⟨1, 5, 1, TransactionDirection.INFLOW, 9, TransactionClassification.INCOME, none, none, false, false⟩],
   [⟨1, 6, 77⟩], [], [], 2, 1, 1⟩

/-- Result of deleting transaction 1 from `db_c2w_del`. -/
def db_c2w_del' : DB := ⟨[⟨1, WalletType.NORMAL⟩], [], [], [], [], 2, 1, 1⟩

/-- Result of moving `db_for_c2`'s transaction 1 to wallet 2, date 10. -/
def db_c2w_upd' : DB :=
  ⟨[⟨1, WalletType.NORMAL⟩, ⟨2, WalletType.NORMAL⟩],
   [⟨1, 10, 2, TransactionDirection.INFLOW, 100, TransactionClassification.INCOME, none, none, false, false⟩],
   [⟨2, 7, 999⟩], [], [], 2, 1, 1⟩

/-- C2 witness: the amended invalidation guarantees evaluated on concrete
insert, delete and update runs. -/
theorem invalidation_amended_witness :
    (∀ s ∈ db_c2w_create'.snapshots, s.wallet_id = 1 → s.snapshot_date < 2) ∧
    (∀ t ∈ db_c2w_del.transactions, ([1] : List Nat).contains t.id = true →
      ∀ s ∈ db_c2w_del'.snapshots, s.wallet_id = t.wallet_id →
        s.snapshot_date < t.date) ∧
    ((∀ s ∈ db_c2w_upd'.snapshots, s.wallet_id = 1 → s.snapshot_date < 5) ∧
     ((2 ≠ 1 ∨ (10 : Int) < 5) →
       ∀ s ∈ db_c2w_upd'.snapshots, s.wallet_id = 2 → s.snapshot_date < 10)) :=
  ⟨invalidation_amended.1 db_c2w_create 10
      { date := 2, wallet_id := 1, direction := TransactionDirection.INFLOW,
        amount := 5, classification := TransactionClassification.INCOME }
      ⟨1, 2, 1, TransactionDirection.INFLOW, 5, TransactionClassification.INCOME,
        none, none, false, false⟩
      db_c2w_create' (by rfl),
   invalidation_amended.2.1 db_c2w_del 10 [1] false db_c2w_del' (by decide),
   invalidation_amended.2.2 db_for_c2 30 1 { wallet_id := some 2, date := some 10 }
      db_c2w_upd'
      ⟨1, 5, 1, TransactionDirection.INFLOW, 100, TransactionClassification.INCOME,
        none, none, false, false⟩
      (by decide) (by decide)⟩

/-- Replacing the found element of a list in place is found afterwards. -/
theorem find?_map_replace {α : Type} (l : List α) (p : α → Bool) (e' a : α)
    (h : l.find? p = some a) (hp : p e' = true) :
    (l.map (fun x => if p x then e' else x)).find? p = some e' := by
  induction l with
  | nil => simp at h
  | cons x xs ih =>
    by_cases hx : p x = true
    · simp only [List.map_cons, if_pos hx]
      exact List.find?_cons_of_pos _ hp
    · have hx' : p x = false := by simpa using hx
      rw [List.find?_cons_of_neg _ (by simp [hx'])] at h
      simp only [List.map_cons, if_neg hx]
      rw [List.find?_cons_of_neg _ (by simp [hx'])]
      exact ih h

/-- Example store for the C8 counterexample: a fully settled split payment
(total 100.00, user share 40.00) with one 60.00 reimbursement linked. -/
def db_for_c8 : DB :=
  ⟨[⟨1, WalletType.NORMAL⟩],
   [⟨1, 10, 1, TransactionDirection.OUTFLOW, 10000, TransactionClassification.SPLIT_PAYMENT, none, none, false, false⟩,
    ⟨2, 12, 1, TransactionDirection.INFLOW, 6000, TransactionClassification.DEBT_COLLECTION, none, none, false, false⟩],
   [], [⟨1, LinkType.SPLIT_PAYMENT, 1, 10000, some 4000, 0, LinkStatus.SETTLED⟩],
   [⟨1, 1, 2⟩], 3, 2, 2⟩

/-- C8 counterexample: unlinking the only reimbursement restores the full
outstanding amount (pending = 6000 = total − user_amount), yet the status
becomes `PARTIAL`, not the claimed `Pending` — the code compares the
restored pending against `total_amount`, ignoring `user_amount`. -/
theorem unlink_counterexample :
    (unlink_transaction db_for_c8 1).1 = none ∧
    (∃ e, get_linked_entry (unlink_transaction db_for_c8 1).2 1 = some e ∧
      e.pending_amount = 6000 ∧
      e.total_amount - (e.user_amount.getD 0) = 6000 ∧
      e.status = LinkStatus.PARTIALLY ∧ e.status ≠ LinkStatus.PENDING) := by
  refine ⟨by decide, ⟨⟨1, LinkType.SPLIT_PAYMENT, 1, 10000, some 4000, 6000,
    LinkStatus.PARTIALLY⟩, by decide, by decide, by decide, by decide, by decide⟩⟩

/-- C8 amended: `unlink_transaction` increases the entry's pending amount
by the linked transaction's amount, deletes exactly the join row, leaves
every transaction (hence the settling transaction's classification)
unchanged, and recomputes the status as the code does: `Pending` when the
restored pending reaches `total_amount`, `Settled` when it is at most 0.01,
`Partial` otherwise. -/
theorem unlink_amended (db : DB) (link_id : Nat) (link : LinkedTransaction)
    (entry : LinkedEntry) (t : Transaction)
    (hl : db.linked_transactions.find? (fun l => l.id == link_id) = some link)
    (he : get_linked_entry db link.linked_entry_id = some entry)
    (ht : get_transaction db link.transaction_id = some t) :
    (unlink_transaction db link_id).1 = none ∧
    (unlink_transaction db link_id).2.transactions = db.transactions ∧
    (unlink_transaction db link_id).2.linked_transactions =
      db.linked_transactions.filter (fun l => l.id != link_id) ∧
    get_linked_entry (unlink_transaction db link_id).2 link.linked_entry_id =
      some { entry with
             pending_amount := entry.pending_amount + t.amount
             status :=
               if entry.pending_amount + t.amount ≥ entry.total_amount then
                 LinkStatus.PENDING
               else if entry.pending_amount + t.amount ≤ 1 then LinkStatus.SETTLED
               else LinkStatus.PARTIALLY } := by
  have heid : entry.id = link.linked_entry_id := by
    have := List.find?_some he
    simpa using this
  unfold unlink_transaction
  rw [hl]
  dsimp only
  rw [he]
  dsimp only
  rw [ht]
  dsimp only
  refine ⟨rfl, rfl, rfl, ?_⟩
  unfold get_linked_entry set_entry_row
  dsimp only
  rw [heid]
  exact find?_map_replace _ _ _ _ he (by simp [heid])

/-- C8 witness: the amended unlink behaviour evaluated on `db_for_c8`. -/
theorem unlink_amended_witness :
    (unlink_transaction db_for_c8 1).1 = none ∧
    (unlink_transaction db_for_c8 1).2.transactions = db_for_c8.transactions ∧
    (unlink_transaction db_for_c8 1).2.linked_transactions =
      db_for_c8.linked_transactions.filter (fun l => l.id != 1) ∧
    get_linked_entry (unlink_transaction db_for_c8 1).2 1 =
      some { id := 1, link_type := LinkType.SPLIT_PAYMENT,
             primary_transaction_id := 1, total_amount := 10000,
             user_amount := some 4000, pending_amount := 0 + 6000,
             status :=
               if (0 : Int) + 6000 ≥ 10000 then LinkStatus.PENDING
               else if (0 : Int) + 6000 ≤ 1 then LinkStatus.SETTLED
               else LinkStatus.PARTIALLY } :=
  unlink_amended db_for_c8 1 ⟨1, 1, 2⟩
    ⟨1, LinkType.SPLIT_PAYMENT, 1, 10000, some 4000, 0, LinkStatus.SETTLED⟩
    ⟨2, 12, 1, TransactionDirection.INFLOW, 6000,
      TransactionClassification.DEBT_COLLECTION, none, none, false, false⟩
    (by decide) (by decide) (by decide)

/-- A successful `create_transaction` returns exactly the row built from
the request, with the fresh id. -/
theorem create_transaction_ok_fields (db : DB) (today : Int)
    (tc : TransactionCreate) (t : Transaction) (db' : DB)
    (h : create_transaction db today tc = Except.ok (t, db')) :
    t = ⟨db.next_transaction_id, tc.date, tc.wallet_id, tc.direction, tc.amount,
         tc.classification, tc.description, tc.paired_transaction_id,
         tc.is_ignored, tc.is_calibration⟩ := by
  unfold create_transaction at h
  split at h
  · simp at h
  · simp only [Except.ok.injEq, Prod.mk.injEq] at h
    exact h.1.symm

/-- C9: `resolve_calibration` forces the new transaction onto the
calibration's wallet, computes the new calibration amount by subtracting on
equal directions and adding on differing ones, and then: zero → amount 0
and `is_ignored` set, record kept; negative → direction and classification
flip (Income and Expense exchanged), amount set to the absolute value,
`is_ignored` cleared; positive → only the amount updated. -/
theorem resolve_calibration_arithmetic (db : DB) (today : Int)
    (calibration_id : Nat) (tc : TransactionCreate) (cal nt : Transaction)
    (db1 : DB)
    (hc : get_transaction db calibration_id = some cal)
    (hcal : cal.is_calibration = true)
    (hcoherent : (cal.direction = TransactionDirection.OUTFLOW ∧
        cal.classification = TransactionClassification.EXPENSE) ∨
      (cal.direction = TransactionDirection.INFLOW ∧
        cal.classification = TransactionClassification.INCOME))
    (hcreate : create_transaction db today
        (if tc.wallet_id != cal.wallet_id then
          { tc with wallet_id := cal.wallet_id }
         else tc) = Except.ok (nt, db1)) :
    ∃ res db2,
      resolve_calibration db today calibration_id tc = Except.ok (res, db2) ∧
      res.new_transaction = nt ∧
      nt.wallet_id = cal.wallet_id ∧
      res.calibration_deleted = false ∧
      ∃ cal', res.updated_calibration = some cal' ∧
        db2 = set_transaction_row db1 calibration_id cal' ∧
        (let A : Int :=
          if nt.direction == cal.direction then cal.amount - nt.amount
          else cal.amount + nt.amount
         (A = 0 → cal' = { cal with amount := 0, is_ignored := true }) ∧
         (A < 0 → cal'.amount = -A ∧ cal'.is_ignored = false ∧
            (cal.direction = TransactionDirection.OUTFLOW →
              cal'.direction = TransactionDirection.INFLOW) ∧
            (cal.direction = TransactionDirection.INFLOW →
              cal'.direction = TransactionDirection.OUTFLOW) ∧
            (cal.classification = TransactionClassification.EXPENSE →
              cal'.classification = TransactionClassification.INCOME) ∧
            (cal.classification = TransactionClassification.INCOME →
              cal'.classification = TransactionClassification.EXPENSE)) ∧
         (0 < A → cal' = { cal with amount := A })) := by
  have hnt := create_transaction_ok_fields _ _ _ _ _ hcreate
  have hwid : nt.wallet_id = cal.wallet_id := by
    rw [hnt]
    by_cases hne : (tc.wallet_id != cal.wallet_id) = true
    · simp only [if_pos hne]
    · have : tc.wallet_id = cal.wallet_id := by simpa using hne
      simp only [Bool.not_eq_true] at hne
      simp [hne, this]
  unfold resolve_calibration
  rw [hc]
  dsimp only
  simp only [hcal, Bool.not_true, Bool.false_eq_true, if_false]
  rw [hcreate]
  dsimp only
  set A : Int := (if nt.direction == cal.direction then cal.amount - nt.amount
    else cal.amount + nt.amount) with hA
  by_cases h0 : (A == 0) = true
  · have h0' : A = 0 := by simpa using h0
    rw [if_pos h0]
    refine ⟨_, _, rfl, rfl, hwid, rfl, _, rfl, rfl, ?_, ?_, ?_⟩
    · intro _; rfl
    · intro hlt; exact absurd h0' (by omega)
    · intro hgt; exact absurd h0' (by omega)
  · have h0' : A ≠ 0 := by simpa using h0
    rw [if_neg (by simpa using h0)]
    by_cases hneg : A < 0
    · rw [if_pos hneg]
      refine ⟨_, _, rfl, rfl, hwid, rfl, _, rfl, rfl, ?_, ?_, ?_⟩
      · intro h; exact absurd h h0'
      · intro _
        refine ⟨by simp [abs_of_neg hneg], rfl, ?_, ?_, ?_, ?_⟩
        · intro hd; simp [hd]
        · intro hd; simp [hd]
        · intro hcl
          rcases hcoherent with ⟨hd, -⟩ | ⟨hd, hce⟩
          · simp [hd]
          · rw [hce] at hcl; exact absurd hcl (by decide)
        · intro hcl
          rcases hcoherent with ⟨hd, hce⟩ | ⟨hd, -⟩
          · rw [hce] at hcl; exact absurd hcl (by decide)
          · simp [hd]
      · intro hgt; exact absurd hgt (by omega)
    · rw [if_neg hneg]
      refine ⟨_, _, rfl, rfl, hwid, rfl, _, rfl, rfl, ?_, ?_, ?_⟩
      · intro h; exact absurd h h0'
      · intro h; exact absurd h hneg
      · intro _; rfl

/-- Store for the C9 witness: one calibration of 2000 Outflow/Expense. -/
def db_for_c9 : DB :=
  ⟨[⟨1, WalletType.NORMAL⟩],
   [⟨1, 10, 1, TransactionDirection.OUTFLOW, 2000, TransactionClassification.EXPENSE, none, none, false, true⟩],
   [], [], [], 2, 1, 1⟩

/-- The calibration row of `db_for_c9`. -/
def cal_c9 : Transaction :=
  ⟨1, 10, 1, TransactionDirection.OUTFLOW, 2000,
   TransactionClassification.EXPENSE, none, none, false, true⟩

/-- The transaction created while resolving: Inflow 2500 forced onto
wallet 1. -/
def nt_c9 : Transaction :=
  ⟨2, 30, 1, TransactionDirection.INFLOW, 2500,
   TransactionClassification.INCOME, none, none, false, false⟩

/-- The store after creating `nt_c9`. -/
def db1_c9 : DB :=
  ⟨[⟨1, WalletType.NORMAL⟩], [cal_c9, nt_c9], [], [], [], 3, 1, 1⟩

/-- C9 witness: resolving the −2000 calibration with an Inflow of 2500
(the spec's opposite-direction scenario; the request even names wallet 7,
which is overridden). -/
theorem resolve_calibration_arithmetic_witness :
    get_transaction db_for_c9 1 = some cal_c9 ∧
    cal_c9.is_calibration = true ∧
    (∃ res db2,
      resolve_calibration db_for_c9 30 1
        { date := 30, wallet_id := 7, direction := TransactionDirection.INFLOW,
          amount := 2500, classification := TransactionClassification.INCOME } =
        Except.ok (res, db2) ∧
      res.new_transaction = nt_c9 ∧
      nt_c9.wallet_id = cal_c9.wallet_id ∧
      res.calibration_deleted = false ∧
      ∃ cal', res.updated_calibration = some cal' ∧
        db2 = set_transaction_row db1_c9 1 cal' ∧
        (let A : Int :=
          if nt_c9.direction == cal_c9.direction then cal_c9.amount - nt_c9.amount
          else cal_c9.amount + nt_c9.amount
         (A = 0 → cal' = { cal_c9 with amount := 0, is_ignored := true }) ∧
         (A < 0 → cal'.amount = -A ∧ cal'.is_ignored = false ∧
            (cal_c9.direction = TransactionDirection.OUTFLOW →
              cal'.direction = TransactionDirection.INFLOW) ∧
            (cal_c9.direction = TransactionDirection.INFLOW →
              cal'.direction = TransactionDirection.OUTFLOW) ∧
            (cal_c9.classification = TransactionClassification.EXPENSE →
              cal'.classification = TransactionClassification.INCOME) ∧
            (cal_c9.classification = TransactionClassification.INCOME →
              cal'.classification = TransactionClassification.EXPENSE)) ∧
         (0 < A → cal' = { cal_c9 with amount := A }))) :=
  ⟨by decide, by decide,
   resolve_calibration_arithmetic db_for_c9 30 1
     { date := 30, wallet_id := 7, direction := TransactionDirection.INFLOW,
       amount := 2500, classification := TransactionClassification.INCOME }
     cal_c9 nt_c9 db1_c9 (by decide) (by decide) (Or.inl ⟨rfl, rfl⟩) (by rfl)⟩

/-- Store for the C7 failing input: a Debt entry (pending 5000), a valid
Expense/Outflow repayment (id 2), an invalid Inflow transaction (id 3), and
a snapshot dated after the repayment. -/
def db_for_c7 : DB :=
  ⟨[⟨1, WalletType.NORMAL⟩],
   [⟨1, 10, 1, TransactionDirection.INFLOW, 5000, TransactionClassification.BORROW, none, none, false, false⟩,
    ⟨2, 12, 1, TransactionDirection.OUTFLOW, 1000, TransactionClassification.EXPENSE, none, none, false, false⟩,
    ⟨3, 13, 1, TransactionDirection.INFLOW, 1000, TransactionClassification.INCOME, none, none, false, false⟩],
   [⟨1, 20, 12345⟩],
   [⟨1, LinkType.DEBT, 1, 5000, none, 5000, LinkStatus.PENDING⟩],
   [], 4, 2, 1⟩

/-- C7: `link_transactions` on the batch [2, 3] raises (transaction 3 has
the wrong direction), yet the state a caller observes after rollback is
changed: transaction 2 is reclassified to LoanRepayment, its join record
exists, and the wallet snapshot is deleted — because
`invalidate_snapshots`, called inside the per-transaction loop, commits
the session mid-batch.  The batch is not all-or-nothing. -/
theorem link_atomicity_violation :
    (link_transactions db_for_c7 1 [2, 3]).1 = some Err.wrongDirection ∧
    get_transaction (link_transactions db_for_c7 1 [2, 3]).2 2 =
      some ⟨2, 12, 1, TransactionDirection.OUTFLOW, 1000,
        TransactionClassification.LOAN_REPAYMENT, none, none, false, false⟩ ∧
    (link_transactions db_for_c7 1 [2, 3]).2.linked_transactions = [⟨1, 1, 2⟩] ∧
    (link_transactions db_for_c7 1 [2, 3]).2.snapshots = [] ∧
    (link_transactions db_for_c7 1 [2, 3]).2 ≠ db_for_c7 := by
  decide

/-! ## Settlement validation tables (spec side) -/

/-- Required direction of a settling transaction per entry type (§4.2). -/
def required_direction : LinkType → TransactionDirection
  | LinkType.SPLIT_PAYMENT => TransactionDirection.INFLOW
  | LinkType.LOAN => TransactionDirection.INFLOW
  | LinkType.DEBT => TransactionDirection.OUTFLOW
  | LinkType.INSTALLMENT => TransactionDirection.OUTFLOW

/-- Source classification that is auto-reclassified per entry type. -/
def source_classification : LinkType → TransactionClassification
  | LinkType.SPLIT_PAYMENT => TransactionClassification.INCOME
  | LinkType.LOAN => TransactionClassification.INCOME
  | LinkType.DEBT => TransactionClassification.EXPENSE
  | LinkType.INSTALLMENT => TransactionClassification.EXPENSE

/-- Target classification per entry type. -/
def target_classification : LinkType → TransactionClassification
  | LinkType.SPLIT_PAYMENT => TransactionClassification.DEBT_COLLECTION
  | LinkType.LOAN => TransactionClassification.DEBT_COLLECTION
  | LinkType.DEBT => TransactionClassification.LOAN_REPAYMENT
  | LinkType.INSTALLMENT => TransactionClassification.INSTALLMT_CHRGE

/-- A settling transaction is acceptable for an entry type when its
direction is the required one and its classification is the source or the
target classification. -/
def link_acceptable (lt : LinkType) (t : Transaction) : Prop :=
  t.direction = required_direction lt ∧
  (t.classification = source_classification lt ∨
   t.classification = target_classification lt)

instance (lt : LinkType) (t : Transaction) : Decidable (link_acceptable lt t) := by
  unfold link_acceptable
  infer_instance

/-- Acceptable transactions validate to the target classification. -/
theorem link_validate_ok_of (lt : LinkType) (t : Transaction)
    (h : link_acceptable lt t) :
    link_validate lt t = Except.ok (target_classification lt) := by
  obtain ⟨hd, hc⟩ := h
  cases lt <;>
    simp only [required_direction] at hd <;>
    simp only [source_classification, target_classification] at hc <;>
    rcases hc with hc | hc <;>
    simp [link_validate, target_classification, hd, hc]

/-- Unacceptable transactions are rejected by the validation table. -/
theorem link_validate_error_of (lt : LinkType) (t : Transaction)
    (h : ¬ link_acceptable lt t) :
    ∃ e, link_validate lt t = Except.error e := by
  unfold link_acceptable at h
  by_cases hd : t.direction = required_direction lt
  · have hns : t.classification ≠ source_classification lt :=
      fun hcs => h ⟨hd, Or.inl hcs⟩
    have hnt : t.classification ≠ target_classification lt :=
      fun hct => h ⟨hd, Or.inr hct⟩
    refine ⟨Err.wrongClassification, ?_⟩
    cases lt <;>
      simp only [required_direction] at hd <;>
      simp only [source_classification] at hns <;>
      simp only [target_classification] at hnt <;>
      simp [link_validate, hd, hns, hnt]
  · refine ⟨Err.wrongDirection, ?_⟩
    cases lt <;>
      simp only [required_direction] at hd <;>
      simp [link_validate, hd]

/-- A successful validation means the transaction was acceptable and the
returned classification is the target one. -/
theorem link_validate_ok_inv (lt : LinkType) (t : Transaction)
    (c : TransactionClassification)
    (h : link_validate lt t = Except.ok c) :
    link_acceptable lt t ∧ c = target_classification lt := by
  by_cases ha : link_acceptable lt t
  · have := link_validate_ok_of lt t ha
    rw [this] at h
    exact ⟨ha, (Except.ok.injEq _ _ ▸ h.symm : _)⟩
  · obtain ⟨e, he⟩ := link_validate_error_of lt t ha
    rw [he] at h
    exact absurd h (by simp)

/-- A batch whose members are all acceptable runs the linking loop to
completion: every listed transaction is reclassified to the target
classification (a no-op when it already carries it), one join row is
appended per transaction in order, and the entry table is untouched. -/
theorem link_loop_ok (eid : Nat) (lt : LinkType) :
    ∀ (ts : List Transaction) (work comm : DB),
      (∀ t ∈ ts, link_acceptable lt t) →
      ∃ work' comm',
        link_loop eid lt ts work comm = (none, work', comm') ∧
        work'.transactions = work.transactions.map (fun x =>
          if (ts.map Transaction.id).contains x.id = true then
            { x with classification := target_classification lt } else x) ∧
        work'.linked_transactions.map
            (fun l => (l.linked_entry_id, l.transaction_id)) =
          work.linked_transactions.map
            (fun l => (l.linked_entry_id, l.transaction_id)) ++
            ts.map (fun t => (eid, t.id)) ∧
        work'.linked_entries = work.linked_entries := by
  intro ts
  induction ts with
  | nil =>
    intro work comm h
    refine ⟨work, comm, rfl, ?_, by simp, rfl⟩
    have hid : work.transactions.map (fun x =>
        if (([] : List Transaction).map Transaction.id).contains x.id = true then
          { x with classification := target_classification lt } else x) =
        work.transactions.map id := by
      apply List.map_congr_left
      intro x _
      simp
    rw [hid, List.map_id]
  | cons t rest ih =>
    intro work comm h
    have hval := link_validate_ok_of lt t (h t (List.mem_cons_self t rest))
    have hrest : ∀ u ∈ rest, link_acceptable lt u :=
      fun u hu => h u (List.mem_cons_of_mem t hu)
    unfold link_loop
    rw [hval]
    dsimp only
    have hcompose : ∀ (base : DB),
        base.transactions =
          (add_link_row (set_transaction_classification work t.id
            (target_classification lt)) eid t.id).transactions →
        base.transactions.map (fun x =>
          if (rest.map Transaction.id).contains x.id = true then
            { x with classification := target_classification lt } else x) =
        work.transactions.map (fun x =>
          if ((t :: rest).map Transaction.id).contains x.id = true then
            { x with classification := target_classification lt } else x) := by
      intro base hbase
      rw [hbase]
      show (work.transactions.map (fun x =>
          if x.id == t.id then { x with classification := target_classification lt }
          else x)).map _ = _
      rw [List.map_map]
      apply List.map_congr_left
      intro x _
      simp only [Function.comp]
      have hcons : (((t :: rest).map Transaction.id).contains x.id) =
          ((x.id == t.id) || ((rest.map Transaction.id).contains x.id)) := by
        rw [List.map_cons, List.contains_cons]
      by_cases hx : (x.id == t.id) = true
      · by_cases hr : ((rest.map Transaction.id).contains x.id) = true
        · simp only [hcons, hx, hr, Bool.true_or, eq_self_iff_true, if_true]
        · have hr' : ((rest.map Transaction.id).contains x.id) = false := by
            simpa using hr
          simp only [hcons, hx, hr', Bool.true_or, eq_self_iff_true, if_true,
            Bool.false_eq_true, if_false]
      · have hx' : (x.id == t.id) = false := by simpa using hx
        by_cases hr : ((rest.map Transaction.id).contains x.id) = true
        · simp only [hcons, hx', hr, Bool.false_or, eq_self_iff_true, if_true,
            Bool.false_eq_true, if_false]
        · have hr' : ((rest.map Transaction.id).contains x.id) = false := by
            simpa using hr
          simp only [hcons, hx', hr', Bool.false_or, Bool.false_eq_true, if_false]
    by_cases hinv : ((target_classification lt ==
          TransactionClassification.LOAN_REPAYMENT) ||
        (target_classification lt ==
          TransactionClassification.INSTALLMT_CHRGE)) = true
    · rw [if_pos hinv]
      obtain ⟨work', comm', heq, htr, hlk, hen⟩ := ih
        (invalidate_snapshots (add_link_row (set_transaction_classification work t.id
          (target_classification lt)) eid t.id) t.wallet_id t.date)
        (invalidate_snapshots (add_link_row (set_transaction_classification work t.id
          (target_classification lt)) eid t.id) t.wallet_id t.date) hrest
      refine ⟨work', comm', heq, ?_, ?_, hen⟩
      · rw [htr]
        exact hcompose _ rfl
      · rw [hlk]
        simp [add_link_row, set_transaction_classification, invalidate_snapshots,
          List.map_append, List.append_assoc]
    · rw [if_neg (by simpa using hinv)]
      obtain ⟨work', comm', heq, htr, hlk, hen⟩ := ih
        (add_link_row (set_transaction_classification work t.id
          (target_classification lt)) eid t.id) comm hrest
      refine ⟨work', comm', heq, ?_, ?_, hen⟩
      · rw [htr]
        exact hcompose _ rfl
      · rw [hlk]
        simp [add_link_row, set_transaction_classification, invalidate_snapshots,
          List.map_append, List.append_assoc]

/-- A batch containing an unacceptable transaction makes the loop raise. -/
theorem link_loop_error (eid : Nat) (lt : LinkType) :
    ∀ (ts : List Transaction) (work comm : DB),
      (∃ t ∈ ts, ¬ link_acceptable lt t) →
      ((link_loop eid lt ts work comm).1).isSome = true := by
  intro ts
  induction ts with
  | nil =>
    intro work comm h
    simp at h
  | cons t rest ih =>
    intro work comm h
    unfold link_loop
    cases hv : link_validate lt t with
    | error e => simp
    | ok c =>
      dsimp only
      obtain ⟨u, hu, hbad⟩ := h
      rcases List.mem_cons.mp hu with rfl | hu'
      · exact absurd (link_validate_ok_inv lt u c hv).1 hbad
      · split
        · exact ih _ _ ⟨u, hu', hbad⟩
        · exact ih _ _ ⟨u, hu', hbad⟩

/-- `set_entry_row` changes only the entry table. -/
theorem set_entry_row_transactions (db : DB) (eid : Nat) (e' : LinkedEntry) :
    (set_entry_row db eid e').transactions = db.transactions := rfl

/-- `set_entry_row` keeps the join table. -/
theorem set_entry_row_links (db : DB) (eid : Nat) (e' : LinkedEntry) :
    (set_entry_row db eid e').linked_transactions = db.linked_transactions := rfl

/-- Ids of the listed rows coincide with the requested id list, pointwise
over the stored transactions. -/
theorem listed_ids_contains (db : DB) (ids : List Nat) (x : Transaction)
    (hx : x ∈ db.transactions) :
    (((db.transactions.filter (fun t => ids.contains t.id)).map
        Transaction.id).contains x.id) = ids.contains x.id := by
  by_cases h : ids.contains x.id = true
  · rw [h]
    have hmem : x ∈ db.transactions.filter (fun t => ids.contains t.id) :=
      List.mem_filter.mpr ⟨hx, h⟩
    have hmap : x.id ∈ (db.transactions.filter
        (fun t => ids.contains t.id)).map Transaction.id :=
      List.mem_map.mpr ⟨x, hmem, rfl⟩
    exact List.elem_eq_true_of_mem hmap
  · have h' : ids.contains x.id = false := by simpa using h
    rw [h']
    by_contra hc
    have hc' : (((db.transactions.filter (fun t => ids.contains t.id)).map
        Transaction.id).contains x.id) = true := by
      cases hcc : (((db.transactions.filter (fun t => ids.contains t.id)).map
          Transaction.id).contains x.id)
      · exact absurd hcc hc
      · rfl
    have hmem := List.mem_of_elem_eq_true hc'
    obtain ⟨u, hu, hid⟩ := List.mem_map.mp hmem
    have hcu := (List.mem_filter.mp hu).2
    rw [hid] at hcu
    rw [hcu] at h'
    cases h'

/-- C6: `link_transactions` raises on a settled entry, an over-pending
batch total, an already-linked member, or a member with the wrong direction
or a classification that is neither the source nor the target for the
entry type; otherwise it reclassifies every listed transaction to the
target classification (source-classified ones changed, target-classified
ones unchanged), appends one join row per listed transaction, decreases
`pending_amount` by the batch total, and sets the status to Settled exactly
when the new pending amount is zero and to Partial otherwise. -/
theorem link_transactions_spec (db : DB) (entry_id : Nat)
    (transaction_ids : List Nat) (entry : LinkedEntry)
    (he : get_linked_entry db entry_id = some entry) :
    ((entry.status = LinkStatus.SETTLED ∨
      sum_amounts (db.transactions.filter (fun t => transaction_ids.contains t.id)) >
        entry.pending_amount ∨
      (∃ l ∈ db.linked_transactions,
        transaction_ids.contains l.transaction_id = true) ∨
      (∃ t ∈ db.transactions, transaction_ids.contains t.id = true ∧
        ¬ link_acceptable entry.link_type t)) →
      ((link_transactions db entry_id transaction_ids).1).isSome = true)
    ∧ (entry.status ≠ LinkStatus.SETTLED →
      (db.transactions.filter (fun t => transaction_ids.contains t.id)).length =
        transaction_ids.length →
      sum_amounts (db.transactions.filter (fun t => transaction_ids.contains t.id)) ≤
        entry.pending_amount →
      (∀ l ∈ db.linked_transactions,
        transaction_ids.contains l.transaction_id = false) →
      (∀ t ∈ db.transactions, transaction_ids.contains t.id = true →
        link_acceptable entry.link_type t) →
      (link_transactions db entry_id transaction_ids).1 = none ∧
      (link_transactions db entry_id transaction_ids).2.transactions =
        db.transactions.map (fun x =>
          if transaction_ids.contains x.id = true then
            { x with classification := target_classification entry.link_type }
          else x) ∧
      (link_transactions db entry_id transaction_ids).2.linked_transactions.map
          (fun l => (l.linked_entry_id, l.transaction_id)) =
        db.linked_transactions.map (fun l => (l.linked_entry_id, l.transaction_id)) ++
          (db.transactions.filter (fun t => transaction_ids.contains t.id)).map
            (fun t => (entry_id, t.id)) ∧
      get_linked_entry (link_transactions db entry_id transaction_ids).2 entry_id =
        some { entry with
               pending_amount := entry.pending_amount -
                 sum_amounts (db.transactions.filter
                   (fun t => transaction_ids.contains t.id))
               status :=
                 if entry.pending_amount -
                     sum_amounts (db.transactions.filter
                       (fun t => transaction_ids.contains t.id)) = 0 then
                   LinkStatus.SETTLED
                 else LinkStatus.PARTIALLY }) := by
  constructor
  · intro hbad
    unfold link_transactions
    rw [he]
    dsimp only
    by_cases hset : (entry.status == LinkStatus.SETTLED) = true
    · rw [if_pos hset]
      rfl
    · rw [if_neg (by simpa using hset)]
      by_cases hlen : ((db.transactions.filter
          (fun t => transaction_ids.contains t.id)).length !=
          transaction_ids.length) = true
      · rw [if_pos hlen]
        rfl
      · rw [if_neg (by simpa using hlen)]
        by_cases hsum : sum_amounts (db.transactions.filter
            (fun t => transaction_ids.contains t.id)) > entry.pending_amount
        · rw [if_pos hsum]
          rfl
        · rw [if_neg hsum]
          by_cases hex : (!(db.linked_transactions.filter
              (fun l => transaction_ids.contains l.transaction_id)).isEmpty) = true
          · rw [if_pos hex]
            rfl
          · rw [if_neg (by simpa using hex)]
            rcases hbad with h1 | h2 | h3 | h4
            · exact absurd (by simp [h1] : (entry.status == LinkStatus.SETTLED) = true) hset
            · exact absurd h2 hsum
            · exfalso
              obtain ⟨l, hl, hlc⟩ := h3
              have hmem : l ∈ db.linked_transactions.filter
                  (fun l => transaction_ids.contains l.transaction_id) :=
                List.mem_filter.mpr ⟨hl, hlc⟩
              have hemp : (db.linked_transactions.filter
                  (fun l => transaction_ids.contains l.transaction_id)).isEmpty = true := by
                simpa using hex
              rw [List.isEmpty_iff] at hemp
              rw [hemp] at hmem
              cases hmem
            · obtain ⟨t, htmem, htc, htbad⟩ := h4
              have hloop := link_loop_error entry_id entry.link_type
                (db.transactions.filter (fun t => transaction_ids.contains t.id)) db db
                ⟨t, List.mem_filter.mpr ⟨htmem, htc⟩, htbad⟩
              cases hl2 : link_loop entry_id entry.link_type
                  (db.transactions.filter (fun t => transaction_ids.contains t.id))
                  db db with
              | mk fst snd =>
                rw [hl2] at hloop
                cases snd with
                | mk w c =>
                  cases fst with
                  | none => simp at hloop
                  | some e =>
                    rfl
  · intro hset hlen hsum hnolink hgood
    have hgood' : ∀ t ∈ db.transactions.filter
        (fun t => transaction_ids.contains t.id), link_acceptable entry.link_type t := by
      intro t ht
      obtain ⟨htm, htc⟩ := List.mem_filter.mp ht
      exact hgood t htm htc
    obtain ⟨work', comm', heq, htr, hlk, hen⟩ := link_loop_ok entry_id entry.link_type
      (db.transactions.filter (fun t => transaction_ids.contains t.id)) db db hgood'
    unfold link_transactions
    rw [he]
    dsimp only
    rw [if_neg (by simp [hset] : ¬ (entry.status == LinkStatus.SETTLED) = true)]
    rw [if_neg (show ¬ ((db.transactions.filter
        (fun t => transaction_ids.contains t.id)).length !=
        transaction_ids.length) = true by rw [hlen]; simp)]
    rw [if_neg (by omega : ¬ sum_amounts (db.transactions.filter
      (fun t => transaction_ids.contains t.id)) > entry.pending_amount)]
    have hexf : (db.linked_transactions.filter
        (fun l => transaction_ids.contains l.transaction_id)) = [] := by
      rw [List.filter_eq_nil_iff]
      intro l hl
      rw [hnolink l hl]
      simp
    rw [if_neg (show ¬ (!(db.linked_transactions.filter
      (fun l => transaction_ids.contains l.transaction_id)).isEmpty) = true by
        rw [hexf]; simp)]
    rw [heq]
    dsimp only
    refine ⟨rfl, ?_, ?_, ?_⟩
    · rw [set_entry_row_transactions, htr]
      apply List.map_congr_left
      intro x hxm
      rw [listed_ids_contains db transaction_ids x hxm]
    · rw [set_entry_row_links, hlk]
    · unfold get_linked_entry set_entry_row
      dsimp only
      rw [hen]
      have hfind := find?_map_replace db.linked_entries (fun e => e.id == entry_id)
        { entry with
          pending_amount := entry.pending_amount -
            sum_amounts (db.transactions.filter
              (fun t => transaction_ids.contains t.id))
          status :=
            if (entry.pending_amount -
                sum_amounts (db.transactions.filter
                  (fun t => transaction_ids.contains t.id)) == 0) = true then
              LinkStatus.SETTLED
            else LinkStatus.PARTIALLY }
        entry he ?_
      · rw [hfind]
        by_cases h0 : entry.pending_amount - sum_amounts (db.transactions.filter
            (fun t => transaction_ids.contains t.id)) = 0
        · simp only [h0, beq_self_eq_true, eq_self_iff_true, if_true]
        · have h0' : (entry.pending_amount - sum_amounts (db.transactions.filter
              (fun t => transaction_ids.contains t.id)) == 0) = false :=
            beq_eq_false_iff_ne.mpr h0
          simp only [h0', Bool.false_eq_true, if_false, h0]
      · have := List.find?_some he
        simpa using this

/-- Store for the C6 witness: a Loan entry (pending 5000) and two
reimbursements — one Income (to be reclassified), one already
DebtCollection. -/
def db_for_c6 : DB :=
  ⟨[⟨1, WalletType.NORMAL⟩],
   [⟨1, 10, 1, TransactionDirection.OUTFLOW, 5000, TransactionClassification.LEND, none, none, false, false⟩,
    ⟨2, 12, 1, TransactionDirection.INFLOW, 2000, TransactionClassification.INCOME, none, none, false, false⟩,
    ⟨3, 13, 1, TransactionDirection.INFLOW, 3000, TransactionClassification.DEBT_COLLECTION, none, none, false, false⟩],
   [], [⟨1, LinkType.LOAN, 1, 5000, none, 5000, LinkStatus.PENDING⟩], [], 4, 2, 1⟩

/-- C6 witness: linking the batch [2, 3] to the Loan entry of `db_for_c6`
settles it. -/
theorem link_transactions_spec_witness :
    (link_transactions db_for_c6 1 [2, 3]).1 = none ∧
    (link_transactions db_for_c6 1 [2, 3]).2.transactions =
      db_for_c6.transactions.map (fun x =>
        if ([2, 3] : List Nat).contains x.id = true then
          { x with classification := TransactionClassification.DEBT_COLLECTION }
        else x) ∧
    (link_transactions db_for_c6 1 [2, 3]).2.linked_transactions.map
        (fun l => (l.linked_entry_id, l.transaction_id)) =
      db_for_c6.linked_transactions.map
        (fun l => (l.linked_entry_id, l.transaction_id)) ++
        (db_for_c6.transactions.filter
          (fun t => ([2, 3] : List Nat).contains t.id)).map (fun t => (1, t.id)) ∧
    get_linked_entry (link_transactions db_for_c6 1 [2, 3]).2 1 =
      some { (LinkedEntry.mk 1 LinkType.LOAN 1 5000 none 5000 LinkStatus.PENDING) with
             pending_amount := (5000 : Int) -
               sum_amounts (db_for_c6.transactions.filter
                 (fun t => ([2, 3] : List Nat).contains t.id))
             status :=
               if (5000 : Int) -
                   sum_amounts (db_for_c6.transactions.filter
                     (fun t => ([2, 3] : List Nat).contains t.id)) = 0 then
                 LinkStatus.SETTLED
               else LinkStatus.PARTIALLY } :=
  (link_transactions_spec db_for_c6 1 [2, 3]
      (LinkedEntry.mk 1 LinkType.LOAN 1 5000 none 5000 LinkStatus.PENDING)
      (by decide)).2
    (by decide) (by decide) (by decide) (by decide) (by decide)

/-! ## C5: settlement conservation -/

/-- The amount of the transaction row carrying a given id in a transaction
table, zero when absent: the contribution of one join row to an entry's
settled sum. -/
def amt_of (T : List Transaction) (i : Nat) : Int :=
  match T.find? (fun t => t.id == i) with
  | some t => t.amount
  | none => 0

/-- List-level form of `settled_amount`, parametrised by the transaction
and join tables. -/
def settled_of (T : List Transaction) (LL : List LinkedTransaction)
    (k : Nat) : Int :=
  ((LL.filter (fun l => l.linked_entry_id == k)).map
    (fun l => amt_of T l.transaction_id)).sum

/-- `settled_amount` reads exactly the transaction and join tables. -/
theorem settled_amount_eq (db : DB) (k : Nat) :
    settled_amount db k = settled_of db.transactions db.linked_transactions k :=
  rfl

/-- The settlement-conservation invariant of the specification: each
entry's pending amount plus the live sum of its linked transactions'
amounts equals its total minus the user share, and pending is never
negative. -/
def settlement_invariant (db : DB) : Prop :=
  ∀ e ∈ db.linked_entries,
    e.pending_amount + settled_amount db e.id =
      e.total_amount - e.user_amount.getD 0 ∧ 0 ≤ e.pending_amount

instance (db : DB) : Decidable (settlement_invariant db) := by
  unfold settlement_invariant
  infer_instance

/-- Well-formedness of a store, as the schema validators, the
autoincrementing primary keys (unique and below the next id) and the
foreign keys of the join table guarantee for every database produced by
the services.  Amounts are only required to be nonnegative, not positive:
the schemas validate created and updated amounts as strictly positive,
but `resolve_calibration` writes `amount = 0` directly onto a fully
resolved calibration row. -/
def store_wf (db : DB) : Prop :=
  (∀ t ∈ db.transactions, 0 ≤ t.amount) ∧
  (db.transactions.map Transaction.id).Nodup ∧
  (∀ i ∈ db.transactions.map Transaction.id, i < db.next_transaction_id) ∧
  (db.linked_transactions.map LinkedTransaction.id).Nodup ∧
  (∀ i ∈ db.linked_transactions.map LinkedTransaction.id,
    i < db.next_link_id) ∧
  (∀ l ∈ db.linked_transactions,
    l.transaction_id ∈ db.transactions.map Transaction.id) ∧
  (∀ l ∈ db.linked_transactions,
    l.linked_entry_id ∈ db.linked_entries.map LinkedEntry.id) ∧
  (∀ i ∈ db.linked_entries.map LinkedEntry.id, i < db.next_entry_id)

instance (db : DB) : Decidable (store_wf db) := by
  unfold store_wf
  infer_instance


/-- `find?` on a cons whose head matches. -/
theorem find?_cons_pos {α : Type} (p : α → Bool) (a : α) (l : List α)
    (h : p a = true) : (a :: l).find? p = some a :=
  List.find?_cons_of_pos _ h

/-- `find?` on a cons whose head does not match. -/
theorem find?_cons_neg {α : Type} (p : α → Bool) (a : α) (l : List α)
    (h : p a = false) : (a :: l).find? p = l.find? p :=
  List.find?_cons_of_neg _ (by simp [h])

/-- `filter` on a cons whose head passes. -/
theorem filter_cons_pos {α : Type} (p : α → Bool) (a : α) (l : List α)
    (h : p a = true) : (a :: l).filter p = a :: l.filter p :=
  List.filter_cons_of_pos (by simp [h])

/-- `filter` on a cons whose head fails. -/
theorem filter_cons_neg {α : Type} (p : α → Bool) (a : α) (l : List α)
    (h : p a = false) : (a :: l).filter p = l.filter p :=
  List.filter_cons_of_neg (by simp [h])

/-- Two members of a list with `Nodup` keys sharing a key are equal. -/
theorem nodup_key_eq {α : Type} (key : α → Nat) :
    ∀ (L : List α), (L.map key).Nodup →
      ∀ a ∈ L, ∀ b ∈ L, key a = key b → a = b := by
  intro L
  induction L with
  | nil => intro _ a ha; exact absurd ha (List.not_mem_nil a)
  | cons c L ih =>
    intro hnd a ha b hb hab
    rw [List.map_cons, List.nodup_cons] at hnd
    rcases List.mem_cons.mp ha with rfl | ha'
    · rcases List.mem_cons.mp hb with rfl | hb'
      · rfl
      · have : key a ∈ L.map key := by
          rw [hab]; exact List.mem_map.mpr ⟨b, hb', rfl⟩
        exact absurd this hnd.1
    · rcases List.mem_cons.mp hb with rfl | hb'
      · have : key b ∈ L.map key := by
          rw [← hab]; exact List.mem_map.mpr ⟨a, ha', rfl⟩
        exact absurd this hnd.1
      · exact ih hnd.2 a ha' b hb' hab

/-- `find?` by key returns the member itself when keys are `Nodup`. -/
theorem find?_key_of_mem {α : Type} (key : α → Nat) :
    ∀ (L : List α), (L.map key).Nodup → ∀ a ∈ L,
      L.find? (fun x => key x == key a) = some a := by
  intro L
  induction L with
  | nil => intro _ a ha; exact absurd ha (List.not_mem_nil a)
  | cons c L ih =>
    intro hnd a ha
    rw [List.map_cons, List.nodup_cons] at hnd
    rcases List.mem_cons.mp ha with rfl | ha'
    · rw [List.find?_cons_of_pos _ (by simp)]
    · have hne : key c ≠ key a := fun h => by
        have : key a ∈ L.map key := List.mem_map.mpr ⟨a, ha', rfl⟩
        rw [← h] at this
        exact hnd.1 this
      rw [List.find?_cons_of_neg _ (by simp [hne])]
      exact ih hnd.2 a ha'

/-- `amt_of` of a member under `Nodup` ids is its amount. -/
theorem amt_of_mem (T : List Transaction)
    (hnd : (T.map Transaction.id).Nodup) (x : Transaction) (hx : x ∈ T) :
    amt_of T x.id = x.amount := by
  unfold amt_of
  rw [find?_key_of_mem Transaction.id T hnd x hx]

/-- `find?` is unchanged by a map that fixes the matching elements and
preserves the predicate. -/
theorem find?_map_invariant {α : Type} (p : α → Bool) (f : α → α) :
    ∀ (L : List α), (∀ x ∈ L, p (f x) = p x) →
      (∀ x ∈ L, p x = true → f x = x) →
      (L.map f).find? p = L.find? p := by
  intro L
  induction L with
  | nil => intro _ _; rfl
  | cons a L ih =>
    intro hp hf
    rw [List.map_cons]
    by_cases hpa : p a = true
    · rw [List.find?_cons_of_pos _ (by rw [hp a (by simp)]; exact hpa),
        List.find?_cons_of_pos _ hpa, hf a (by simp) hpa]
    · have hpa' : p a = false := by simpa using hpa
      rw [List.find?_cons_of_neg _ (by rw [hp a (by simp)]; simp [hpa']),
        List.find?_cons_of_neg _ (by simp [hpa'])]
      exact ih (fun x hx => hp x (by simp [hx])) (fun x hx => hf x (by simp [hx]))

/-- `amt_of` ignores rows appended after a hit. -/
theorem amt_of_append (T T2 : List Transaction) (i : Nat)
    (h : ∃ r ∈ T, r.id = i) : amt_of (T ++ T2) i = amt_of T i := by
  induction T with
  | nil =>
    obtain ⟨r, hr, _⟩ := h
    exact absurd hr (List.not_mem_nil r)
  | cons a T ih =>
    rw [List.cons_append]
    unfold amt_of
    by_cases hpa : (a.id == i) = true
    · rw [find?_cons_pos (fun t => t.id == i) a (T ++ T2) hpa,
        find?_cons_pos (fun t => t.id == i) a T hpa]
    · have hpa' : (a.id == i) = false := by simpa using hpa
      obtain ⟨r, hr, hri⟩ := h
      rcases List.mem_cons.mp hr with rfl | hr'
      · exact absurd (by simp [hri]) hpa
      · rw [find?_cons_neg (fun t => t.id == i) a (T ++ T2) hpa',
          find?_cons_neg (fun t => t.id == i) a T hpa']
        exact ih ⟨r, hr', hri⟩

/-- `amt_of` ignores a map that preserves ids and amounts. -/
theorem amt_of_map (g : Transaction → Transaction) (i : Nat) :
    ∀ (T : List Transaction), (∀ x ∈ T, (g x).id = x.id) →
      (∀ x ∈ T, (g x).amount = x.amount) →
      amt_of (T.map g) i = amt_of T i := by
  intro T
  induction T with
  | nil => intro _ _; rfl
  | cons a T ih =>
    intro hid hamt
    rw [List.map_cons]
    unfold amt_of
    by_cases hpa : (a.id == i) = true
    · rw [find?_cons_pos (fun t => t.id == i) (g a) (T.map g)
          (by show ((g a).id == i) = true; rw [hid a (by simp)]; exact hpa),
        find?_cons_pos (fun t => t.id == i) a T hpa]
      show (g a).amount = a.amount
      exact hamt a (by simp)
    · have hpa' : (a.id == i) = false := by simpa using hpa
      rw [find?_cons_neg (fun t => t.id == i) (g a) (T.map g)
          (by show ((g a).id == i) = false; rw [hid a (by simp)]; exact hpa'),
        find?_cons_neg (fun t => t.id == i) a T hpa']
      exact ih (fun x hx => hid x (by simp [hx]))
        (fun x hx => hamt x (by simp [hx]))

/-- `amt_of` ignores a map that fixes the row with the sought id. -/
theorem amt_of_map_untouched (g : Transaction → Transaction) (i : Nat)
    (T : List Transaction) (hid : ∀ x ∈ T, (g x).id = x.id)
    (hfix : ∀ x ∈ T, x.id = i → g x = x) :
    amt_of (T.map g) i = amt_of T i := by
  unfold amt_of
  rw [find?_map_invariant (fun t => t.id == i) g T
    (fun x hx => by show ((g x).id == i) = (x.id == i); rw [hid x hx])
    (fun x hx hpx => hfix x hx (by simpa using hpx))]

/-- Removing rows with a different id does not change `amt_of`. -/
theorem amt_of_filter_ne (j i : Nat) (hne : i ≠ j) :
    ∀ (T : List Transaction),
      amt_of (T.filter (fun r => r.id != j)) i = amt_of T i := by
  intro T
  induction T with
  | nil => rfl
  | cons a T ih =>
    by_cases haj : a.id = j
    · rw [filter_cons_neg (fun r => r.id != j) a T (by simp [haj])]
      unfold amt_of
      rw [find?_cons_neg (fun t => t.id == i) a T
        (by show (a.id == i) = false
            rw [haj]; exact beq_eq_false_iff_ne.mpr (Ne.symm hne))]
      exact ih
    · rw [filter_cons_pos (fun r => r.id != j) a T (by simp [haj])]
      unfold amt_of
      by_cases hpa : (a.id == i) = true
      · rw [find?_cons_pos (fun t => t.id == i) a (T.filter (fun r => r.id != j)) hpa,
          find?_cons_pos (fun t => t.id == i) a T hpa]
      · have hpa' : (a.id == i) = false := by simpa using hpa
        rw [find?_cons_neg (fun t => t.id == i) a (T.filter (fun r => r.id != j)) hpa',
          find?_cons_neg (fun t => t.id == i) a T hpa']
        exact ih

/-- `settled_of` splits over an appended join table. -/
theorem settled_of_append (T : List Transaction)
    (L1 L2 : List LinkedTransaction) (k : Nat) :
    settled_of T (L1 ++ L2) k = settled_of T L1 k + settled_of T L2 k := by
  unfold settled_of
  rw [List.filter_append, List.map_append, List.sum_append]

/-- `settled_of` vanishes when no join row carries the entry id. -/
theorem settled_of_none (T : List Transaction) (LL : List LinkedTransaction)
    (k : Nat) (h : ∀ l ∈ LL, l.linked_entry_id ≠ k) :
    settled_of T LL k = 0 := by
  unfold settled_of
  rw [List.filter_eq_nil_iff.mpr (fun l hl => by simpa using h l hl)]
  rfl

/-- `settled_of` under a transaction map preserving ids and amounts. -/
theorem settled_of_map (T : List Transaction) (g : Transaction → Transaction)
    (LL : List LinkedTransaction) (k : Nat)
    (hid : ∀ x ∈ T, (g x).id = x.id)
    (hamt : ∀ x ∈ T, (g x).amount = x.amount) :
    settled_of (T.map g) LL k = settled_of T LL k := by
  unfold settled_of
  exact congrArg List.sum (List.map_congr_left
    (fun l _ => amt_of_map g l.transaction_id T hid hamt))

/-- `settled_of` under a transaction map fixing every row referenced by a
join row of the entry. -/
theorem settled_of_map_untouched (T : List Transaction)
    (g : Transaction → Transaction) (LL : List LinkedTransaction) (k : Nat)
    (hid : ∀ x ∈ T, (g x).id = x.id)
    (hfix : ∀ l ∈ LL, l.linked_entry_id = k →
      ∀ x ∈ T, x.id = l.transaction_id → g x = x) :
    settled_of (T.map g) LL k = settled_of T LL k := by
  unfold settled_of
  refine congrArg List.sum (List.map_congr_left (fun l hl => ?_))
  have hlk : l.linked_entry_id = k := by
    simpa using (List.mem_filter.mp hl).2
  exact amt_of_map_untouched g l.transaction_id T hid
    (fun x hx hxi => hfix l (List.mem_filter.mp hl).1 hlk x hx hxi)

/-- `settled_of` after appending transaction rows, when every referenced
row is already present. -/
theorem settled_of_append_txn (T T2 : List Transaction)
    (LL : List LinkedTransaction) (k : Nat)
    (h : ∀ l ∈ LL, ∃ r ∈ T, r.id = l.transaction_id) :
    settled_of (T ++ T2) LL k = settled_of T LL k := by
  unfold settled_of
  exact congrArg List.sum (List.map_congr_left (fun l hl =>
    amt_of_append T T2 l.transaction_id (h l (List.mem_filter.mp hl).1)))

/-- `settled_of` after deleting transaction rows none of the entry's join
rows reference. -/
theorem settled_of_filter_txn (T : List Transaction)
    (LL : List LinkedTransaction) (k j : Nat)
    (h : ∀ l ∈ LL, l.linked_entry_id = k → l.transaction_id ≠ j) :
    settled_of (T.filter (fun r => r.id != j)) LL k = settled_of T LL k := by
  unfold settled_of
  refine congrArg List.sum (List.map_congr_left (fun l hl => ?_))
  have hlk : l.linked_entry_id = k := by
    simpa using (List.mem_filter.mp hl).2
  exact amt_of_filter_ne j l.transaction_id
    (h l (List.mem_filter.mp hl).1 hlk) T

/-- Removing one join row (ids `Nodup`) subtracts its contribution when it
belongs to the entry and nothing otherwise. -/
theorem settled_of_remove (T : List Transaction) (k : Nat) :
    ∀ (LL : List LinkedTransaction) (l0 : LinkedTransaction), l0 ∈ LL →
      (LL.map LinkedTransaction.id).Nodup →
      settled_of T (LL.filter (fun l => l.id != l0.id)) k =
        settled_of T LL k -
          (if l0.linked_entry_id = k then amt_of T l0.transaction_id else 0) := by
  intro LL
  induction LL with
  | nil => intro l0 h; exact absurd h (List.not_mem_nil l0)
  | cons a LL ih =>
    intro l0 hmem hnd
    rw [List.map_cons, List.nodup_cons] at hnd
    rcases List.mem_cons.mp hmem with rfl | hmem'
    · rw [filter_cons_neg (fun l => l.id != l0.id) l0 LL (by simp)]
      have hLL : LL.filter (fun l => l.id != l0.id) = LL :=
        List.filter_eq_self.mpr (fun l hl => by
          have hne : LinkedTransaction.id l ≠ l0.id := fun he => by
            rw [← he] at hnd
            exact hnd.1 (List.mem_map.mpr ⟨l, hl, rfl⟩)
          simpa using hne)
      rw [hLL]
      unfold settled_of
      by_cases hk : l0.linked_entry_id = k
      · rw [filter_cons_pos (fun l => l.linked_entry_id == k) l0 LL (by simp [hk]),
          if_pos hk, List.map_cons, List.sum_cons]
        omega
      · rw [filter_cons_neg (fun l => l.linked_entry_id == k) l0 LL (by simp [hk]),
          if_neg hk]
        omega
    · have hne : a.id ≠ l0.id := fun he => by
        rw [he] at hnd
        exact hnd.1 (List.mem_map.mpr ⟨l0, hmem', rfl⟩)
      rw [filter_cons_pos (fun l => l.id != l0.id) a LL (by simpa using hne)]
      unfold settled_of
      by_cases hak : (a.linked_entry_id == k) = true
      · rw [filter_cons_pos (fun l => l.linked_entry_id == k) a
            (LL.filter (fun l => l.id != l0.id)) hak,
          filter_cons_pos (fun l => l.linked_entry_id == k) a LL hak,
          List.map_cons, List.map_cons, List.sum_cons, List.sum_cons]
        have hrec := ih l0 hmem' hnd.2
        unfold settled_of at hrec
        omega
      · have hak' : (a.linked_entry_id == k) = false := by simpa using hak
        rw [filter_cons_neg (fun l => l.linked_entry_id == k) a
            (LL.filter (fun l => l.id != l0.id)) hak',
          filter_cons_neg (fun l => l.linked_entry_id == k) a LL hak']
        exact ih l0 hmem' hnd.2

/-- `settled_of` depends on the join table only through the
(entry, transaction) projection of each row. -/
theorem settled_of_pairs (T : List Transaction) (k : Nat) :
    ∀ (L1 L2 : List LinkedTransaction),
      L1.map (fun l => (l.linked_entry_id, l.transaction_id)) =
        L2.map (fun l => (l.linked_entry_id, l.transaction_id)) →
      settled_of T L1 k = settled_of T L2 k := by
  intro L1
  induction L1 with
  | nil =>
    intro L2 h
    have h2 : L2 = [] := by
      cases L2 with
      | nil => rfl
      | cons b L2 => exact absurd h (by simp)
    rw [h2]
  | cons a L1 ih =>
    intro L2 h
    cases L2 with
    | nil => exact absurd h (by simp)
    | cons b L2 =>
      rw [List.map_cons, List.map_cons] at h
      injection h with h1 h2
      injection h1 with he ht
      unfold settled_of
      by_cases hk : (a.linked_entry_id == k) = true
      · rw [filter_cons_pos (fun l => l.linked_entry_id == k) a L1 hk,
          filter_cons_pos (fun l => l.linked_entry_id == k) b L2
            (by show (b.linked_entry_id == k) = true; rw [← he]; exact hk),
          List.map_cons, List.map_cons, List.sum_cons, List.sum_cons, ht]
        have hrec := ih L2 h2
        unfold settled_of at hrec
        omega
      · have hk' : (a.linked_entry_id == k) = false := by simpa using hk
        rw [filter_cons_neg (fun l => l.linked_entry_id == k) a L1 hk',
          filter_cons_neg (fun l => l.linked_entry_id == k) b L2
            (by show (b.linked_entry_id == k) = false; rw [← he]; exact hk')]
        exact ih L2 h2

/-- `store_wf` only reads the three tables and the id counters. -/
theorem store_wf_congr (d d' : DB)
    (ht : d'.transactions = d.transactions)
    (he : d'.linked_entries = d.linked_entries)
    (hl : d'.linked_transactions = d.linked_transactions)
    (h1 : d'.next_transaction_id = d.next_transaction_id)
    (h2 : d'.next_entry_id = d.next_entry_id)
    (h3 : d'.next_link_id = d.next_link_id)
    (h : store_wf d) : store_wf d' := by
  unfold store_wf at h ⊢
  rw [ht, he, hl, h1, h2, h3]
  exact h

/-- The invariant only reads the three tables. -/
theorem settlement_invariant_congr (d d' : DB)
    (ht : d'.transactions = d.transactions)
    (he : d'.linked_entries = d.linked_entries)
    (hl : d'.linked_transactions = d.linked_transactions)
    (h : settlement_invariant d) : settlement_invariant d' := by
  unfold settlement_invariant at h ⊢
  intro e hee
  rw [settled_amount_eq, ht, hl, ← settled_amount_eq d e.id]
  rw [he] at hee
  exact h e hee

/-- Replacing an entry row by one with the same id keeps the id column. -/
theorem set_entry_row_ids (db : DB) (eid : Nat) (e' : LinkedEntry)
    (h : e'.id = eid) :
    (set_entry_row db eid e').linked_entries.map LinkedEntry.id =
      db.linked_entries.map LinkedEntry.id := by
  show (db.linked_entries.map _).map _ = _
  rw [List.map_map]
  refine List.map_congr_left (fun e _ => ?_)
  by_cases hee : (e.id == eid) = true
  · have he2 : e.id = eid := by simpa using hee
    simp [Function.comp, hee, h, he2]
  · simp [Function.comp, hee]

/-- Replacing an entry row does not change the settled sums. -/
theorem settled_set_entry (db : DB) (eid : Nat) (e' : LinkedEntry) (k : Nat) :
    settled_amount (set_entry_row db eid e') k = settled_amount db k := rfl

/-- Success shape of `create_transaction`: the inserted row and the new
store. -/
theorem create_transaction_shape (db : DB) (today : Int)
    (tc : TransactionCreate) (t : Transaction) (db' : DB)
    (h : create_transaction db today tc = Except.ok (t, db')) :
    t = { id := db.next_transaction_id, date := tc.date,
          wallet_id := tc.wallet_id, direction := tc.direction,
          amount := tc.amount, classification := tc.classification,
          description := tc.description,
          paired_transaction_id := tc.paired_transaction_id,
          is_ignored := tc.is_ignored, is_calibration := tc.is_calibration } ∧
    db'.transactions = db.transactions ++ [t] ∧
    db'.linked_entries = db.linked_entries ∧
    db'.linked_transactions = db.linked_transactions ∧
    db'.next_transaction_id = db.next_transaction_id + 1 ∧
    db'.next_entry_id = db.next_entry_id ∧
    db'.next_link_id = db.next_link_id := by
  unfold create_transaction at h
  split at h
  · exact absurd h (by simp)
  · dsimp only at h
    injection h with h1
    injection h1 with ha hb
    subst ha
    subst hb
    exact ⟨rfl, rfl, rfl, rfl, rfl, rfl, rfl⟩

/-- A successful insert with a positive amount preserves well-formedness
and the settlement invariant. -/
theorem create_transaction_preserves (db : DB) (today : Int)
    (tc : TransactionCreate) (t : Transaction) (db' : DB)
    (hamt : 0 < tc.amount) (hwf : store_wf db)
    (hinv : settlement_invariant db)
    (h : create_transaction db today tc = Except.ok (t, db')) :
    store_wf db' ∧ settlement_invariant db' := by
  obtain ⟨ht, hT, hE, hL, hn1, hn2, hn3⟩ :=
    create_transaction_shape db today tc t db' h
  obtain ⟨w1, w2, w3, w4, w5, w6, w7, w8⟩ := hwf
  have htid : t.id = db.next_transaction_id := by rw [ht]
  have htamt : t.amount = tc.amount := by rw [ht]
  constructor
  · unfold store_wf
    rw [hT, hE, hL, hn1, hn2, hn3]
    refine ⟨?_, ?_, ?_, w4, w5, ?_, w7, w8⟩
    · intro r hr
      rcases List.mem_append.mp hr with hr' | hr'
      · exact w1 r hr'
      · have hrt : r = t := by simpa using hr'
        rw [hrt, htamt]
        exact le_of_lt hamt
    · rw [List.map_append]
      refine List.nodup_append.mpr ⟨w2, by simp, ?_⟩
      intro i hi hi2
      have hlt := w3 i hi
      have hieq : i = t.id := by simpa using hi2
      rw [htid] at hieq
      omega
    · intro i hi
      rw [List.map_append] at hi
      rcases List.mem_append.mp hi with hi' | hi'
      · have := w3 i hi'
        omega
      · have hieq : i = t.id := by simpa using hi'
        rw [htid] at hieq
        omega
    · intro l hl
      rw [List.map_append]
      exact List.mem_append_left _ (w6 l hl)
  · intro e he
    rw [hE] at he
    have hside : ∀ l ∈ db.linked_transactions,
        ∃ r ∈ db.transactions, r.id = l.transaction_id := by
      intro l hl
      obtain ⟨r, hr, hrid⟩ := List.mem_map.mp (w6 l hl)
      exact ⟨r, hr, hrid⟩
    constructor
    · rw [settled_amount_eq, hT, hL,
        settled_of_append_txn db.transactions [t] db.linked_transactions e.id
          hside,
        ← settled_amount_eq db e.id]
      exact (hinv e he).1
    · exact (hinv e he).2

/-- Success shape of `create_linked_entry`: the appended entry row and the
conditions established on its pending amount. -/
theorem create_linked_entry_shape (db : DB) (lc : LinkedEntryCreate)
    (db' : DB) (h : create_linked_entry db lc = (none, db')) :
    ∃ txn, get_transaction db lc.primary_transaction_id = some txn ∧
      ∃ p, db' = { db with
          linked_entries := db.linked_entries ++
            [{ id := db.next_entry_id, link_type := lc.link_type,
               primary_transaction_id := lc.primary_transaction_id,
               total_amount := txn.amount, user_amount := lc.user_amount,
               pending_amount := p, status := LinkStatus.PENDING }],
          next_entry_id := db.next_entry_id + 1 } ∧
        ((lc.link_type = LinkType.SPLIT_PAYMENT ∧
            p = txn.amount - lc.user_amount.getD 0 ∧
            lc.user_amount.getD 0 ≤ txn.amount) ∨
          (lc.link_type ≠ LinkType.SPLIT_PAYMENT ∧ p = txn.amount)) := by
  unfold create_linked_entry at h
  cases hg : get_transaction db lc.primary_transaction_id with
  | none =>
    rw [hg] at h
    exact absurd h (by simp)
  | some txn =>
    rw [hg] at h
    dsimp only at h
    refine ⟨txn, rfl, ?_⟩
    split at h
    · exact absurd h (by simp)
    · cases hlt : lc.link_type with
      | SPLIT_PAYMENT =>
        rw [hlt] at h
        dsimp only at h
        by_cases hc1 : (lc.user_amount.getD 0 == 0) = true
        · rw [if_pos hc1] at h
          simp at h
        · rw [if_neg hc1] at h
          by_cases hc2 : lc.user_amount.getD 0 > txn.amount
          · rw [if_pos hc2] at h
            simp at h
          · rw [if_neg hc2] at h
            by_cases hc3 :
                (txn.direction != TransactionDirection.OUTFLOW) = true
            · rw [if_pos hc3] at h
              simp at h
            · rw [if_neg hc3] at h
              by_cases hc4 : (txn.classification !=
                  TransactionClassification.SPLIT_PAYMENT) = true
              · rw [if_pos hc4] at h
                simp at h
              · rw [if_neg hc4] at h
                dsimp only at h
                injection h with h1 h2
                subst h2
                refine ⟨txn.amount - lc.user_amount.getD 0, rfl,
                  Or.inl ⟨rfl, rfl, by omega⟩⟩
      | LOAN =>
        rw [hlt] at h
        dsimp only at h
        by_cases hc1 : (txn.direction != TransactionDirection.OUTFLOW) = true
        · rw [if_pos hc1] at h
          simp at h
        · rw [if_neg hc1] at h
          by_cases hc2 :
              (txn.classification != TransactionClassification.LEND) = true
          · rw [if_pos hc2] at h
            simp at h
          · rw [if_neg hc2] at h
            dsimp only at h
            injection h with h1 h2
            subst h2
            exact ⟨txn.amount, rfl, Or.inr ⟨(by decide), rfl⟩⟩
      | DEBT =>
        rw [hlt] at h
        dsimp only at h
        by_cases hc1 : (txn.direction != TransactionDirection.INFLOW) = true
        · rw [if_pos hc1] at h
          simp at h
        · rw [if_neg hc1] at h
          by_cases hc2 :
              (txn.classification != TransactionClassification.BORROW) = true
          · rw [if_pos hc2] at h
            simp at h
          · rw [if_neg hc2] at h
            dsimp only at h
            injection h with h1 h2
            subst h2
            exact ⟨txn.amount, rfl, Or.inr ⟨(by decide), rfl⟩⟩
      | INSTALLMENT =>
        rw [hlt] at h
        dsimp only at h
        by_cases hc1 : (txn.direction != TransactionDirection.RESERVED) = true
        · rw [if_pos hc1] at h
          simp at h
        · rw [if_neg hc1] at h
          by_cases hc2 : (txn.classification !=
              TransactionClassification.INSTALLMENT) = true
          · rw [if_pos hc2] at h
            simp at h
          · rw [if_neg hc2] at h
            dsimp only at h
            injection h with h1 h2
            subst h2
            exact ⟨txn.amount, rfl, Or.inr ⟨(by decide), rfl⟩⟩

/-- A successful entry creation whose user share is only set for split
payments preserves well-formedness and the settlement invariant. -/
theorem create_linked_entry_preserves (db : DB) (lc : LinkedEntryCreate)
    (db' : DB) (hwf : store_wf db) (hinv : settlement_invariant db)
    (huser : lc.link_type ≠ LinkType.SPLIT_PAYMENT →
      lc.user_amount.getD 0 = 0)
    (h : create_linked_entry db lc = (none, db')) :
    store_wf db' ∧ settlement_invariant db' := by
  obtain ⟨txn, hg, p, hdb, hp⟩ := create_linked_entry_shape db lc db' h
  obtain ⟨w1, w2, w3, w4, w5, w6, w7, w8⟩ := hwf
  have htxn : txn ∈ db.transactions := List.mem_of_find?_eq_some hg
  have hnolink : ∀ l ∈ db.linked_transactions,
      l.linked_entry_id ≠ db.next_entry_id := by
    intro l hl heq
    have := w8 _ (w7 l hl)
    omega
  have hz : settled_amount db db.next_entry_id = 0 := by
    rw [settled_amount_eq]
    exact settled_of_none _ _ _ hnolink
  subst hdb
  constructor
  · unfold store_wf
    refine ⟨w1, w2, w3, w4, w5, w6, ?_, ?_⟩
    · intro l hl
      rw [List.map_append]
      exact List.mem_append_left _ (w7 l hl)
    · intro i hi
      rw [List.map_append] at hi
      rcases List.mem_append.mp hi with hi' | hi'
      · have := w8 i hi'
        show i < db.next_entry_id + 1
        omega
      · have hieq : i = db.next_entry_id := by simpa using hi'
        show i < db.next_entry_id + 1
        omega
  · intro e he
    rcases List.mem_append.mp he with hold | hnew
    · obtain ⟨c1, c2⟩ := hinv e hold
      exact ⟨c1, c2⟩
    · have he' := List.mem_singleton.mp hnew
      subst he'
      constructor
      · show p + settled_amount db db.next_entry_id =
          txn.amount - lc.user_amount.getD 0
        rw [hz]
        rcases hp with ⟨_, hpe, _⟩ | ⟨hns, hpe⟩
        · omega
        · have hu := huser hns
          omega
      · show 0 ≤ p
        rcases hp with ⟨_, hpe, hle⟩ | ⟨hns, hpe⟩
        · omega
        · have := w1 txn htxn
          omega

/-- A successful `update_linked_entry` preserves well-formedness and the
settlement invariant. -/
theorem update_linked_entry_preserves (db : DB) (eid : Nat)
    (u : LinkedEntryUpdate) (db' : DB) (hwf : store_wf db)
    (hinv : settlement_invariant db)
    (h : update_linked_entry db eid u = (none, true, db')) :
    store_wf db' ∧ settlement_invariant db' := by
  unfold update_linked_entry at h
  cases hge : get_linked_entry db eid with
  | none =>
    rw [hge] at h
    exact absurd h (by simp)
  | some entry =>
    rw [hge] at h
    dsimp only at h
    have hemem : entry ∈ db.linked_entries := List.mem_of_find?_eq_some hge
    have heid : entry.id = eid := by simpa using List.find?_some hge
    cases hua : u.user_amount with
    | none =>
      rw [hua] at h
      dsimp only at h
      injection h with h1 h2
      injection h2 with h3 h4
      subst h4
      exact ⟨hwf, hinv⟩
    | some ua =>
      rw [hua] at h
      dsimp only at h
      by_cases hsp : (entry.link_type == LinkType.SPLIT_PAYMENT) = true
      · rw [if_pos hsp] at h
        by_cases hgt : ua > entry.total_amount
        · rw [if_pos hgt] at h
          simp at h
        · rw [if_neg hgt] at h
          try dsimp only at h
          by_cases hneg : entry.total_amount - ua - settled_amount db eid < 0
          · rw [if_pos hneg] at h
            simp at h
          · rw [if_neg hneg] at h
            injection h with h1 h2
            injection h2 with h3 h4
            subst h4
            obtain ⟨w1, w2, w3, w4, w5, w6, w7, w8⟩ := hwf
            constructor
            · unfold store_wf
              refine ⟨w1, w2, w3, w4, w5, w6, ?_, ?_⟩
              · intro l hl
                rw [set_entry_row_ids db eid]
                · exact w7 l hl
                · exact heid
              · intro i hi
                rw [set_entry_row_ids db eid] at hi
                · exact w8 i hi
                · exact heid
            · intro e0' he0'
              obtain ⟨e0, he0, he0eq⟩ := List.mem_map.mp he0'
              try dsimp only at he0eq
              by_cases hcase : (e0.id == eid) = true
              · rw [if_pos hcase] at he0eq
                subst he0eq
                constructor
                · show entry.total_amount - ua - settled_amount db eid +
                    settled_amount _ entry.id =
                      entry.total_amount - (some ua).getD 0
                  rw [settled_set_entry, heid, Option.getD_some]
                  omega
                · show 0 ≤ entry.total_amount - ua - settled_amount db eid
                  omega
              · rw [if_neg (by simpa using hcase)] at he0eq
                subst he0eq
                obtain ⟨c1, c2⟩ := hinv e0 he0
                constructor
                · rw [settled_set_entry]
                  exact c1
                · exact c2
      · rw [if_neg hsp] at h
        injection h with h1 h2
        injection h2 with h3 h4
        subst h4
        exact ⟨hwf, hinv⟩

/-- `unlink_transaction` preserves well-formedness and the settlement
invariant, and only shrinks the join table. -/
theorem unlink_preserves (db : DB) (lid : Nat) (hwf : store_wf db)
    (hinv : settlement_invariant db) :
    store_wf (unlink_transaction db lid).2 ∧
    settlement_invariant (unlink_transaction db lid).2 ∧
    (unlink_transaction db lid).2.transactions = db.transactions ∧
    (unlink_transaction db lid).2.next_transaction_id =
      db.next_transaction_id ∧
    (unlink_transaction db lid).2.next_entry_id = db.next_entry_id ∧
    (unlink_transaction db lid).2.next_link_id = db.next_link_id ∧
    (∀ l ∈ (unlink_transaction db lid).2.linked_transactions,
      l ∈ db.linked_transactions) := by
  obtain ⟨w1, w2, w3, w4, w5, w6, w7, w8⟩ := hwf
  unfold unlink_transaction
  cases hf : db.linked_transactions.find? (fun l => l.id == lid) with
  | none =>
    exact ⟨⟨w1, w2, w3, w4, w5, w6, w7, w8⟩, hinv, rfl, rfl, rfl, rfl,
      fun l hl => hl⟩
  | some link =>
    dsimp only
    have hlmem : link ∈ db.linked_transactions := List.mem_of_find?_eq_some hf
    have hlid : link.id = lid := by simpa using List.find?_some hf
    cases he : get_linked_entry db link.linked_entry_id with
    | none =>
      exact ⟨⟨w1, w2, w3, w4, w5, w6, w7, w8⟩, hinv, rfl, rfl, rfl, rfl,
        fun l hl => hl⟩
    | some entry =>
      dsimp only
      have hemem : entry ∈ db.linked_entries := List.mem_of_find?_eq_some he
      have heid : entry.id = link.linked_entry_id := by
        simpa using List.find?_some he
      cases ht : get_transaction db link.transaction_id with
      | none =>
        exact ⟨⟨w1, w2, w3, w4, w5, w6, w7, w8⟩, hinv, rfl, rfl, rfl, rfl,
          fun l hl => hl⟩
      | some t =>
        dsimp only
        have htmem : t ∈ db.transactions := List.mem_of_find?_eq_some ht
        have ht' : db.transactions.find?
            (fun x => x.id == link.transaction_id) = some t := ht
        have hamt : amt_of db.transactions link.transaction_id = t.amount := by
          unfold amt_of
          rw [ht']
        refine ⟨?_, ?_, rfl, rfl, rfl, rfl, ?_⟩
        · unfold store_wf
          refine ⟨w1, w2, w3, ?_, ?_, ?_, ?_, ?_⟩
          · exact List.Nodup.sublist
              ((List.filter_sublist _).map LinkedTransaction.id) w4
          · intro i hi
            obtain ⟨l, hl, hlid2⟩ := List.mem_map.mp hi
            exact w5 i (hlid2 ▸
              List.mem_map.mpr ⟨l, (List.mem_filter.mp hl).1, rfl⟩)
          · intro l hl
            exact w6 l (List.mem_filter.mp hl).1
          · intro l hl
            rw [set_entry_row_ids db entry.id]
            · exact w7 l (List.mem_filter.mp hl).1
            · rfl
          · intro i hi
            rw [set_entry_row_ids db entry.id] at hi
            · exact w8 i hi
            · rfl
        · intro e0' he0'
          obtain ⟨e0, he0, he0eq⟩ := List.mem_map.mp he0'
          try dsimp only at he0eq
          by_cases hcase : (e0.id == entry.id) = true
          · rw [if_pos hcase] at he0eq
            subst he0eq
            obtain ⟨c1, c2⟩ := hinv entry hemem
            rw [settled_amount_eq] at c1
            constructor
            · show entry.pending_amount + t.amount +
                settled_of db.transactions
                  (db.linked_transactions.filter (fun l => l.id != lid))
                  entry.id =
                entry.total_amount - entry.user_amount.getD 0
              rw [← hlid,
                settled_of_remove db.transactions entry.id
                  db.linked_transactions link hlmem w4,
                if_pos heid.symm, hamt]
              omega
            · show 0 ≤ entry.pending_amount + t.amount
              have := w1 t htmem
              omega
          · rw [if_neg (by simpa using hcase)] at he0eq
            subst he0eq
            obtain ⟨c1, c2⟩ := hinv e0 he0
            rw [settled_amount_eq] at c1
            constructor
            · show e0.pending_amount +
                settled_of db.transactions
                  (db.linked_transactions.filter (fun l => l.id != lid))
                  e0.id =
                e0.total_amount - e0.user_amount.getD 0
              have hne0 : link.linked_entry_id ≠ e0.id := by
                intro hh
                have h1 : e0.id ≠ entry.id := by simpa using hcase
                exact h1 (by rw [← hh, ← heid])
              rw [← hlid,
                settled_of_remove db.transactions e0.id
                  db.linked_transactions link hlmem w4,
                if_neg hne0]
              omega
            · exact c2
        · intro l hl
          exact (List.mem_filter.mp hl).1

/-- The transaction map realised by one `set_transaction_row` with an
updated row: ids are preserved, amounts are either kept or set to the
update's amount, and other rows are untouched. -/
theorem set_row_update_g (work X : DB) (tid : Nat) (t : Transaction)
    (u : TransactionUpdate) (hX : X.transactions = work.transactions)
    (hnd : (work.transactions.map Transaction.id).Nodup)
    (htmem : t ∈ work.transactions) (htid : t.id = tid) :
    ∃ g : Transaction → Transaction,
      (set_transaction_row X tid (update_fields t u)).transactions =
        work.transactions.map g ∧
      (∀ x ∈ work.transactions, (g x).id = x.id) ∧
      (∀ x ∈ work.transactions, (g x).amount = x.amount ∨
        ∃ a, u.amount = some a ∧ (g x).amount = a) ∧
      (∀ x ∈ work.transactions, x.id ≠ tid → g x = x) := by
  refine ⟨fun x => if x.id == tid then update_fields t u else x,
    ?_, ?_, ?_, ?_⟩
  · show X.transactions.map
        (fun x => if x.id == tid then update_fields t u else x) =
      work.transactions.map
        (fun x => if x.id == tid then update_fields t u else x)
    rw [hX]
  · intro x hx
    dsimp only
    by_cases hxt : (x.id == tid) = true
    · rw [if_pos hxt]
      show t.id = x.id
      rw [htid]
      exact (by simpa using hxt : x.id = tid).symm
    · rw [if_neg hxt]
  · intro x hx
    dsimp only
    by_cases hxt : (x.id == tid) = true
    · rw [if_pos hxt]
      cases hu : u.amount with
      | none =>
        left
        show u.amount.getD t.amount = x.amount
        rw [hu]
        have hxz : x = t := nodup_key_eq Transaction.id work.transactions hnd
          x hx t htmem (by rw [htid]; simpa using hxt)
        rw [hxz]
        try rfl
      | some a =>
        right
        refine ⟨a, rfl, ?_⟩
        show u.amount.getD t.amount = a
        rw [hu]
        try rfl
    · rw [if_neg hxt]
      left
      rfl
  · intro x hx hne
    dsimp only
    rw [if_neg (by simpa using hne)]

/-- Success shape of `update_transaction_core`: the working state only
remaps the transaction table, preserving ids, keeping amounts except
possibly setting the update's amount on the targeted row, and fixing every
other row. -/
theorem update_core_shape (today : Int) (tid : Nat) (u : TransactionUpdate)
    (work comm : DB) (b : Bool) (workP commP : DB)
    (hnd : (work.transactions.map Transaction.id).Nodup)
    (h : update_transaction_core today tid u work comm =
      (none, b, workP, commP)) :
    ∃ g : Transaction → Transaction,
      workP.transactions = work.transactions.map g ∧
      workP.linked_entries = work.linked_entries ∧
      workP.linked_transactions = work.linked_transactions ∧
      workP.next_transaction_id = work.next_transaction_id ∧
      workP.next_entry_id = work.next_entry_id ∧
      workP.next_link_id = work.next_link_id ∧
      (∀ x ∈ work.transactions, (g x).id = x.id) ∧
      (∀ x ∈ work.transactions, (g x).amount = x.amount ∨
        ∃ a, u.amount = some a ∧ (g x).amount = a) ∧
      (∀ x ∈ work.transactions, x.id ≠ tid → g x = x) := by
  unfold update_transaction_core at h
  cases hg : get_transaction work tid with
  | none =>
    rw [hg] at h
    injection h with h1 h2
    injection h2 with h3 h4
    injection h4 with h5 h6
    subst h5
    exact ⟨fun x => x, by rw [List.map_id'], rfl, rfl, rfl, rfl, rfl,
      fun x _ => rfl, fun x _ => Or.inl rfl, fun x _ _ => rfl⟩
  | some t =>
    rw [hg] at h
    try dsimp only at h
    have htmem : t ∈ work.transactions := List.mem_of_find?_eq_some hg
    have htid : t.id = tid := by simpa using List.find?_some hg
    split at h
    · simp at h
    · split at h
      · simp at h
      · rename_i work2 c2 heq
        try dsimp only at h
        injection h with h1 h2
        injection h2 with h3 h4
        injection h4 with h5 h6
        subst h5
        have hW2 : work2.transactions = work.transactions ∧
            work2.linked_entries = work.linked_entries ∧
            work2.linked_transactions = work.linked_transactions ∧
            work2.next_transaction_id = work.next_transaction_id ∧
            work2.next_entry_id = work.next_entry_id ∧
            work2.next_link_id = work.next_link_id := by
          split at heq
          · split at heq
            · simp at heq
            · simp only [Prod.mk.injEq] at heq
              obtain ⟨-, hw, -⟩ := heq
              subst hw
              exact ⟨rfl, rfl, rfl, rfl, rfl, rfl⟩
          · simp only [Prod.mk.injEq] at heq
            obtain ⟨-, hw, -⟩ := heq
            subst hw
            exact ⟨rfl, rfl, rfl, rfl, rfl, rfl⟩
        obtain ⟨g, hG, hid, hamt, hfix⟩ := set_row_update_g work work2 tid t
          u hW2.1 hnd htmem htid
        exact ⟨g, hG, hW2.2.1, hW2.2.2.1, hW2.2.2.2.1, hW2.2.2.2.2.1,
          hW2.2.2.2.2.2, hid, hamt, hfix⟩

/-- Success shape of `update_transaction`: the caller-visible state only
remaps the transaction table; ids are preserved, amounts are kept unless
the update carries an amount, and rows other than the target and its
propagated pair are untouched. -/
theorem update_transaction_shape (db : DB) (today : Int) (tid : Nat)
    (u : TransactionUpdate) (db' : DB)
    (hnd : (db.transactions.map Transaction.id).Nodup)
    (h : update_transaction db today tid u = (none, true, db')) :
    ∃ t, get_transaction db tid = some t ∧
    ∃ g : Transaction → Transaction,
      db'.transactions = db.transactions.map g ∧
      db'.linked_entries = db.linked_entries ∧
      db'.linked_transactions = db.linked_transactions ∧
      db'.next_transaction_id = db.next_transaction_id ∧
      db'.next_entry_id = db.next_entry_id ∧
      db'.next_link_id = db.next_link_id ∧
      (∀ x ∈ db.transactions, (g x).id = x.id) ∧
      (∀ x ∈ db.transactions, (g x).amount = x.amount ∨
        ∃ a, u.amount = some a ∧ (g x).amount = a) ∧
      (∀ x ∈ db.transactions, x.id ≠ tid →
        (∀ pid, (update_fields t u).paired_transaction_id = some pid →
          x.id ≠ pid) → g x = x) := by
  unfold update_transaction at h
  cases hg : get_transaction db tid with
  | none =>
    rw [hg] at h
    simp at h
  | some t =>
    rw [hg] at h
    try dsimp only at h
    refine ⟨t, rfl, ?_⟩
    have htmem : t ∈ db.transactions := List.mem_of_find?_eq_some hg
    have htid : t.id = tid := by simpa using List.find?_some hg
    split at h
    · simp at h
    · split at h
      · simp at h
      · rename_i work2 heq
        have hW2 : work2.transactions = db.transactions ∧
            work2.linked_entries = db.linked_entries ∧
            work2.linked_transactions = db.linked_transactions ∧
            work2.next_transaction_id = db.next_transaction_id ∧
            work2.next_entry_id = db.next_entry_id ∧
            work2.next_link_id = db.next_link_id := by
          split at heq
          · split at heq
            · simp at heq
            · simp only [Prod.mk.injEq] at heq
              obtain ⟨-, hw⟩ := heq
              subst hw
              exact ⟨rfl, rfl, rfl, rfl, rfl, rfl⟩
          · simp only [Prod.mk.injEq] at heq
            obtain ⟨-, hw⟩ := heq
            subst hw
            exact ⟨rfl, rfl, rfl, rfl, rfl, rfl⟩
        try dsimp only at h
        cases hp : (update_fields t u).paired_transaction_id with
        | none =>
          rw [hp] at h
          try dsimp only at h
          injection h with h1 h2
          injection h2 with h3 h4
          subst h4
          obtain ⟨g, hG, hid, hamt, hfix⟩ := set_row_update_g db work2 tid t
            u hW2.1 hnd htmem htid
          exact ⟨g, hG, hW2.2.1, hW2.2.2.1, hW2.2.2.2.1, hW2.2.2.2.2.1,
            hW2.2.2.2.2.2, hid, hamt, fun x hx hne _ => hfix x hx hne⟩
        | some pid =>
          rw [hp] at h
          try dsimp only at h
          split at h
          · split at h
            · simp at h
            · rename_i b1 workP c1 heq2
              injection h with h1 h2
              injection h2 with h3 h4
              subst h4
              obtain ⟨g1, hG1, hid1, hamt1, hfix1⟩ := set_row_update_g db
                work2 tid t u hW2.1 hnd htmem htid
              have hnd3 : ((set_transaction_row work2 tid
                  (update_fields t u)).transactions.map
                    Transaction.id).Nodup := by
                rw [hG1, List.map_map]
                have hcg : db.transactions.map (Transaction.id ∘ g1) =
                    db.transactions.map Transaction.id :=
                  List.map_congr_left (fun x hx => hid1 x hx)
                rw [hcg]
                exact hnd
              obtain ⟨g2, hG2, hE2, hL2, hm1, hm2, hm3, hid2, hamt2, hfix2⟩ :=
                update_core_shape today pid
                  { amount := u.amount, date := u.date,
                    description := u.description,
                    classification := u.classification }
                  (set_transaction_row work2 tid (update_fields t u)) work2
                  b1 workP c1 hnd3 heq2
              have hmem3 : ∀ x ∈ db.transactions,
                  g1 x ∈ (set_transaction_row work2 tid
                    (update_fields t u)).transactions := by
                intro x hx
                rw [hG1]
                exact List.mem_map.mpr ⟨x, hx, rfl⟩
              refine ⟨fun x => g2 (g1 x), ?_, ?_, ?_, ?_, ?_, ?_, ?_, ?_, ?_⟩
              · rw [hG2, hG1, List.map_map]
                rfl
              · rw [hE2]
                exact hW2.2.1
              · rw [hL2]
                exact hW2.2.2.1
              · rw [hm1]
                exact hW2.2.2.2.1
              · rw [hm2]
                exact hW2.2.2.2.2.1
              · rw [hm3]
                exact hW2.2.2.2.2.2
              · intro x hx
                dsimp only
                rw [hid2 (g1 x) (hmem3 x hx), hid1 x hx]
              · intro x hx
                dsimp only
                rcases hamt2 (g1 x) (hmem3 x hx) with he2 | ⟨a, hpa, he2⟩
                · rw [he2]
                  exact hamt1 x hx
                · exact Or.inr ⟨a, hpa, he2⟩
              · intro x hx hne hpair
                dsimp only
                have h1x : g1 x = x := hfix1 x hx hne
                rw [h1x]
                have hxmem3 : x ∈ (set_transaction_row work2 tid
                    (update_fields t u)).transactions := by
                  rw [hG1]
                  exact List.mem_map.mpr ⟨x, hx, h1x⟩
                exact hfix2 x hxmem3 (hpair pid rfl)
          · injection h with h1 h2
            injection h2 with h3 h4
            subst h4
            obtain ⟨g, hG, hid, hamt, hfix⟩ := set_row_update_g db work2 tid
              t u hW2.1 hnd htmem htid
            exact ⟨g, hG, hW2.2.1, hW2.2.2.1, hW2.2.2.2.1, hW2.2.2.2.2.1,
              hW2.2.2.2.2.2, hid, hamt, fun x hx hne _ => hfix x hx hne⟩

/-- A successful `update_transaction` with a positive amount that either
carries no amount change or touches no linked transaction (nor a linked
pair) preserves well-formedness and the settlement invariant. -/
theorem update_transaction_preserves (db : DB) (today : Int) (tid : Nat)
    (u : TransactionUpdate) (db' : DB) (hwf : store_wf db)
    (hinv : settlement_invariant db)
    (hamt : ∀ a, u.amount = some a → 0 < a)
    (hok : u.amount = none ∨
      ((∀ l ∈ db.linked_transactions, l.transaction_id ≠ tid) ∧
       (∀ t0, get_transaction db tid = some t0 →
         ∀ pid, (update_fields t0 u).paired_transaction_id = some pid →
           ∀ l ∈ db.linked_transactions, l.transaction_id ≠ pid)))
    (h : update_transaction db today tid u = (none, true, db')) :
    store_wf db' ∧ settlement_invariant db' := by
  obtain ⟨w1, w2, w3, w4, w5, w6, w7, w8⟩ := hwf
  obtain ⟨t, hg, g, hG, hE, hL, hn1, hn2, hn3, hid, hamtg, hfix⟩ :=
    update_transaction_shape db today tid u db' w2 h
  have hids : db'.transactions.map Transaction.id =
      db.transactions.map Transaction.id := by
    rw [hG, List.map_map]
    exact List.map_congr_left (fun x hx => hid x hx)
  constructor
  · unfold store_wf
    rw [hE, hL, hn1, hn2, hn3, hids]
    refine ⟨?_, w2, w3, w4, w5, w6, w7, w8⟩
    intro r hr
    rw [hG] at hr
    obtain ⟨x, hx, rfl⟩ := List.mem_map.mp hr
    rcases hamtg x hx with he | ⟨a, hua, he⟩
    · rw [he]
      exact w1 x hx
    · rw [he]
      exact le_of_lt (hamt a hua)
  · intro e he
    rw [hE] at he
    obtain ⟨c1, c2⟩ := hinv e he
    rw [settled_amount_eq] at c1
    refine ⟨?_, c2⟩
    rw [settled_amount_eq, hG, hL]
    rcases hok with hnoneu | ⟨hnl, hnp⟩
    · have hpre : ∀ x ∈ db.transactions, (g x).amount = x.amount := by
        intro x hx
        rcases hamtg x hx with he' | ⟨a, hua, _⟩
        · exact he'
        · rw [hnoneu] at hua
          cases hua
      rw [settled_of_map db.transactions g db.linked_transactions e.id hid
        hpre]
      exact c1
    · have hpre : ∀ l ∈ db.linked_transactions, l.linked_entry_id = e.id →
          ∀ x ∈ db.transactions, x.id = l.transaction_id → g x = x := by
        intro l hl _ x hx hxi
        refine hfix x hx ?_ ?_
        · rw [hxi]
          exact hnl l hl
        · intro pid hpid
          rw [hxi]
          exact hnp t hg pid hpid l hl
      rw [settled_of_map_untouched db.transactions g db.linked_transactions
        e.id hid hpre]
      exact c1

/-- Reclassification keeps a transaction's id. -/
theorem reclass_id (ids : List Nat) (c : TransactionClassification)
    (x : Transaction) :
    (if (ids.contains x.id) = true
      then { x with classification := c } else x).id = x.id := by
  split <;> rfl

/-- Reclassification keeps a transaction's amount. -/
theorem reclass_amount (ids : List Nat) (c : TransactionClassification)
    (x : Transaction) :
    (if (ids.contains x.id) = true
      then { x with classification := c } else x).amount = x.amount := by
  split <;> rfl

/-- Counter and join-table id bookkeeping of a completed linking loop:
the transaction and entry counters are untouched, and the join ids stay
unique and below the link counter. -/
theorem link_loop_wfids (eid : Nat) (lt : LinkType) :
    ∀ (ts : List Transaction) (work comm work' comm' : DB),
      link_loop eid lt ts work comm = (none, work', comm') →
      work'.next_transaction_id = work.next_transaction_id ∧
      work'.next_entry_id = work.next_entry_id ∧
      ((work.linked_transactions.map LinkedTransaction.id).Nodup →
        (∀ i ∈ work.linked_transactions.map LinkedTransaction.id,
          i < work.next_link_id) →
        (work'.linked_transactions.map LinkedTransaction.id).Nodup ∧
        (∀ i ∈ work'.linked_transactions.map LinkedTransaction.id,
          i < work'.next_link_id)) := by
  intro ts
  induction ts with
  | nil =>
    intro work comm work' comm' h
    injection h with h1 h2
    injection h2 with h3 h4
    subst h3
    exact ⟨rfl, rfl, fun hnd hb => ⟨hnd, hb⟩⟩
  | cons t rest ih =>
    intro work comm work' comm' h
    unfold link_loop at h
    cases hv : link_validate lt t with
    | error e =>
      rw [hv] at h
      simp at h
    | ok c =>
      rw [hv] at h
      dsimp only at h
      have hstep : ∀ (w2 c2 : DB),
          link_loop eid lt rest w2 c2 = (none, work', comm') →
          w2.next_transaction_id = work.next_transaction_id →
          w2.next_entry_id = work.next_entry_id →
          w2.linked_transactions =
            work.linked_transactions ++
              [⟨work.next_link_id, eid, t.id⟩] →
          w2.next_link_id = work.next_link_id + 1 →
          work'.next_transaction_id = work.next_transaction_id ∧
          work'.next_entry_id = work.next_entry_id ∧
          ((work.linked_transactions.map LinkedTransaction.id).Nodup →
            (∀ i ∈ work.linked_transactions.map LinkedTransaction.id,
              i < work.next_link_id) →
            (work'.linked_transactions.map LinkedTransaction.id).Nodup ∧
            (∀ i ∈ work'.linked_transactions.map LinkedTransaction.id,
              i < work'.next_link_id)) := by
        intro w2 c2 hrec ha hb hc hd
        obtain ⟨i1, i2, i3⟩ := ih w2 c2 work' comm' hrec
        refine ⟨i1.trans ha, i2.trans hb, ?_⟩
        intro hnd hbound
        have hnd2 : (w2.linked_transactions.map LinkedTransaction.id).Nodup := by
          rw [hc, List.map_append]
          refine List.nodup_append.mpr ⟨hnd, by simp, ?_⟩
          intro i hi hi2
          have hlt2 := hbound i hi
          have : i = work.next_link_id := by simpa using hi2
          omega
        have hb2 : ∀ i ∈ w2.linked_transactions.map LinkedTransaction.id,
            i < w2.next_link_id := by
          intro i hi
          rw [hc, List.map_append] at hi
          rw [hd]
          rcases List.mem_append.mp hi with hi' | hi'
          · have := hbound i hi'
            omega
          · have : i = work.next_link_id := by simpa using hi'
            omega
        exact i3 hnd2 hb2
      split at h
      · exact hstep _ _ h rfl rfl rfl rfl
      · exact hstep _ _ h rfl rfl rfl rfl

/-- A successful `link_transactions` preserves well-formedness and the
settlement invariant. -/
theorem link_transactions_preserves (db : DB) (entry_id : Nat)
    (transaction_ids : List Nat) (db' : DB) (hwf : store_wf db)
    (hinv : settlement_invariant db)
    (h : link_transactions db entry_id transaction_ids = (none, db')) :
    store_wf db' ∧ settlement_invariant db' := by
  obtain ⟨w1, w2, w3, w4, w5, w6, w7, w8⟩ := hwf
  unfold link_transactions at h
  cases hge : get_linked_entry db entry_id with
  | none =>
    rw [hge] at h
    simp at h
  | some entry =>
    rw [hge] at h
    dsimp only at h
    have hemem : entry ∈ db.linked_entries := List.mem_of_find?_eq_some hge
    have heid : entry.id = entry_id := by simpa using List.find?_some hge
    split at h
    · simp at h
    · split at h
      · simp at h
      · split at h
        · simp at h
        · rename_i htot
          split at h
          · simp at h
          · split at h
            · simp at h
            · rename_i work c2 hloopEq
              injection h with h1 h2
              subst h2
              -- acceptability of the whole batch
              have hacc : ∀ t ∈ db.transactions.filter
                  (fun t => transaction_ids.contains t.id),
                  link_acceptable entry.link_type t := by
                by_contra hna
                push_neg at hna
                obtain ⟨t0, ht0, hbad⟩ := hna
                have hsome := link_loop_error entry_id entry.link_type
                  (db.transactions.filter
                    (fun t => transaction_ids.contains t.id)) db db
                  ⟨t0, ht0, hbad⟩
                rw [hloopEq] at hsome
                simp at hsome
              obtain ⟨w', c', heq2, htr, hlk, hen⟩ := link_loop_ok entry_id
                entry.link_type
                (db.transactions.filter
                  (fun t => transaction_ids.contains t.id)) db db hacc
              rw [hloopEq] at heq2
              injection heq2 with e1 e2
              injection e2 with e3 e4
              subst e3
              obtain ⟨k1, k2, k3⟩ := link_loop_wfids entry_id entry.link_type
                (db.transactions.filter
                  (fun t => transaction_ids.contains t.id)) db db work c2
                hloopEq
              obtain ⟨knd, kb⟩ := k3 w4 w5
              have hids : work.transactions.map Transaction.id =
                  db.transactions.map Transaction.id := by
                rw [htr, List.map_map]
                exact List.map_congr_left (fun x hx => reclass_id _ _ x)
              -- combined settled computation
              have hpairs : work.linked_transactions.map
                    (fun l => (l.linked_entry_id, l.transaction_id)) =
                  (db.linked_transactions ++
                    (db.transactions.filter
                      (fun t => transaction_ids.contains t.id)).map
                      (fun t => (⟨0, entry_id, t.id⟩ : LinkedTransaction))).map
                    (fun l => (l.linked_entry_id, l.transaction_id)) := by
                rw [hlk, List.map_append, List.map_map]
                rfl
              have hsettled : ∀ k : Nat,
                  settled_of work.transactions work.linked_transactions k =
                    settled_amount db k +
                      (if k = entry_id then
                        sum_amounts (db.transactions.filter
                          (fun t => transaction_ids.contains t.id))
                      else 0) := by
                intro k
                rw [htr, settled_of_map db.transactions _
                  work.linked_transactions k
                  (fun x _ => reclass_id _ _ x)
                  (fun x _ => reclass_amount _ _ x)]
                rw [settled_of_pairs db.transactions k
                  work.linked_transactions _ hpairs, settled_of_append]
                by_cases hk : k = entry_id
                · rw [if_pos hk, hk]
                  have hfB : ((db.transactions.filter
                        (fun t => transaction_ids.contains t.id)).map
                        (fun t => (⟨0, entry_id, t.id⟩ :
                          LinkedTransaction))).filter
                        (fun l => l.linked_entry_id == entry_id) =
                      (db.transactions.filter
                        (fun t => transaction_ids.contains t.id)).map
                        (fun t => (⟨0, entry_id, t.id⟩ :
                          LinkedTransaction)) :=
                    List.filter_eq_self.mpr (fun l hl => by
                      obtain ⟨t0, _, hteq⟩ := List.mem_map.mp hl
                      rw [← hteq]
                      simp)
                  have hB : settled_of db.transactions
                      ((db.transactions.filter
                        (fun t => transaction_ids.contains t.id)).map
                        (fun t => (⟨0, entry_id, t.id⟩ :
                          LinkedTransaction))) entry_id =
                      sum_amounts (db.transactions.filter
                        (fun t => transaction_ids.contains t.id)) := by
                    unfold settled_of
                    rw [hfB, List.map_map]
                    show (List.map (fun t : Transaction =>
                        amt_of db.transactions t.id)
                      (db.transactions.filter
                        (fun t => transaction_ids.contains t.id))).sum =
                      sum_amounts (db.transactions.filter
                        (fun t => transaction_ids.contains t.id))
                    rw [List.map_congr_left (fun t ht =>
                      amt_of_mem db.transactions w2 t
                        (List.mem_filter.mp ht).1)]
                    rfl
                  rw [hB, settled_amount_eq]
                · rw [if_neg hk]
                  have hnoB : ∀ l ∈ (db.transactions.filter
                        (fun t => transaction_ids.contains t.id)).map
                        (fun t => (⟨0, entry_id, t.id⟩ :
                          LinkedTransaction)),
                      l.linked_entry_id ≠ k := by
                    intro l hl
                    obtain ⟨t0, _, hteq⟩ := List.mem_map.mp hl
                    rw [← hteq]
                    exact fun he => hk he.symm
                  rw [settled_of_none db.transactions _ k hnoB,
                    settled_amount_eq]
              constructor
              · unfold store_wf
                refine ⟨?_, ?_, ?_, ?_, ?_, ?_, ?_, ?_⟩
                · intro r hr
                  have hr0 : r ∈ work.transactions := hr
                  rw [htr] at hr0
                  obtain ⟨x, hx, hxr⟩ := List.mem_map.mp hr0
                  subst hxr
                  try dsimp only
                  rw [reclass_amount]
                  exact w1 x hx
                · show (work.transactions.map Transaction.id).Nodup
                  rw [hids]
                  exact w2
                · show ∀ i ∈ work.transactions.map Transaction.id,
                    i < work.next_transaction_id
                  rw [hids, k1]
                  exact w3
                · exact knd
                · exact kb
                · intro l hl
                  have hl0 : l ∈ work.linked_transactions := hl
                  have hpmem : (l.linked_entry_id, l.transaction_id) ∈
                      work.linked_transactions.map
                        (fun l => (l.linked_entry_id, l.transaction_id)) :=
                    List.mem_map.mpr ⟨l, hl0, rfl⟩
                  rw [hlk] at hpmem
                  show l.transaction_id ∈
                    work.transactions.map Transaction.id
                  rw [hids]
                  rcases List.mem_append.mp hpmem with hL | hR
                  · obtain ⟨l0, hl0m, hl0e⟩ := List.mem_map.mp hL
                    injection hl0e with he1 he2
                    rw [← he2]
                    exact w6 l0 hl0m
                  · obtain ⟨t0, ht0, ht0e⟩ := List.mem_map.mp hR
                    injection ht0e with he1 he2
                    rw [← he2]
                    exact List.mem_map.mpr
                      ⟨t0, (List.mem_filter.mp ht0).1, rfl⟩
                · intro l hl
                  have hl0 : l ∈ work.linked_transactions := hl
                  have hpmem : (l.linked_entry_id, l.transaction_id) ∈
                      work.linked_transactions.map
                        (fun l => (l.linked_entry_id, l.transaction_id)) :=
                    List.mem_map.mpr ⟨l, hl0, rfl⟩
                  rw [hlk] at hpmem
                  rw [set_entry_row_ids work entry_id]
                  · rw [hen]
                    rcases List.mem_append.mp hpmem with hL | hR
                    · obtain ⟨l0, hl0m, hl0e⟩ := List.mem_map.mp hL
                      injection hl0e with he1 he2
                      rw [← he1]
                      exact w7 l0 hl0m
                    · obtain ⟨t0, ht0, ht0e⟩ := List.mem_map.mp hR
                      injection ht0e with he1 he2
                      rw [← he1]
                      exact List.mem_map.mpr ⟨entry, hemem, heid⟩
                  · exact heid
                · intro i hi
                  rw [set_entry_row_ids work entry_id] at hi
                  · show i < work.next_entry_id
                    rw [hen] at hi
                    rw [k2]
                    exact w8 i hi
                  · exact heid
              · intro e0' he0'
                obtain ⟨e0, he0, he0eq⟩ := List.mem_map.mp he0'
                rw [hen] at he0
                by_cases hcase : (e0.id == entry_id) = true
                · rw [← he0eq]
                  try dsimp only
                  rw [if_pos hcase]
                  obtain ⟨c1, c2⟩ := hinv entry hemem
                  try dsimp only
                  constructor
                  · rw [settled_set_entry, settled_amount_eq,
                      hsettled entry.id, if_pos heid]
                    omega
                  · omega
                · rw [← he0eq]
                  try dsimp only
                  rw [if_neg (by simpa using hcase)]
                  obtain ⟨c1, c2⟩ := hinv e0 he0
                  refine ⟨?_, c2⟩
                  rw [settled_set_entry, settled_amount_eq, hsettled e0.id,
                    if_neg (fun he => (by simpa using hcase :
                      e0.id ≠ entry_id) he)]
                  omega

/-- Replacing the row with a given id and then deleting by that id is the
same as deleting by the id. -/
theorem map_replace_filter (T : List Transaction) (pid : Nat)
    (t' : Transaction) (ht' : t'.id = pid) :
    (T.map (fun x => if x.id == pid then t' else x)).filter
      (fun r => r.id != pid) = T.filter (fun r => r.id != pid) := by
  induction T with
  | nil => rfl
  | cons a T ih =>
    rw [List.map_cons]
    by_cases hap : (a.id == pid) = true
    · rw [if_pos hap]
      rw [filter_cons_neg (fun r => r.id != pid) t'
        (T.map (fun x => if x.id == pid then t' else x)) (by simp [ht'])]
      rw [filter_cons_neg (fun r => r.id != pid) a T
        (by simpa using (by simpa using hap : a.id = pid))]
      exact ih
    · rw [if_neg hap]
      have hane : a.id ≠ pid := by simpa using hap
      rw [filter_cons_pos (fun r => r.id != pid) a
        (T.map (fun x => if x.id == pid then t' else x))
        (by simpa using hane),
        filter_cons_pos (fun r => r.id != pid) a T (by simpa using hane)]
      rw [ih]

/-- A surviving id stays in the id column after deleting another id. -/
theorem id_mem_filter (T : List Transaction) (i j : Nat)
    (hi : i ∈ T.map Transaction.id) (hne : i ≠ j) :
    i ∈ (T.filter (fun r => r.id != j)).map Transaction.id := by
  obtain ⟨r, hr, rfl⟩ := List.mem_map.mp hi
  exact List.mem_map.mpr ⟨r, List.mem_filter.mpr ⟨hr, by simpa using hne⟩,
    rfl⟩

/-- Deleting another entry's join rows does not change an entry's settled
sum. -/
theorem settled_of_filter_links (T : List Transaction) (k j : Nat)
    (hkj : k ≠ j) :
    ∀ (LL : List LinkedTransaction),
      settled_of T (LL.filter (fun l => l.linked_entry_id != j)) k =
        settled_of T LL k := by
  intro LL
  induction LL with
  | nil => rfl
  | cons a LL ih =>
    by_cases haj : a.linked_entry_id = j
    · rw [filter_cons_neg (fun l => l.linked_entry_id != j) a LL
        (by simp [haj])]
      unfold settled_of
      rw [filter_cons_neg (fun l => l.linked_entry_id == k) a LL
        (by
          show (a.linked_entry_id == k) = false
          rw [haj]
          exact beq_eq_false_iff_ne.mpr (Ne.symm hkj))]
      exact ih
    · rw [filter_cons_pos (fun l => l.linked_entry_id != j) a LL
        (by simpa using haj)]
      unfold settled_of
      by_cases hak : (a.linked_entry_id == k) = true
      · rw [filter_cons_pos (fun l => l.linked_entry_id == k) a
            (LL.filter (fun l => l.linked_entry_id != j)) hak,
          filter_cons_pos (fun l => l.linked_entry_id == k) a LL hak,
          List.map_cons, List.map_cons, List.sum_cons, List.sum_cons]
        have hrec := ih
        unfold settled_of at hrec
        omega
      · have hak' : (a.linked_entry_id == k) = false := by simpa using hak
        rw [filter_cons_neg (fun l => l.linked_entry_id == k) a
            (LL.filter (fun l => l.linked_entry_id != j)) hak',
          filter_cons_neg (fun l => l.linked_entry_id == k) a LL hak']
        exact ih

/-- Breaking and deleting a transfer pair that settles no entry preserves
well-formedness and the invariant; only the pair's row disappears. -/
theorem pair_delete_preserves (d : DB) (pid : Nat) (paired : Transaction)
    (hwf : store_wf d) (hinv : settlement_invariant d)
    (hpairedid : paired.id = pid)
    (hnolink : ∀ l ∈ d.linked_transactions, l.transaction_id ≠ pid) :
    store_wf (remove_transaction_row (set_transaction_row d pid
      { paired with paired_transaction_id := none }) pid) ∧
    settlement_invariant (remove_transaction_row (set_transaction_row d pid
      { paired with paired_transaction_id := none }) pid) ∧
    (remove_transaction_row (set_transaction_row d pid
      { paired with paired_transaction_id := none }) pid).transactions =
      d.transactions.filter (fun r => r.id != pid) := by
  obtain ⟨v1, v2, v3, v4, v5, v6, v7, v8⟩ := hwf
  have hT : (remove_transaction_row (set_transaction_row d pid
      { paired with paired_transaction_id := none }) pid).transactions =
      d.transactions.filter (fun r => r.id != pid) := by
    show (d.transactions.map (fun x => if x.id == pid then
        { paired with paired_transaction_id := none } else x)).filter
        (fun r => r.id != pid) = d.transactions.filter (fun r => r.id != pid)
    exact map_replace_filter d.transactions pid _ hpairedid
  refine ⟨?_, ?_, hT⟩
  · unfold store_wf
    rw [hT]
    refine ⟨?_, ?_, ?_, v4, v5, ?_, v7, v8⟩
    · intro r hr
      exact v1 r (List.mem_filter.mp hr).1
    · exact List.Nodup.sublist ((List.filter_sublist _).map Transaction.id)
        v2
    · intro i hi
      obtain ⟨r, hr, rfl⟩ := List.mem_map.mp hi
      exact v3 _ (List.mem_map.mpr ⟨r, (List.mem_filter.mp hr).1, rfl⟩)
    · intro l hl
      have hl' : l ∈ d.linked_transactions := hl
      exact id_mem_filter d.transactions l.transaction_id pid (v6 l hl')
        (hnolink l hl')
  · intro e he
    have he' : e ∈ d.linked_entries := he
    obtain ⟨c1, c2⟩ := hinv e he'
    refine ⟨?_, c2⟩
    rw [settled_amount_eq, hT]
    show e.pending_amount + settled_of
        (d.transactions.filter (fun r => r.id != pid))
        d.linked_transactions e.id =
      e.total_amount - e.user_amount.getD 0
    rw [settled_of_filter_txn d.transactions d.linked_transactions e.id pid
      (fun l hl _ => hnolink l hl), ← settled_amount_eq d e.id]
    exact c1

/-- Cascade-deleting an entry and its join rows preserves well-formedness
and the invariant. -/
theorem delete_entry_cascade_preserves (d : DB) (eid : Nat)
    (hwf : store_wf d) (hinv : settlement_invariant d) :
    store_wf (delete_entry_cascade d eid) ∧
    settlement_invariant (delete_entry_cascade d eid) := by
  obtain ⟨v1, v2, v3, v4, v5, v6, v7, v8⟩ := hwf
  constructor
  · unfold store_wf
    refine ⟨v1, v2, v3, ?_, ?_, ?_, ?_, ?_⟩
    · show ((d.linked_transactions.filter
        (fun l => l.linked_entry_id != eid)).map
          LinkedTransaction.id).Nodup
      exact List.Nodup.sublist ((List.filter_sublist _).map
        LinkedTransaction.id) v4
    · intro i hi
      have hi' : i ∈ (d.linked_transactions.filter
          (fun l => l.linked_entry_id != eid)).map LinkedTransaction.id := hi
      obtain ⟨l, hl, rfl⟩ := List.mem_map.mp hi'
      exact v5 _ (List.mem_map.mpr ⟨l, (List.mem_filter.mp hl).1, rfl⟩)
    · intro l hl
      have hl' : l ∈ d.linked_transactions.filter
          (fun l => l.linked_entry_id != eid) := hl
      exact v6 l (List.mem_filter.mp hl').1
    · intro l hl
      have hl' : l ∈ d.linked_transactions.filter
          (fun l => l.linked_entry_id != eid) := hl
      have hlm := (List.mem_filter.mp hl').1
      have hlne : l.linked_entry_id ≠ eid := by
        simpa using (List.mem_filter.mp hl').2
      obtain ⟨e0, he0, he0id⟩ := List.mem_map.mp (v7 l hlm)
      show l.linked_entry_id ∈ (d.linked_entries.filter
        (fun e => e.id != eid)).map LinkedEntry.id
      refine List.mem_map.mpr ⟨e0, List.mem_filter.mpr ⟨he0, ?_⟩, he0id⟩
      rw [he0id]
      simpa using hlne
    · intro i hi
      have hi' : i ∈ (d.linked_entries.filter
          (fun e => e.id != eid)).map LinkedEntry.id := hi
      obtain ⟨e0, he0, rfl⟩ := List.mem_map.mp hi'
      exact v8 _ (List.mem_map.mpr ⟨e0, (List.mem_filter.mp he0).1, rfl⟩)
  · intro e he
    have he' : e ∈ d.linked_entries.filter (fun e => e.id != eid) := he
    have hem := (List.mem_filter.mp he').1
    have hene : e.id ≠ eid := by simpa using (List.mem_filter.mp he').2
    obtain ⟨c1, c2⟩ := hinv e hem
    refine ⟨?_, c2⟩
    rw [settled_amount_eq]
    show e.pending_amount + settled_of d.transactions
        (d.linked_transactions.filter (fun l => l.linked_entry_id != eid))
        e.id =
      e.total_amount - e.user_amount.getD 0
    rw [settled_of_filter_links d.transactions e.id eid hene
      d.linked_transactions, ← settled_amount_eq d e.id]
    exact c1

/-- On the success path `unlink_transaction` deletes exactly the join rows
with the requested id. -/
theorem unlink_success_links (d : DB) (lid : Nat)
    (link : LinkedTransaction) (entry : LinkedEntry) (tr : Transaction)
    (hfind : d.linked_transactions.find? (fun x => x.id == lid) = some link)
    (hent : get_linked_entry d link.linked_entry_id = some entry)
    (htx : get_transaction d link.transaction_id = some tr) :
    (unlink_transaction d lid).2.linked_transactions =
      d.linked_transactions.filter (fun l => l.id != lid) := by
  unfold unlink_transaction
  rw [hfind]
  dsimp only
  rw [hent]
  dsimp only
  rw [htx]
  rfl

/-- Unlinking, one by one, every join row that a transaction settles:
well-formedness and the invariant are preserved, the transaction table is
untouched, and afterwards no join row references the transaction. -/
theorem unlink_fold_preserves (tid : Nat) :
    ∀ (own : List LinkedTransaction) (d : DB),
      store_wf d → settlement_invariant d →
      (own.map LinkedTransaction.id).Nodup →
      (∃ r ∈ d.transactions, r.id = tid) →
      (∀ l ∈ d.linked_transactions, l.transaction_id = tid → l ∈ own) →
      (∀ l ∈ own, l ∈ d.linked_transactions ∧ l.transaction_id = tid) →
      store_wf (own.foldl (fun d l => (unlink_transaction d l.id).2) d) ∧
      settlement_invariant
        (own.foldl (fun d l => (unlink_transaction d l.id).2) d) ∧
      (own.foldl (fun d l => (unlink_transaction d l.id).2) d).transactions
        = d.transactions ∧
      (∀ l ∈ (own.foldl (fun d l =>
          (unlink_transaction d l.id).2) d).linked_transactions,
        l ∈ d.linked_transactions ∧ l.transaction_id ≠ tid) := by
  intro own
  induction own with
  | nil =>
    intro d hwf hinv _ _ hq4 _
    refine ⟨hwf, hinv, rfl, ?_⟩
    intro l hl
    refine ⟨hl, fun ht => ?_⟩
    exact absurd (hq4 l hl ht) (List.not_mem_nil l)
  | cons l0 rest ih =>
    intro d hwf hinv hnd hrow hq4 hq5
    rw [List.foldl_cons]
    rw [List.map_cons, List.nodup_cons] at hnd
    obtain ⟨hl0d, hl0t⟩ := hq5 l0 (List.mem_cons_self l0 rest)
    have hv4 : (d.linked_transactions.map LinkedTransaction.id).Nodup :=
      hwf.2.2.2.1
    have hfind : d.linked_transactions.find?
        (fun x => x.id == l0.id) = some l0 :=
      find?_key_of_mem LinkedTransaction.id d.linked_transactions hv4 l0 hl0d
    have hent : ∃ entry, get_linked_entry d l0.linked_entry_id =
        some entry := by
      obtain ⟨e0, he0, heid0⟩ := List.mem_map.mp (hwf.2.2.2.2.2.2.1 l0 hl0d)
      have hs : (d.linked_entries.find?
          (fun e => e.id == l0.linked_entry_id)).isSome :=
        List.find?_isSome.mpr ⟨e0, he0, by simp [heid0]⟩
      cases hfe : d.linked_entries.find?
          (fun e => e.id == l0.linked_entry_id) with
      | none =>
        rw [hfe] at hs
        simp at hs
      | some entry => exact ⟨entry, hfe⟩
    obtain ⟨entry, hent⟩ := hent
    have htx : ∃ tr, get_transaction d l0.transaction_id = some tr := by
      obtain ⟨r, hr, hrid⟩ := hrow
      have hs : (d.transactions.find?
          (fun x => x.id == l0.transaction_id)).isSome :=
        List.find?_isSome.mpr ⟨r, hr, by simp [hrid, hl0t]⟩
      cases hft : d.transactions.find?
          (fun x => x.id == l0.transaction_id) with
      | none =>
        rw [hft] at hs
        simp at hs
      | some tr => exact ⟨tr, hft⟩
    obtain ⟨tr, htx⟩ := htx
    have hlinks : (unlink_transaction d l0.id).2.linked_transactions =
        d.linked_transactions.filter (fun l => l.id != l0.id) :=
      unlink_success_links d l0.id l0 entry tr hfind hent htx
    obtain ⟨p1, p2, p3, p4, p5, p6, p7⟩ := unlink_preserves d l0.id
      ⟨hwf.1, hwf.2.1, hwf.2.2.1, hv4, hwf.2.2.2.2.1, hwf.2.2.2.2.2.1,
        hwf.2.2.2.2.2.2.1, hwf.2.2.2.2.2.2.2⟩ hinv
    obtain ⟨i1, i2, i3, i4⟩ := ih ((unlink_transaction d l0.id).2) p1 p2
      hnd.2
      (by rw [p3]; exact hrow)
      (by
        intro l hl hlt
        rw [hlinks] at hl
        obtain ⟨hld, hlne⟩ := List.mem_filter.mp hl
        have hmem := hq4 l hld hlt
        rcases List.mem_cons.mp hmem with rfl | hrest
        · exact absurd hlne (by simp)
        · exact hrest)
      (by
        intro l hl
        obtain ⟨hld, hlt⟩ := hq5 l (List.mem_cons_of_mem l0 hl)
        have hlne : l.id ≠ l0.id := by
          intro heq
          exact hnd.1 (heq ▸ List.mem_map.mpr ⟨l, hl, rfl⟩)
        refine ⟨?_, hlt⟩
        rw [hlinks]
        exact List.mem_filter.mpr ⟨hld, by simpa using hlne⟩)
    refine ⟨i1, i2, i3.trans p3, ?_⟩
    intro l hl
    obtain ⟨hl', hlt⟩ := i4 l hl
    rw [hlinks] at hl'
    exact ⟨(List.mem_filter.mp hl').1, hlt⟩

/-- The tail of `_delete_transaction_impl` after the pair has been
handled: cascade the owned entry, unlink the settling rows, delete the
row itself. -/
theorem delete_impl_tail2 (db2 : DB) (tid : Nat)
    (hwf2 : store_wf db2) (hinv2 : settlement_invariant db2)
    (hrow : ∃ r ∈ db2.transactions, r.id = tid) :
    store_wf (remove_transaction_row
      ((db2.linked_transactions.filter
        (fun l => l.transaction_id == tid)).foldl
        (fun d l => (unlink_transaction d l.id).2) db2) tid) ∧
    settlement_invariant (remove_transaction_row
      ((db2.linked_transactions.filter
        (fun l => l.transaction_id == tid)).foldl
        (fun d l => (unlink_transaction d l.id).2) db2) tid) ∧
    (∀ r ∈ (remove_transaction_row
        ((db2.linked_transactions.filter
          (fun l => l.transaction_id == tid)).foldl
          (fun d l => (unlink_transaction d l.id).2) db2) tid).transactions,
      r ∈ db2.transactions) ∧
    (∀ l ∈ (remove_transaction_row
        ((db2.linked_transactions.filter
          (fun l => l.transaction_id == tid)).foldl
          (fun d l => (unlink_transaction d l.id).2) db2)
          tid).linked_transactions,
      l ∈ db2.linked_transactions) := by
  have hv4 : (db2.linked_transactions.map LinkedTransaction.id).Nodup :=
    hwf2.2.2.2.1
  obtain ⟨f1, f2, f3, f4⟩ := unlink_fold_preserves tid
    (db2.linked_transactions.filter (fun l => l.transaction_id == tid)) db2
    hwf2 hinv2
    (List.Nodup.sublist ((List.filter_sublist _).map LinkedTransaction.id)
      hv4)
    hrow
    (fun l hl hlt => List.mem_filter.mpr ⟨hl, by simp [hlt]⟩)
    (fun l hl => ⟨(List.mem_filter.mp hl).1,
      by simpa using (List.mem_filter.mp hl).2⟩)
  obtain ⟨x1, x2, x3, x4, x5, x6, x7, x8⟩ := f1
  refine ⟨?_, ?_, ?_, ?_⟩
  · unfold store_wf
    refine ⟨?_, ?_, ?_, x4, x5, ?_, x7, x8⟩
    · intro r hr
      have hr' : r ∈ ((db2.linked_transactions.filter
          (fun l => l.transaction_id == tid)).foldl
          (fun d l => (unlink_transaction d l.id).2)
            db2).transactions.filter (fun r => r.id != tid) := hr
      exact x1 r (List.mem_filter.mp hr').1
    · show ((((db2.linked_transactions.filter
          (fun l => l.transaction_id == tid)).foldl
          (fun d l => (unlink_transaction d l.id).2)
            db2).transactions.filter (fun r => r.id != tid)).map
          Transaction.id).Nodup
      exact List.Nodup.sublist ((List.filter_sublist _).map Transaction.id)
        x2
    · intro i hi
      have hi' : i ∈ (((db2.linked_transactions.filter
          (fun l => l.transaction_id == tid)).foldl
          (fun d l => (unlink_transaction d l.id).2)
            db2).transactions.filter (fun r => r.id != tid)).map
          Transaction.id := hi
      obtain ⟨r, hr, rfl⟩ := List.mem_map.mp hi'
      exact x3 _ (List.mem_map.mpr ⟨r, (List.mem_filter.mp hr).1, rfl⟩)
    · intro l hl
      have hl' : l ∈ ((db2.linked_transactions.filter
          (fun l => l.transaction_id == tid)).foldl
          (fun d l => (unlink_transaction d l.id).2)
            db2).linked_transactions := hl
      obtain ⟨hlm, hlt⟩ := f4 l hl'
      show l.transaction_id ∈ ((((db2.linked_transactions.filter
          (fun l => l.transaction_id == tid)).foldl
          (fun d l => (unlink_transaction d l.id).2)
            db2).transactions.filter (fun r => r.id != tid)).map
          Transaction.id)
      exact id_mem_filter _ l.transaction_id tid (x6 l hl') hlt
  · intro e he
    have he' : e ∈ ((db2.linked_transactions.filter
        (fun l => l.transaction_id == tid)).foldl
        (fun d l => (unlink_transaction d l.id).2) db2).linked_entries := he
    obtain ⟨c1, c2⟩ := f2 e he'
    refine ⟨?_, c2⟩
    rw [settled_amount_eq] at c1 ⊢
    show e.pending_amount + settled_of
        (((db2.linked_transactions.filter
          (fun l => l.transaction_id == tid)).foldl
          (fun d l => (unlink_transaction d l.id).2)
            db2).transactions.filter (fun r => r.id != tid))
        ((db2.linked_transactions.filter
          (fun l => l.transaction_id == tid)).foldl
          (fun d l => (unlink_transaction d l.id).2)
            db2).linked_transactions e.id =
      e.total_amount - e.user_amount.getD 0
    rw [settled_of_filter_txn _ _ e.id tid
      (fun l hl _ => (f4 l hl).2)]
    exact c1
  · intro r hr
    have hr' : r ∈ ((db2.linked_transactions.filter
        (fun l => l.transaction_id == tid)).foldl
        (fun d l => (unlink_transaction d l.id).2)
          db2).transactions.filter (fun r => r.id != tid) := hr
    have := (List.mem_filter.mp hr').1
    rw [f3] at this
    exact this
  · intro l hl
    have hl' : l ∈ ((db2.linked_transactions.filter
        (fun l => l.transaction_id == tid)).foldl
        (fun d l => (unlink_transaction d l.id).2)
          db2).linked_transactions := hl
    exact (f4 l hl').1

/-- `_delete_transaction_impl` preserves well-formedness and the
invariant, provided the row's transfer pair (if any) is distinct from the
row and settles no entry; the tables only shrink. -/
theorem delete_impl_preserves (d : DB) (tid : Nat)
    (hwf : store_wf d) (hinv : settlement_invariant d)
    (hcond : ∀ r ∈ d.transactions, r.id = tid →
      ∀ pid, r.paired_transaction_id = some pid →
        pid ≠ tid ∧ ∀ l ∈ d.linked_transactions, l.transaction_id ≠ pid) :
    store_wf (_delete_transaction_impl d tid).2 ∧
    settlement_invariant (_delete_transaction_impl d tid).2 ∧
    (∀ r ∈ (_delete_transaction_impl d tid).2.transactions,
      r ∈ d.transactions) ∧
    (∀ l ∈ (_delete_transaction_impl d tid).2.linked_transactions,
      l ∈ d.linked_transactions) := by
  unfold _delete_transaction_impl
  cases hget : get_transaction d tid with
  | none => exact ⟨hwf, hinv, fun r hr => hr, fun l hl => hl⟩
  | some t =>
    dsimp only
    have htmem : t ∈ d.transactions := List.mem_of_find?_eq_some hget
    have htid : t.id = tid := by simpa using List.find?_some hget
    have hcont : ∀ d1 : DB, store_wf d1 → settlement_invariant d1 →
        (∃ r ∈ d1.transactions, r.id = tid) →
        (∀ r ∈ d1.transactions, r ∈ d.transactions) →
        (∀ l ∈ d1.linked_transactions, l ∈ d.linked_transactions) →
        (let db2 : DB := match d1.linked_entries.find?
            (fun e => e.primary_transaction_id == tid) with
          | some e => delete_entry_cascade d1 e.id
          | none => d1
        store_wf (remove_transaction_row
          ((db2.linked_transactions.filter
            (fun l => l.transaction_id == tid)).foldl
            (fun d l => (unlink_transaction d l.id).2) db2) tid) ∧
        settlement_invariant (remove_transaction_row
          ((db2.linked_transactions.filter
            (fun l => l.transaction_id == tid)).foldl
            (fun d l => (unlink_transaction d l.id).2) db2) tid) ∧
        (∀ r ∈ (remove_transaction_row
            ((db2.linked_transactions.filter
              (fun l => l.transaction_id == tid)).foldl
              (fun d l => (unlink_transaction d l.id).2) db2)
              tid).transactions,
          r ∈ d.transactions) ∧
        (∀ l ∈ (remove_transaction_row
            ((db2.linked_transactions.filter
              (fun l => l.transaction_id == tid)).foldl
              (fun d l => (unlink_transaction d l.id).2) db2)
              tid).linked_transactions,
          l ∈ d.linked_transactions)) := by
      intro d1 hwf1 hinv1 hrow1 hsubT hsubL
      dsimp only
      cases hfe : d1.linked_entries.find?
          (fun e => e.primary_transaction_id == tid) with
      | none =>
        obtain ⟨z1, z2, z3, z4⟩ := delete_impl_tail2 d1 tid hwf1 hinv1 hrow1
        exact ⟨z1, z2, fun r hr => hsubT r (z3 r hr),
          fun l hl => hsubL l (z4 l hl)⟩
      | some e0 =>
        obtain ⟨y1, y2⟩ := delete_entry_cascade_preserves d1 e0.id hwf1 hinv1
        have hrow2 : ∃ r ∈ (delete_entry_cascade d1 e0.id).transactions,
            r.id = tid := hrow1
        obtain ⟨z1, z2, z3, z4⟩ := delete_impl_tail2
          (delete_entry_cascade d1 e0.id) tid y1 y2 hrow2
        refine ⟨z1, z2, ?_, ?_⟩
        · intro r hr
          exact hsubT r (z3 r hr)
        · intro l hl
          have hl' : l ∈ (delete_entry_cascade d1
              e0.id).linked_transactions := z4 l hl
          have hl2 : l ∈ d1.linked_transactions.filter
              (fun l => l.linked_entry_id != e0.id) := hl'
          exact hsubL l (List.mem_filter.mp hl2).1
    cases hp : t.paired_transaction_id with
    | none =>
      dsimp only
      exact hcont d hwf hinv ⟨t, htmem, htid⟩ (fun r hr => hr)
        (fun l hl => hl)
    | some pid =>
      dsimp only
      cases hgp : get_transaction d pid with
      | none =>
        dsimp only
        exact hcont d hwf hinv ⟨t, htmem, htid⟩ (fun r hr => hr)
          (fun l hl => hl)
      | some paired =>
        dsimp only
        obtain ⟨hpt, hnolinkp⟩ := hcond t htmem htid pid hp
        have hpairedid : paired.id = pid := by
          simpa using List.find?_some hgp
        obtain ⟨s1, s2, s3⟩ := pair_delete_preserves d pid paired hwf hinv
          hpairedid hnolinkp
        refine hcont _ s1 s2 ⟨t, ?_, htid⟩ ?_ ?_
        · rw [s3]
          refine List.mem_filter.mpr ⟨htmem, ?_⟩
          rw [htid]
          simpa using Ne.symm hpt
        · intro r hr
          rw [s3] at hr
          exact (List.mem_filter.mp hr).1
        · intro l hl
          exact hl

/-- Folding `_delete_transaction_impl` over listed transactions preserves
well-formedness and the invariant, under the pair conditions of the
original store. -/
theorem delete_fold_preserves (db0 : DB) (ids : List Nat)
    (hpair0 : ∀ r ∈ db0.transactions, ids.contains r.id = true →
      ∀ pid, r.paired_transaction_id = some pid →
        pid ≠ r.id ∧ ∀ l ∈ db0.linked_transactions,
          l.transaction_id ≠ pid) :
    ∀ (ts : List Transaction) (d : DB),
      store_wf d → settlement_invariant d →
      (∀ r ∈ d.transactions, r ∈ db0.transactions) →
      (∀ l ∈ d.linked_transactions, l ∈ db0.linked_transactions) →
      (∀ u ∈ ts, ids.contains u.id = true) →
      store_wf (ts.foldl (fun d t =>
        (_delete_transaction_impl d t.id).2) d) ∧
      settlement_invariant (ts.foldl (fun d t =>
        (_delete_transaction_impl d t.id).2) d) := by
  intro ts
  induction ts with
  | nil =>
    intro d hwf hinv _ _ _
    exact ⟨hwf, hinv⟩
  | cons t rest ih =>
    intro d hwf hinv hsubT hsubL hlisted
    rw [List.foldl_cons]
    have hcond : ∀ r ∈ d.transactions, r.id = t.id →
        ∀ pid, r.paired_transaction_id = some pid →
          pid ≠ t.id ∧ ∀ l ∈ d.linked_transactions,
            l.transaction_id ≠ pid := by
      intro r hr hrid pid hpp
      have hr0 : r ∈ db0.transactions := hsubT r hr
      have hc : ids.contains r.id = true := by
        rw [hrid]
        exact hlisted t (List.mem_cons_self t rest)
      obtain ⟨hp1, hp2⟩ := hpair0 r hr0 hc pid hpp
      exact ⟨by rw [← hrid]; exact hp1, fun l hl => hp2 l (hsubL l hl)⟩
    obtain ⟨q1, q2, q3, q4⟩ := delete_impl_preserves d t.id hwf hinv hcond
    exact ih _ q1 q2 (fun r hr => hsubT r (q3 r hr))
      (fun l hl => hsubL l (q4 l hl))
      (fun u hu => hlisted u (List.mem_cons_of_mem t hu))

/-- The per-wallet snapshot invalidation pass of `delete_transactions`
touches only snapshots. -/
theorem foldl_invalidate_core (pairs : List (Nat × Int)) :
    ∀ d : DB,
      (pairs.foldl (fun d p =>
        invalidate_snapshots d p.1 p.2) d).transactions = d.transactions ∧
      (pairs.foldl (fun d p =>
        invalidate_snapshots d p.1 p.2) d).linked_entries =
          d.linked_entries ∧
      (pairs.foldl (fun d p =>
        invalidate_snapshots d p.1 p.2) d).linked_transactions =
          d.linked_transactions ∧
      (pairs.foldl (fun d p =>
        invalidate_snapshots d p.1 p.2) d).next_transaction_id =
          d.next_transaction_id ∧
      (pairs.foldl (fun d p =>
        invalidate_snapshots d p.1 p.2) d).next_entry_id =
          d.next_entry_id ∧
      (pairs.foldl (fun d p =>
        invalidate_snapshots d p.1 p.2) d).next_link_id =
          d.next_link_id := by
  induction pairs with
  | nil =>
    intro d
    exact ⟨rfl, rfl, rfl, rfl, rfl, rfl⟩
  | cons p ps ih =>
    intro d
    rw [List.foldl_cons]
    exact ih (invalidate_snapshots d p.1 p.2)

/-- A successful batched delete, none of whose listed transactions has a
transfer pair that is itself or settles an entry, preserves
well-formedness and the settlement invariant. -/
theorem delete_transactions_preserves (db : DB) (today : Int)
    (ids : List Nat) (allow : Bool) (db' : DB)
    (hwf : store_wf db) (hinv : settlement_invariant db)
    (hpair : ∀ r ∈ db.transactions, ids.contains r.id = true →
      ∀ pid, r.paired_transaction_id = some pid →
        pid ≠ r.id ∧ ∀ l ∈ db.linked_transactions, l.transaction_id ≠ pid)
    (h : delete_transactions db today ids allow = (none, true, db')) :
    store_wf db' ∧ settlement_invariant db' := by
  unfold delete_transactions at h
  dsimp only at h
  split at h
  · simp at h
  · split at h
    · simp at h
    · injection h with h1 h2
      injection h2 with h3 h4
      subst h4
      obtain ⟨g1, g2, g3, g4, g5, g6⟩ := foldl_invalidate_core
        (min_dates_by_wallet (db.transactions.filter
          (fun t => ids.contains t.id)))
        ((db.transactions.filter (fun t => ids.contains t.id)).foldl
          (fun d t => (_delete_transaction_impl d t.id).2) db)
      obtain ⟨q1, q2⟩ := delete_fold_preserves db ids hpair
        (db.transactions.filter (fun t => ids.contains t.id)) db hwf hinv
        (fun r hr => hr) (fun l hl => hl)
        (fun u hu => (List.mem_filter.mp hu).2)
      exact ⟨store_wf_congr _ _ g1 g2 g3 g4 g5 g6 q1,
        settlement_invariant_congr _ _ g1 g2 g3 q2⟩

/-- `revert_settling` keeps the row's id. -/
theorem revert_settling_id (ids : List Nat) (t : Transaction) :
    (revert_settling ids t).id = t.id := by
  unfold revert_settling
  split
  · split
    · rfl
    · split
      · rfl
      · rfl
  · rfl

/-- `revert_settling` keeps the row's amount. -/
theorem revert_settling_amount (ids : List Nat) (t : Transaction) :
    (revert_settling ids t).amount = t.amount := by
  unfold revert_settling
  split
  · split
    · rfl
    · split
      · rfl
      · rfl
  · rfl

/-- `calculate_wallet_balance` writes at most a snapshot row: every
other field of the store is returned untouched. -/
theorem calculate_wallet_balance_tables (db : DB) (today : Int)
    (wid : Nat) (fd : Option Int) (tl : Bool) :
    ∃ S, (calculate_wallet_balance db today wid fd tl).2 =
      { db with snapshots := S } := by
  unfold calculate_wallet_balance
  cases hw : get_wallet db wid with
  | none => exact ⟨db.snapshots, rfl⟩
  | some wallet =>
    dsimp only
    repeat' split
    all_goals exact ⟨_, rfl⟩

/-- A per-row transaction map that keeps ids, keeps amounts nonnegative
and leaves every settled sum unchanged preserves well-formedness and the
settlement invariant. -/
theorem map_txn_preserves (d : DB) (g : Transaction → Transaction)
    (hid : ∀ x ∈ d.transactions, (g x).id = x.id)
    (hamt : ∀ x ∈ d.transactions, 0 ≤ x.amount → 0 ≤ (g x).amount)
    (hset : ∀ k, settled_of (d.transactions.map g)
        d.linked_transactions k =
      settled_of d.transactions d.linked_transactions k)
    (hwf : store_wf d) (hinv : settlement_invariant d) :
    store_wf { d with transactions := d.transactions.map g } ∧
    settlement_invariant { d with
      transactions := d.transactions.map g } := by
  obtain ⟨w1, w2, w3, w4, w5, w6, w7, w8⟩ := hwf
  have hids : (d.transactions.map g).map Transaction.id =
      d.transactions.map Transaction.id := by
    rw [List.map_map]
    exact List.map_congr_left (fun x hx => hid x hx)
  constructor
  · unfold store_wf
    dsimp only
    rw [hids]
    refine ⟨?_, w2, w3, w4, w5, w6, w7, w8⟩
    intro r hr
    obtain ⟨x, hx, rfl⟩ := List.mem_map.mp hr
    exact hamt x hx (w1 x hx)
  · intro e he
    have he' : e ∈ d.linked_entries := he
    obtain ⟨c1, c2⟩ := hinv e he'
    rw [settled_amount_eq] at c1
    refine ⟨?_, c2⟩
    rw [settled_amount_eq]
    dsimp only
    rw [hset e.id]
    exact c1

/-- Appending a fresh transaction row (nonnegative amount, id equal to
the transaction counter) and bumping the counter preserves
well-formedness and the settlement invariant. -/
theorem append_fresh_txn_preserves (d : DB) (t : Transaction)
    (hamt : 0 ≤ t.amount) (hid : t.id = d.next_transaction_id)
    (hwf : store_wf d) (hinv : settlement_invariant d) :
    store_wf { d with
      transactions := d.transactions ++ [t],
      next_transaction_id := d.next_transaction_id + 1 } ∧
    settlement_invariant { d with
      transactions := d.transactions ++ [t],
      next_transaction_id := d.next_transaction_id + 1 } := by
  obtain ⟨w1, w2, w3, w4, w5, w6, w7, w8⟩ := hwf
  constructor
  · unfold store_wf
    dsimp only
    refine ⟨?_, ?_, ?_, w4, w5, ?_, w7, w8⟩
    · intro r hr
      rcases List.mem_append.mp hr with hr' | hr'
      · exact w1 r hr'
      · have hrt : r = t := by simpa using hr'
        rw [hrt]
        exact hamt
    · rw [List.map_append]
      refine List.nodup_append.mpr ⟨w2, by simp, ?_⟩
      intro i hi hi2
      have hlt := w3 i hi
      have hieq : i = t.id := by simpa using hi2
      rw [hid] at hieq
      omega
    · intro i hi
      rw [List.map_append] at hi
      rcases List.mem_append.mp hi with hi' | hi'
      · have := w3 i hi'
        omega
      · have hieq : i = t.id := by simpa using hi'
        rw [hid] at hieq
        omega
    · intro l hl
      rw [List.map_append]
      exact List.mem_append_left _ (w6 l hl)
  · intro e he
    have he' : e ∈ d.linked_entries := he
    have hside : ∀ l ∈ d.linked_transactions,
        ∃ r ∈ d.transactions, r.id = l.transaction_id := by
      intro l hl
      obtain ⟨r, hr, hrid⟩ := List.mem_map.mp (w6 l hl)
      exact ⟨r, hr, hrid⟩
    constructor
    · rw [settled_amount_eq]
      dsimp only
      rw [settled_of_append_txn d.transactions [t] d.linked_transactions
          e.id hside,
        ← settled_amount_eq d e.id]
      exact (hinv e he').1
    · exact (hinv e he').2

/-- The adjustment amount computed by `calibrate_wallet` is
nonnegative. -/
theorem calib_dca_amount (diff : Int) :
    0 ≤ ((if 0 < diff then
        (TransactionDirection.INFLOW, TransactionClassification.INCOME,
          diff)
      else
        (TransactionDirection.OUTFLOW, TransactionClassification.EXPENSE,
          abs diff)) :
      TransactionDirection × TransactionClassification × Int).2.2 := by
  split
  · rename_i hd
    show 0 ≤ diff
    omega
  · exact abs_nonneg diff

/-- A successful wallet calibration preserves well-formedness and the
settlement invariant: the balance lookup writes at most a snapshot, and
the adjustment row is fresh with a nonnegative amount. -/
theorem calibrate_preserves (db : DB) (today : Int) (wid : Nat)
    (cb : Int) (t : Transaction) (db' : DB)
    (hwf : store_wf db) (hinv : settlement_invariant db)
    (h : calibrate_wallet db today wid cb = Except.ok (t, db')) :
    store_wf db' ∧ settlement_invariant db' := by
  unfold calibrate_wallet at h
  cases hw : get_wallet db wid with
  | none =>
    rw [hw] at h
    simp at h
  | some wallet =>
    rw [hw] at h
    dsimp only at h
    split at h
    · simp at h
    · injection h with h1
      injection h1 with ht hdb
      subst hdb
      obtain ⟨S, hS⟩ := calculate_wallet_balance_tables db today wid
        none true
      rw [hS]
      have hwf' : store_wf { db with snapshots := S } :=
        store_wf_congr db { db with snapshots := S }
          rfl rfl rfl rfl rfl rfl hwf
      have hinv' : settlement_invariant { db with snapshots := S } :=
        settlement_invariant_congr db { db with snapshots := S }
          rfl rfl rfl hinv
      refine append_fresh_txn_preserves { db with snapshots := S } _
        ?_ ?_ hwf' hinv'
      · exact calib_dca_amount _
      · rfl

/-- Rewriting one transaction row in place, keeping its id and a
nonnegative amount, preserves well-formedness; when no join row
references the rewritten id it also preserves the settlement
invariant. -/
theorem set_txn_row_preserves (d : DB) (tid : Nat) (t' : Transaction)
    (hid : t'.id = tid) (hamt : 0 ≤ t'.amount)
    (hnl : ∀ l ∈ d.linked_transactions, l.transaction_id ≠ tid)
    (hwf : store_wf d) (hinv : settlement_invariant d) :
    store_wf (set_transaction_row d tid t') ∧
    settlement_invariant (set_transaction_row d tid t') := by
  have hidg : ∀ x ∈ d.transactions,
      ((fun x => if x.id == tid then t' else x) x).id = x.id := by
    intro x hx
    by_cases hc : (x.id == tid) = true
    · have hx' : x.id = tid := by simpa using hc
      dsimp only
      rw [if_pos hc, hid, hx']
    · dsimp only
      rw [if_neg hc]
  have hamtg : ∀ x ∈ d.transactions, 0 ≤ x.amount →
      0 ≤ ((fun x => if x.id == tid then t' else x) x).amount := by
    intro x hx h0
    by_cases hc : (x.id == tid) = true
    · dsimp only
      rw [if_pos hc]
      exact hamt
    · dsimp only
      rw [if_neg hc]
      exact h0
  have hset : ∀ k, settled_of (d.transactions.map
        (fun x => if x.id == tid then t' else x))
        d.linked_transactions k =
      settled_of d.transactions d.linked_transactions k := by
    intro k
    refine settled_of_map_untouched d.transactions _
      d.linked_transactions k hidg ?_
    intro l hl hlk x hx hxi
    dsimp only
    rw [if_neg ?_]
    simp only [hxi]
    simpa using hnl l hl
  exact map_txn_preserves d _ hidg hamtg hset hwf hinv

/-- Rewriting one transaction row by a row with the same id and amount
preserves well-formedness and the settlement invariant. -/
theorem set_txn_row_samerow_preserves (d : DB) (tid : Nat)
    (txn t' : Transaction) (hfind : get_transaction d tid = some txn)
    (hid : t'.id = txn.id) (hamt : t'.amount = txn.amount)
    (hwf : store_wf d) (hinv : settlement_invariant d) :
    store_wf (set_transaction_row d tid t') ∧
    settlement_invariant (set_transaction_row d tid t') := by
  have htmem : txn ∈ d.transactions := List.mem_of_find?_eq_some hfind
  have htid : txn.id = tid := by simpa using List.find?_some hfind
  have hsame : ∀ x ∈ d.transactions, x.id = tid → x = txn := by
    intro x hx hxi
    exact nodup_key_eq Transaction.id d.transactions hwf.2.1 x hx txn
      htmem (by rw [hxi, htid])
  have hidg : ∀ x ∈ d.transactions,
      ((fun x => if x.id == tid then t' else x) x).id = x.id := by
    intro x hx
    by_cases hc : (x.id == tid) = true
    · have hx' : x.id = tid := by simpa using hc
      dsimp only
      rw [if_pos hc, hid, hsame x hx hx']
    · dsimp only
      rw [if_neg hc]
  have hamtg : ∀ x ∈ d.transactions,
      ((fun x => if x.id == tid then t' else x) x).amount = x.amount := by
    intro x hx
    by_cases hc : (x.id == tid) = true
    · have hx' : x.id = tid := by simpa using hc
      dsimp only
      rw [if_pos hc, hamt, hsame x hx hx']
    · dsimp only
      rw [if_neg hc]
  refine map_txn_preserves d _ hidg ?_ ?_ hwf hinv
  · intro x hx h0
    rw [hamtg x hx]
    exact h0
  · intro k
    exact settled_of_map d.transactions _ d.linked_transactions k hidg
      hamtg

/-- The entry-deletion phase of `unclassify_transaction` preserves
well-formedness and the settlement invariant: the classification
reverts keep ids and amounts, and the cascade removes the entry with
exactly its own join rows. -/
theorem unclassify_delete_entry_preserves (d : DB) (tid : Nat)
    (hwf : store_wf d) (hinv : settlement_invariant d) :
    store_wf (unclassify_delete_entry d tid) ∧
    settlement_invariant (unclassify_delete_entry d tid) := by
  unfold unclassify_delete_entry
  cases hf : d.linked_entries.find?
      (fun e => e.primary_transaction_id == tid) with
  | none => exact ⟨hwf, hinv⟩
  | some entry =>
    dsimp only
    obtain ⟨p1, p2⟩ := map_txn_preserves d
      (revert_settling ((d.linked_transactions.filter
        (fun l => l.linked_entry_id == entry.id)).map
          LinkedTransaction.transaction_id))
      (fun x _ => revert_settling_id _ x)
      (fun x _ h0 => by rw [revert_settling_amount]; exact h0)
      (fun k => settled_of_map d.transactions _ d.linked_transactions k
        (fun x _ => revert_settling_id _ x)
        (fun x _ => revert_settling_amount _ x))
      hwf hinv
    exact delete_entry_cascade_preserves _ entry.id p1 p2

/-- The primary-classification revert of `unclassify_transaction`
preserves well-formedness and the settlement invariant. -/
theorem unclassify_revert_primary_preserves (d : DB) (tid : Nat)
    (hwf : store_wf d) (hinv : settlement_invariant d) :
    store_wf (unclassify_revert_primary d tid) ∧
    settlement_invariant (unclassify_revert_primary d tid) := by
  unfold unclassify_revert_primary
  cases hg : get_transaction d tid with
  | none => exact ⟨hwf, hinv⟩
  | some txn =>
    dsimp only
    split
    · exact set_txn_row_samerow_preserves d tid txn _ hg rfl rfl hwf hinv
    · split
      · exact set_txn_row_samerow_preserves d tid txn _ hg rfl rfl hwf
          hinv
      · split
        · exact set_txn_row_samerow_preserves d tid txn _ hg rfl rfl hwf
            hinv
        · exact ⟨hwf, hinv⟩

/-- `unclassify_transaction` preserves well-formedness and the
settlement invariant, on the found and the not-found path alike. -/
theorem unclassify_preserves (db : DB) (tid : Nat)
    (hwf : store_wf db) (hinv : settlement_invariant db) :
    store_wf (unclassify_transaction db tid).2 ∧
    settlement_invariant (unclassify_transaction db tid).2 := by
  unfold unclassify_transaction
  cases hg : get_transaction db tid with
  | none => exact ⟨hwf, hinv⟩
  | some txn =>
    dsimp only
    obtain ⟨p1, p2⟩ := unclassify_delete_entry_preserves db tid hwf hinv
    exact unclassify_revert_primary_preserves _ tid p1 p2

/-- A successful calibration resolution whose calibration row is not
referenced by any join row preserves well-formedness and the settlement
invariant. -/
theorem resolve_calibration_preserves (db : DB) (today : Int) (cid : Nat)
    (data : TransactionCreate) (res : ResolveCalibrationResult) (db' : DB)
    (hamt : 0 < data.amount)
    (hnl : ∀ l ∈ db.linked_transactions, l.transaction_id ≠ cid)
    (hwf : store_wf db) (hinv : settlement_invariant db)
    (h : resolve_calibration db today cid data = Except.ok (res, db')) :
    store_wf db' ∧ settlement_invariant db' := by
  unfold resolve_calibration at h
  cases hg : get_transaction db cid with
  | none =>
    rw [hg] at h
    simp at h
  | some calibration =>
    rw [hg] at h
    dsimp only at h
    have hcid : calibration.id = cid := by
      simpa using List.find?_some hg
    split at h
    · simp at h
    · cases hc : create_transaction db today
          (if data.wallet_id != calibration.wallet_id then
            { data with wallet_id := calibration.wallet_id }
          else data) with
      | error e =>
        rw [hc] at h
        simp at h
      | ok p =>
        obtain ⟨new_txn, db1⟩ := p
        rw [hc] at h
        dsimp only at h
        have hamt' : 0 < (if data.wallet_id != calibration.wallet_id then
            { data with wallet_id := calibration.wallet_id }
          else data).amount := by
          split
          · exact hamt
          · exact hamt
        obtain ⟨q1, q2⟩ := create_transaction_preserves db today _
          new_txn db1 hamt' hwf hinv hc
        obtain ⟨ht0, hT, hE, hL, hn1, hn2, hn3⟩ :=
          create_transaction_shape db today _ new_txn db1 hc
        have hnl1 : ∀ l ∈ db1.linked_transactions,
            l.transaction_id ≠ cid := by
          rw [hL]
          exact hnl
        split at h
        · split at h
          · injection h with h1
            injection h1 with hres hdb
            subst hdb
            exact set_txn_row_preserves db1 cid _ hcid (le_refl 0) hnl1
              q1 q2
          · split at h
            · injection h with h1
              injection h1 with hres hdb
              subst hdb
              exact set_txn_row_preserves db1 cid _ hcid (abs_nonneg _)
                hnl1 q1 q2
            · rename_i hnneg
              injection h with h1
              injection h1 with hres hdb
              subst hdb
              refine set_txn_row_preserves db1 cid _ hcid ?_ hnl1 q1 q2
              show 0 ≤ calibration.amount - new_txn.amount
              omega
        · split at h
          · injection h with h1
            injection h1 with hres hdb
            subst hdb
            exact set_txn_row_preserves db1 cid _ hcid (le_refl 0) hnl1
              q1 q2
          · split at h
            · injection h with h1
              injection h1 with hres hdb
              subst hdb
              exact set_txn_row_preserves db1 cid _ hcid (abs_nonneg _)
                hnl1 q1 q2
            · rename_i hnneg
              injection h with h1
              injection h1 with hres hdb
              subst hdb
              refine set_txn_row_preserves db1 cid _ hcid ?_ hnl1 q1 q2
              show 0 ≤ calibration.amount + new_txn.amount
              omega

/-- One mutating operation of the service layer on its success path
(`unclassify_transaction` also on its not-found path), covering the
mutating surface of the core: transaction creation, linked-entry
creation, linking, unlinking, entry update, transaction update, batched
delete, unclassification, wallet calibration and calibration
resolution.  Each constructor carries the side conditions under which
conservation is provable: schema-positive amounts, user shares only on
split-payment entries, no amount rewrite that reaches a linked
transaction (directly or through the transfer-pair propagation), no
batched delete listing a row whose transfer pair is the row itself or
settles an entry, and no calibration resolution of a calibration row
that itself settles an entry. -/
inductive Step : DB → DB → Prop where
  | createTxn (db : DB) (today : Int) (tc : TransactionCreate)
      (t : Transaction) (db' : DB) (hamt : 0 < tc.amount)
      (h : create_transaction db today tc = Except.ok (t, db')) :
      Step db db'
  | createEntry (db : DB) (lc : LinkedEntryCreate) (db' : DB)
      (huser : lc.link_type ≠ LinkType.SPLIT_PAYMENT →
        lc.user_amount.getD 0 = 0)
      (h : create_linked_entry db lc = (none, db')) : Step db db'
  | link (db : DB) (entry_id : Nat) (ids : List Nat) (db' : DB)
      (h : link_transactions db entry_id ids = (none, db')) : Step db db'
  | unlink (db : DB) (lid : Nat) (db' : DB)
      (h : unlink_transaction db lid = (none, db')) : Step db db'
  | updateEntry (db : DB) (eid : Nat) (u : LinkedEntryUpdate) (db' : DB)
      (h : update_linked_entry db eid u = (none, true, db')) : Step db db'
  | updateTxn (db : DB) (today : Int) (tid : Nat) (u : TransactionUpdate)
      (db' : DB) (hamt : ∀ a, u.amount = some a → 0 < a)
      (hlinks : u.amount = none ∨
        ((∀ l ∈ db.linked_transactions, l.transaction_id ≠ tid) ∧
         (∀ t0, get_transaction db tid = some t0 →
           ∀ pid, (update_fields t0 u).paired_transaction_id = some pid →
             ∀ l ∈ db.linked_transactions, l.transaction_id ≠ pid)))
      (h : update_transaction db today tid u = (none, true, db')) :
      Step db db'
  | deleteTxns (db : DB) (today : Int) (ids : List Nat) (allow : Bool)
      (db' : DB)
      (hpair : ∀ r ∈ db.transactions, ids.contains r.id = true →
        ∀ pid, r.paired_transaction_id = some pid →
          pid ≠ r.id ∧
            ∀ l ∈ db.linked_transactions, l.transaction_id ≠ pid)
      (h : delete_transactions db today ids allow = (none, true, db')) :
      Step db db'
  | unclassify (db : DB) (tid : Nat) (ok : Bool) (db' : DB)
      (h : unclassify_transaction db tid = (ok, db')) : Step db db'
  | calibrate (db : DB) (today : Int) (wid : Nat) (cb : Int)
      (t : Transaction) (db' : DB)
      (h : calibrate_wallet db today wid cb = Except.ok (t, db')) :
      Step db db'
  | resolveCal (db : DB) (today : Int) (cid : Nat)
      (data : TransactionCreate) (res : ResolveCalibrationResult)
      (db' : DB) (hamt : 0 < data.amount)
      (hnl : ∀ l ∈ db.linked_transactions, l.transaction_id ≠ cid)
      (h : resolve_calibration db today cid data = Except.ok (res, db')) :
      Step db db'

def c5x_db0 : DB := ⟨[⟨1, WalletType.NORMAL⟩], [], [], [], [], 1, 1, 1⟩

def c5x_tc1 : TransactionCreate :=
  ⟨10, 1, TransactionDirection.OUTFLOW, 5000,
    TransactionClassification.LEND, none, none, false, false, false⟩

def c5x_tc2 : TransactionCreate :=
  ⟨20, 1, TransactionDirection.INFLOW, 2000,
    TransactionClassification.INCOME, none, none, false, false, false⟩

def c5x_t1 : Transaction :=
  ⟨1, 10, 1, TransactionDirection.OUTFLOW, 5000,
    TransactionClassification.LEND, none, none, false, false⟩

def c5x_t2 : Transaction :=
  ⟨2, 20, 1, TransactionDirection.INFLOW, 2000,
    TransactionClassification.INCOME, none, none, false, false⟩

def c5x_t2a : Transaction :=
  ⟨2, 20, 1, TransactionDirection.INFLOW, 2000,
    TransactionClassification.DEBT_COLLECTION, none, none, false, false⟩

def c5x_t2b : Transaction :=
  ⟨2, 20, 1, TransactionDirection.INFLOW, 5000,
    TransactionClassification.DEBT_COLLECTION, none, none, false, false⟩

def c5x_e1 : LinkedEntry :=
  ⟨1, LinkType.LOAN, 1, 5000, none, 5000, LinkStatus.PENDING⟩

def c5x_e1a : LinkedEntry :=
  ⟨1, LinkType.LOAN, 1, 5000, none, 3000, LinkStatus.PARTIALLY⟩

def c5x_db1 : DB :=
  ⟨[⟨1, WalletType.NORMAL⟩], [c5x_t1], [], [], [], 2, 1, 1⟩

def c5x_db2 : DB :=
  ⟨[⟨1, WalletType.NORMAL⟩], [c5x_t1], [], [c5x_e1], [], 2, 2, 1⟩

def c5x_db3 : DB :=
  ⟨[⟨1, WalletType.NORMAL⟩], [c5x_t1, c5x_t2], [], [c5x_e1], [], 3, 2, 1⟩

def c5x_db4 : DB :=
  ⟨[⟨1, WalletType.NORMAL⟩], [c5x_t1, c5x_t2a], [], [c5x_e1a],
    [⟨1, 1, 2⟩], 3, 2, 2⟩

def c5x_db5 : DB :=
  ⟨[⟨1, WalletType.NORMAL⟩], [c5x_t1, c5x_t2b], [], [c5x_e1a],
    [⟨1, 1, 2⟩], 3, 2, 2⟩

def c5x_u : TransactionUpdate := { amount := some 5000 }

def c5y_tc1 : TransactionCreate :=
  ⟨100, 1, TransactionDirection.OUTFLOW, 5000,
    TransactionClassification.LEND, none, none, false, false, false⟩

def c5y_rc : TransactionCreate :=
  ⟨100, 1, TransactionDirection.INFLOW, 2000,
    TransactionClassification.INCOME, none, none, false, false, false⟩

def c5y_t1 : Transaction :=
  ⟨1, 100, 1, TransactionDirection.OUTFLOW, 5000,
    TransactionClassification.LEND, none, none, false, false⟩

def c5y_cal0 : Transaction :=
  ⟨2, 100, 1, TransactionDirection.INFLOW, 2000,
    TransactionClassification.INCOME, some "CALIBRATION", none, false,
    true⟩

def c5y_cal1 : Transaction :=
  ⟨2, 100, 1, TransactionDirection.INFLOW, 2000,
    TransactionClassification.DEBT_COLLECTION, some "CALIBRATION", none,
    false, true⟩

def c5y_cal2 : Transaction :=
  ⟨2, 100, 1, TransactionDirection.INFLOW, 0,
    TransactionClassification.DEBT_COLLECTION, some "CALIBRATION", none,
    true, true⟩

def c5y_t3 : Transaction :=
  ⟨3, 100, 1, TransactionDirection.INFLOW, 2000,
    TransactionClassification.INCOME, none, none, false, false⟩

def c5y_e1 : LinkedEntry :=
  ⟨1, LinkType.LOAN, 1, 5000, none, 5000, LinkStatus.PENDING⟩

def c5y_e1a : LinkedEntry :=
  ⟨1, LinkType.LOAN, 1, 5000, none, 3000, LinkStatus.PARTIALLY⟩

def c5y_db0 : DB := ⟨[⟨1, WalletType.NORMAL⟩], [], [], [], [], 1, 1, 1⟩

def c5y_db1 : DB :=
  ⟨[⟨1, WalletType.NORMAL⟩], [c5y_t1], [], [], [], 2, 1, 1⟩

def c5y_db2 : DB :=
  ⟨[⟨1, WalletType.NORMAL⟩], [c5y_t1], [], [c5y_e1], [], 2, 2, 1⟩

def c5y_db3 : DB :=
  ⟨[⟨1, WalletType.NORMAL⟩], [c5y_t1, c5y_cal0], [⟨1, 99, 0⟩],
    [c5y_e1], [], 3, 2, 1⟩

def c5y_db4 : DB :=
  ⟨[⟨1, WalletType.NORMAL⟩], [c5y_t1, c5y_cal1], [⟨1, 99, 0⟩],
    [c5y_e1a], [⟨1, 1, 2⟩], 3, 2, 2⟩

def c5y_db5 : DB :=
  ⟨[⟨1, WalletType.NORMAL⟩], [c5y_t1, c5y_cal2, c5y_t3], [⟨1, 99, 0⟩],
    [c5y_e1a], [⟨1, 1, 2⟩], 4, 2, 2⟩

def c5y_res : ResolveCalibrationResult := ⟨c5y_t3, false, some c5y_cal2⟩

/-- C5: counterexample to the literal claim, two independent violations
reached by core operations alone.  First, amount rewrite: lend 5000,
create a Loan entry, record a 2000 income, link it, then
`update_transaction` raises the linked transaction's amount to 5000 —
the entry is left with `pending_amount` 3000 and a linked sum of 5000
against a `total_amount` of 5000, because the amount update never
adjusts `pending_amount`.  Second, calibration resolution: lend 5000,
create a Loan entry, calibrate the wallet (creating a 2000-inflow
calibration row, which `link_transactions` accepts like any income),
link it, then fully resolve the calibration — `resolve_calibration`
rewrites the linked calibration's amount to 0 without touching
`pending_amount`, leaving pending 3000 and a linked sum of 0 against a
total of 5000.  In both final states the claimed equation
`pending + Σ(linked amounts) = total − (user or 0)` fails. -/
theorem settlement_conservation_counterexample :
    (create_transaction c5x_db0 100 c5x_tc1 =
        Except.ok (c5x_t1, c5x_db1) ∧
      create_linked_entry c5x_db1 ⟨1, LinkType.LOAN, none⟩ =
        (none, c5x_db2) ∧
      create_transaction c5x_db2 100 c5x_tc2 =
        Except.ok (c5x_t2, c5x_db3) ∧
      link_transactions c5x_db3 1 [2] = (none, c5x_db4) ∧
      update_transaction c5x_db4 100 2 c5x_u = (none, true, c5x_db5) ∧
      ∃ e ∈ c5x_db5.linked_entries,
        e.pending_amount + settled_amount c5x_db5 e.id ≠
          e.total_amount - e.user_amount.getD 0) ∧
    (create_transaction c5y_db0 100 c5y_tc1 =
        Except.ok (c5y_t1, c5y_db1) ∧
      create_linked_entry c5y_db1 ⟨1, LinkType.LOAN, none⟩ =
        (none, c5y_db2) ∧
      calibrate_wallet c5y_db2 100 1 (-3000) =
        Except.ok (c5y_cal0, c5y_db3) ∧
      link_transactions c5y_db3 1 [2] = (none, c5y_db4) ∧
      store_wf c5y_db4 ∧ settlement_invariant c5y_db4 ∧
      resolve_calibration c5y_db4 100 2 c5y_rc =
        Except.ok (c5y_res, c5y_db5) ∧
      ∃ e ∈ c5y_db5.linked_entries,
        e.pending_amount + settled_amount c5y_db5 e.id ≠
          e.total_amount - e.user_amount.getD 0) :=
  ⟨⟨rfl, rfl, rfl, rfl, rfl, by decide⟩,
    ⟨rfl, rfl, rfl, rfl, by decide, by decide, rfl, by decide⟩⟩

/-- Each covered service step preserves well-formedness and the
settlement-conservation invariant: case dispatch over the `Step`
constructors to the per-operation preservation lemmas. -/
theorem step_preserves_conservation (db db' : DB)
    (hwf : store_wf db) (hinv : settlement_invariant db)
    (hs : Step db db') : store_wf db' ∧ settlement_invariant db' := by
  revert hwf hinv
  induction hs with
  | createTxn today tc t db' hamt h =>
    intro hwf hinv
    exact create_transaction_preserves db today tc t db' hamt hwf hinv h
  | createEntry lc db' huser h =>
    intro hwf hinv
    exact create_linked_entry_preserves db lc db' hwf hinv huser h
  | link entry_id ids db' h =>
    intro hwf hinv
    exact link_transactions_preserves db entry_id ids db' hwf hinv h
  | unlink lid db' h =>
    intro hwf hinv
    obtain ⟨p1, p2, -, -, -, -, -⟩ := unlink_preserves db lid hwf hinv
    rw [h] at p1 p2
    exact ⟨p1, p2⟩
  | updateEntry eid u db' h =>
    intro hwf hinv
    exact update_linked_entry_preserves db eid u db' hwf hinv h
  | updateTxn today tid u db' hamt hlinks h =>
    intro hwf hinv
    exact update_transaction_preserves db today tid u db' hwf hinv hamt
      hlinks h
  | deleteTxns today ids allow db' hpair h =>
    intro hwf hinv
    exact delete_transactions_preserves db today ids allow db' hwf hinv
      hpair h
  | unclassify tid ok db' h =>
    intro hwf hinv
    obtain ⟨p1, p2⟩ := unclassify_preserves db tid hwf hinv
    rw [h] at p1 p2
    exact ⟨p1, p2⟩
  | calibrate today wid cb t db' h =>
    intro hwf hinv
    exact calibrate_preserves db today wid cb t db' hwf hinv h
  | resolveCal today cid data res db' hamt hnl h =>
    intro hwf hinv
    exact resolve_calibration_preserves db today cid data res db' hamt
      hnl hwf hinv h

/-- Reachability by the covered service steps: the reflexive-transitive
closure of `Step`. -/
inductive Reaches : DB → DB → Prop where
  | refl (db : DB) : Reaches db db
  | tail (db db1 db2 : DB) (h : Reaches db db1) (hs : Step db1 db2) :
      Reaches db db2

/-- C5 (amended): settlement conservation holds in every state reachable
by the core mutating operations — transaction creation, linked-entry
creation, linking, unlinking, entry update, transaction update, batched
delete, unclassification, wallet calibration and calibration
resolution — provided the steps taken satisfy the conditions the
services otherwise rely on: created and updated amounts are positive (as
the schemas validate), `user_amount` is only supplied when creating
split-payment entries, `update_transaction` never changes the amount of
a transaction that settles an entry (nor of its propagated transfer
pair), batched deletes never list a transaction whose transfer pair is
itself or settles an entry, and `resolve_calibration` is never applied
to a calibration row that itself settles an entry.  Formally: from any
well-formed store satisfying the invariant, every state reachable by
such steps is well-formed and each of its entries satisfies
`pending_amount + Σ(linked transaction amounts) =
total_amount − (user_amount or 0)` with `pending_amount ≥ 0`. -/
theorem settlement_conservation_amended (db db' : DB)
    (hwf : store_wf db) (hinv : settlement_invariant db)
    (hr : Reaches db db') : store_wf db' ∧ settlement_invariant db' := by
  induction hr with
  | refl => exact ⟨hwf, hinv⟩
  | tail db1 db2 h hs ih =>
    exact step_preserves_conservation db1 db2 ih.1 ih.2 hs

def c5w_db2 : DB :=
  ⟨[⟨1, WalletType.NORMAL⟩], [c5x_t1], [], [], [], 2, 1, 1⟩

/-- Closed instance of the amended conservation theorem: a fresh
one-wallet store satisfies well-formedness and the invariant, and so
does the state reached from it by inserting a lend transaction. -/
theorem settlement_conservation_amended_witness :
    store_wf c5x_db0 ∧ settlement_invariant c5x_db0 ∧
    (store_wf c5w_db2 ∧ settlement_invariant c5w_db2) :=
  ⟨by decide, by decide,
    settlement_conservation_amended c5x_db0 c5w_db2 (by decide) (by decide)
      (Reaches.tail c5x_db0 c5x_db0 c5w_db2 (Reaches.refl c5x_db0)
        (Step.createTxn c5x_db0 100 c5x_tc1 c5x_t1 c5w_db2 (by decide)
          (by rfl)))⟩
